import Mathlib

/-!
# Masternode payments (src/masternode-payments.cpp)

A shallow embedding of the vote ledger, the per-height tally and the consensus
entry points of `masternode-payments.cpp`, with the properties stated about them.

Conventions of the embedding
* `int`, `int64_t` and `CAmount` are `Int`. What the collaborators give (the
  tip height, the counts of the registry, amounts) is taken to stay far inside
  the machine range, so `nHeight + 20`, `nHeight + 1` and `int(count * 1.25)` do
  not leave it, and `nBlockHeight - 100` is only handed to a collaborator. Where
  the code subtracts from the tip height a value that comes from the wire or
  from a file (`nHeight - winner.nBlockHeight` in `CleanPaymentList`,
  `nHeight - nCountNeeded` in `Sync`) the result is the 32-bit value `wrapInt`
  of the exact difference.
* `block.vtx[i]` in `IsBlockPayeeValid` has no result for an index the block
  does not have: the check returns an `Option`.
* `uint256` is `Nat`, a script is its list of bytes.
* `std::map` is a list of key/value pairs kept in key order by `mapInsert`;
  `count`, `operator[]`, `erase(key)` are `mapCount`, `mapFind`/`mapInsert`,
  `mapErase`.
* `int x = a - (c * 1.25)` is exact in `double` for 32-bit operands, so the
  conversion to `int` is the truncation toward zero `Int.tdiv (4 * a - 5 * c) 4`.
* collaborators that live outside the file (registry, sporks, budget, chain
  state, signer) are fields of `Env`.
-/

namespace MasternodePayments

/-! ## Data model -/

/-- A `uint256` value. -/
abbrev uint256 := Nat

/-- A `CScript`: the bytes of a locking script. -/
abbrev CScript := List Nat

/-- A `CAmount` (`int64_t`). -/
abbrev CAmount := Int

/-- An outpoint: transaction hash and output index. -/
structure COutPoint where
  hash : uint256
  n : Nat
deriving DecidableEq

/-- A transaction input; only the outpoint it spends is used in this file. -/
structure CTxIn where
  prevout : COutPoint
deriving DecidableEq

/-- A transaction output. -/
structure CTxOut where
  nValue : CAmount
  scriptPubKey : CScript
deriving DecidableEq

/-- A transaction; only its outputs are used in this file. -/
structure CTransaction where
  vout : List CTxOut
deriving DecidableEq

/-- A block: its transactions and the hash of the previous block. -/
structure CBlock where
  vtx : List CTransaction
  hashPrevBlock : uint256
deriving DecidableEq

/-- One entry of a tally: a payee script and the votes it has. -/
structure CMasternodePayee where
  scriptPubKey : CScript
  nVotes : Int
deriving DecidableEq

/-- The tally of one height: `vecPayments` in first-seen order. -/
structure CMasternodeBlockPayees where
  nBlockHeight : Int
  vecPayments : List CMasternodePayee
deriving DecidableEq

/-- A vote: voter input, target height, payee script and signature. -/
structure CMasternodePaymentWinner where
  vinMasternode : CTxIn
  nBlockHeight : Int
  payee : CScript
  vchSig : List Nat
deriving DecidableEq

/-- A registry entry as far as this file reads it. -/
structure CMasternode where
  protocolVersion : Int
  pubKeyCollateralAddress : CScript
  pubKeyMasternode : Nat
deriving DecidableEq

/-- The spork identifiers read by this file. -/
inductive Spork where
  | SPORK_8_MASTERNODE_PAYMENT_ENFORCEMENT
  | SPORK_9_MASTERNODE_BUDGET_ENFORCEMENT
  | SPORK_13_ENABLE_SUPERBLOCKS
deriving DecidableEq

/-- The collaborators of the file, read at the moment of one call: sync state,
chain state, registry, sporks, budget subsystem, payment schedule, signer and the
constants of `masternode-payments.h` and of the chain parameters. -/
structure Env where
  /-- The result of `masternodeSync.IsBlockchainSynced()`. -/
  IsBlockchainSynced : Bool
  /-- The result of `masternodeSync.IsSynced()`. -/
  IsSynced : Bool
  /-- The global `fLiteMode`. -/
  fLiteMode : Bool
  /-- The result of `ActiveProtocol()`. -/
  ActiveProtocol : Int
  /-- The height `chainActive.Tip()->nHeight` when `cs_main` could be taken and the tip is
  not `NULL`, `none` otherwise. -/
  tipHeight : Option Int
  /-- The call `GetBlockHash(hash, h)`: the hash when it succeeds. -/
  GetBlockHash : Int → Option uint256
  /-- The result of `mnodeman.CountEnabled()`. -/
  CountEnabled : Int
  /-- The result of `mnodeman.size()`. -/
  mnodemanSize : Int
  /-- The lookup `mnodeman.Find(vin)`. -/
  Find : CTxIn → Option CMasternode
  /-- The rank `mnodeman.GetMasternodeRank(vin, height, minProtocol)`. -/
  GetMasternodeRank : CTxIn → Int → Int → Int
  /-- The check `obfuScationSigner.VerifyMessage(pubkey, vchSig, message)`, the message
  being the outpoint, the height and the payee that the source concatenates. -/
  VerifyMessage : Nat → List Nat → COutPoint × Int × CScript → Bool
  /-- The hash `CMasternodePaymentWinner::GetHash()` of a vote. -/
  GetHash : CMasternodePaymentWinner → uint256
  /-- The flag `IsSporkActive(id)`. -/
  IsSporkActive : Spork → Bool
  /-- The predicate `budget.IsBudgetPaymentBlock(height)`. -/
  IsBudgetPaymentBlock : Int → Bool
  /-- The check `budget.IsTransactionValid(tx, height)`. -/
  budgetIsTransactionValid : CTransaction → Int → Bool
  /-- The reward `GetBlockValue(height)`. -/
  GetBlockValue : Int → CAmount
  /-- The schedule `GetMasternodePayment(height, blockValue, nMasternodeCount)`. -/
  GetMasternodePayment : Int → CAmount → Int → CAmount
  /-- The parameter `Params().MasternodeCountDrift()`. -/
  MasternodeCountDrift : Int
  /-- The parameter `Params().LAST_POW_BLOCK()`. -/
  LAST_POW_BLOCK : Int
  /-- Whether `Params().NetworkID() == CBaseChainParams::MAIN`. -/
  isMainNetwork : Bool
  /-- The constant `MNPAYMENTS_SIGNATURES_TOTAL` of `masternode-payments.h`. -/
  MNPAYMENTS_SIGNATURES_TOTAL : Int
  /-- The index `chainActive.Tip()` read without a lock: the hash and the height of
  the tip, `none` when it is `NULL`. -/
  chainTip : Option (uint256 × Int)
  /-- The lookup `mapBlockIndex.find(hash)`: the height of the index found, `none`
  when there is no entry or the entry is `NULL`. -/
  mapBlockIndex : uint256 → Option Int
  /-- The result of `GetBudgetPaymentCycleBlocks()`. -/
  GetBudgetPaymentCycleBlocks : Int
  /-- The sum `CTransaction::GetValueOut()`. -/
  GetValueOut : CTransaction → CAmount
  /-- The node `mnodeman.GetCurrentMasterNode(1)`, `none` when it is `NULL`. -/
  GetCurrentMasterNode : Option CMasternode
  /-- The script `GetScriptForDestination(pubKeyCollateralAddress.GetID())`. -/
  GetScriptForDestination : List Nat → CScript
  /-- The call `GetMasternodePayment(height, blockValue)` with two arguments, the
  third being the default of its declaration. -/
  GetMasternodePaymentDefault : Int → CAmount → CAmount
  /-- The call `budget.FillBlockPayee(txNew, nFees, fProofOfStake)`: the
  transaction it leaves. -/
  budgetFillBlockPayee : CTransaction → CAmount → Bool → CTransaction
  /-- The global `fMasterNode`. -/
  fMasterNode : Bool
  /-- The input `activeMasternode.vin`. -/
  activeMasternodeVin : CTxIn
  /-- The constructor `CMasternodePaymentWinner(vinIn)` of `masternode-payments.h`:
  the vote it builds, before `ProcessBlock` fills in a height and a payee. -/
  newWinner : CTxIn → CMasternodePaymentWinner
  /-- The node `mnodeman.GetNextMasternodeInQueueForPayment(height, true, nCount)`,
  `none` when it is `NULL`. -/
  GetNextMasternodeInQueueForPayment : Int → Option CMasternode
  /-- The call `obfuScationSigner.SetKey(strMasterNodePrivKey, ...)`: the key and
  the public key when it succeeds. -/
  SetKey : Option (Nat × Nat)
  /-- The call `obfuScationSigner.SignMessage(message, ..., vchSig, key)`: the
  signature when it succeeds. -/
  SignMessage : COutPoint × Int × CScript → Nat → Option (List Nat)
  /-- The four bytes `Params().MessageStart()`. -/
  MessageStart : List Nat

/-- Modelled from the spec: the constant `MNPAYMENTS_SIGNATURES_REQUIRED` of
`masternode-payments.h`, which the spec gives as `signatures_required = 6` (and
the source comment as "require at least 6 signatures"). -/
def MNPAYMENTS_SIGNATURES_REQUIRED : Int := 6

/-! ## Machine integers -/

/-- The value an `int` holds when the exact result of an operation is `x`: `x`
itself inside `[-2^31, 2^31)`, and outside it the residue of `x` modulo `2^32`
in that range (the two's-complement result). -/
def wrapInt (x : Int) : Int := (x + 2147483648) % 4294967296 - 2147483648

/-! ## `std::map` as a key-ordered list -/

/-- The `m.count(k)` test of a map. -/
def mapCount {κ α : Type} [DecidableEq κ] (m : List (κ × α)) (k : κ) : Bool :=
  m.any (fun p => decide (p.1 = k))

/-- The `m.find(k)` lookup of a map: the value stored under `k`. -/
def mapFind {κ α : Type} [DecidableEq κ] : List (κ × α) → κ → Option α
  | [], _ => none
  | (k', v) :: t, k => if k' = k then some v else mapFind t k

/-- The assignment `m[k] = v`: replaces the value under `k` or inserts the pair
at its place in key order. -/
def mapInsert {κ α : Type} [LinearOrder κ] (k : κ) (v : α) : List (κ × α) → List (κ × α)
  | [] => [(k, v)]
  | (k', v') :: t =>
    if k < k' then (k, v) :: (k', v') :: t
    else if k = k' then (k, v) :: t
    else (k', v') :: mapInsert k v t

/-- The `m.erase(k)` of a map: no pair with key `k` is left. -/
def mapErase {κ α : Type} [DecidableEq κ] (k : κ) (m : List (κ × α)) : List (κ × α) :=
  m.filter (fun p => decide (p.1 ≠ k))

/-! ## `CMasternodeBlockPayees` -/

/-- The first loop of `CMasternodeBlockPayees::IsTransactionValid` (lines
537-539): the largest vote count among the payees that reach the threshold,
`0` when none does. -/
def maxSignatures (vecPayments : List CMasternodePayee) : Int :=
  vecPayments.foldl
    (fun nMaxSignatures payee =>
      if payee.nVotes ≥ nMaxSignatures ∧ payee.nVotes ≥ MNPAYMENTS_SIGNATURES_REQUIRED
      then payee.nVotes else nMaxSignatures)
    0

/-- The inner loop over `txNew.vout` (lines 545-554): `found` becomes true at an
output with the payee's script and a value of at least the required payment. -/
def foundPayment (payee : CMasternodePayee) (vout : List CTxOut)
    (requiredMasternodePayment : CAmount) : Bool :=
  vout.foldl
    (fun found out =>
      if payee.scriptPubKey = out.scriptPubKey then
        if out.nValue ≥ requiredMasternodePayment then true else found
      else found)
    false

/-- The second loop over `vecPayments` (lines 544-572): returns true at the first
payee that reaches the threshold and is paid, false when the list is exhausted. -/
def payeesLoop (vout : List CTxOut) (requiredMasternodePayment : CAmount) :
    List CMasternodePayee → Bool
  | [] => false
  | payee :: rest =>
    let found := foundPayment payee vout requiredMasternodePayment
    if payee.nVotes ≥ MNPAYMENTS_SIGNATURES_REQUIRED then
      if found then true else payeesLoop vout requiredMasternodePayment rest
    else payeesLoop vout requiredMasternodePayment rest

/-- The amount `requiredMasternodePayment` of line 534 for a tally of height
`nBlockHeight`. -/
def requiredMasternodePayment (env : Env) (nBlockHeight : Int) : CAmount :=
  env.GetMasternodePayment nBlockHeight (env.GetBlockValue nBlockHeight)
    (env.mnodemanSize + env.MasternodeCountDrift)

/-- The acceptance test `CMasternodeBlockPayees::IsTransactionValid` (lines
523-573); the log lines are left out. -/
def CMasternodeBlockPayees.IsTransactionValid (env : Env) (self : CMasternodeBlockPayees)
    (txNew : CTransaction) : Bool :=
  let required := requiredMasternodePayment env self.nBlockHeight
  let nMaxSignatures := maxSignatures self.vecPayments
  if nMaxSignatures < MNPAYMENTS_SIGNATURES_REQUIRED then true
  else payeesLoop txNew.vout required self.vecPayments

/-- Modelled from the spec: `CMasternodeBlockPayees::AddPayee(payeeIn, nIncrement)`
is declared in `masternode-payments.h`, whose text is not at hand. The spec
has an admitted vote "update/create `tallies_by_height[height]` incrementing
`payee_counts[payee_script]`", the counts being kept in first-seen order: the
entry of the script gets the increment, a script not yet present is appended with
the increment as its count. -/
def AddPayee (payeeIn : CScript) (nIncrement : Int) :
    List CMasternodePayee → List CMasternodePayee
  | [] => [⟨payeeIn, nIncrement⟩]
  | payee :: rest =>
    if payee.scriptPubKey = payeeIn then
      { payee with nVotes := payee.nVotes + nIncrement } :: rest
    else payee :: AddPayee payeeIn nIncrement rest

/-! ## `CMasternodePayments`: the ledger -/

/-- The ledger object `masternodePayments`. -/
structure CMasternodePayments where
  /-- The votes by hash. -/
  mapMasternodePayeeVotes : List (uint256 × CMasternodePaymentWinner)
  /-- The tallies by height. -/
  mapMasternodeBlocks : List (Int × CMasternodeBlockPayees)
  /-- The last height this node produced a vote for. -/
  nLastBlockHeight : Int
  /-- The marks read and written by `CanVote`; the spec's
  `vote_seen_by_voter_height`, the set of (voter outpoint, height) pairs. -/
  voteSeenByVoterHeight : List (COutPoint × Int)
deriving DecidableEq

/-- The ledger built by the constructor: no vote, no tally, no mark. -/
def CMasternodePayments.empty : CMasternodePayments :=
  { mapMasternodePayeeVotes := [], mapMasternodeBlocks := [], nLastBlockHeight := 0,
    voteSeenByVoterHeight := [] }

/-- Modelled from the spec: `CMasternodePayments::CanVote(outMasternode,
nBlockHeight)` is declared in `masternode-payments.h`, whose text is not at
hand. The spec: "reject if `vote_seen_by_voter_height[(voter_outpoint, height)]`
already set", the mark being set for a vote that is let through. The handler in
`masternode-payments.cpp` never writes the marks itself, so the write is part of
this call: it answers false when the pair is marked, and otherwise marks it and
answers true. -/
def CMasternodePayments.CanVote (self : CMasternodePayments) (outMasternode : COutPoint)
    (nBlockHeight : Int) : Bool × CMasternodePayments :=
  if (outMasternode, nBlockHeight) ∈ self.voteSeenByVoterHeight then (false, self)
  else
    (true, { self with
      voteSeenByVoterHeight := (outMasternode, nBlockHeight) :: self.voteSeenByVoterHeight })

/-- The admission `CMasternodePayments::AddWinningMasternode` (lines 497-521):
the flag returned and the ledger afterwards. -/
def CMasternodePayments.AddWinningMasternode (env : Env) (self : CMasternodePayments)
    (winnerIn : CMasternodePaymentWinner) : Bool × CMasternodePayments :=
  match env.GetBlockHash (winnerIn.nBlockHeight - 100) with
  | none => (false, self)
  | some _ =>
    if mapCount self.mapMasternodePayeeVotes (env.GetHash winnerIn) then (false, self)
    else
      let votes := mapInsert (env.GetHash winnerIn) winnerIn self.mapMasternodePayeeVotes
      let blocks :=
        if !mapCount self.mapMasternodeBlocks winnerIn.nBlockHeight then
          mapInsert winnerIn.nBlockHeight ⟨winnerIn.nBlockHeight, []⟩ self.mapMasternodeBlocks
        else self.mapMasternodeBlocks
      -- `mapMasternodeBlocks[h]` default-constructs an absent entry (height 0, no payee)
      let blockPayees := (mapFind blocks winnerIn.nBlockHeight).getD ⟨0, []⟩
      let blocks := mapInsert winnerIn.nBlockHeight
        { blockPayees with vecPayments := AddPayee winnerIn.payee 1 blockPayees.vecPayments }
        blocks
      (true, { self with mapMasternodePayeeVotes := votes, mapMasternodeBlocks := blocks })

/-- The lookup `CMasternodePayments::IsTransactionValid` (lines 605-613). -/
def CMasternodePayments.IsTransactionValid (env : Env) (self : CMasternodePayments)
    (txNew : CTransaction) (nBlockHeight : Int) : Bool :=
  match mapFind self.mapMasternodeBlocks nBlockHeight with
  | some blockPayees => blockPayees.IsTransactionValid env txNew
  | none => true

/-- The loop of `CleanPaymentList` (lines 628-640) over the votes in map order:
a stale vote is erased through its iterator and the tally of its height is erased
by key; the votes kept and the tallies left are returned. The difference
`nHeight - winner.nBlockHeight` of line 632 is an `int`. -/
def cleanLoop (nHeight nLimit : Int) :
    List (uint256 × CMasternodePaymentWinner) → List (Int × CMasternodeBlockPayees) →
    List (uint256 × CMasternodePaymentWinner) × List (Int × CMasternodeBlockPayees)
  | [], blocks => ([], blocks)
  | (hash, winner) :: rest, blocks =>
    if wrapInt (nHeight - winner.nBlockHeight) > nLimit then
      cleanLoop nHeight nLimit rest (mapErase winner.nBlockHeight blocks)
    else
      let r := cleanLoop nHeight nLimit rest blocks
      ((hash, winner) :: r.1, r.2)

/-- The retention limit `std::max(int(mnodeman.size() * 1.25), 1000)` (line 626). -/
def cleanLimit (env : Env) : Int :=
  max (Int.tdiv (5 * env.mnodemanSize) 4) 1000

/-- The prune `CMasternodePayments::CleanPaymentList` (lines 615-641); the erase
in `masternodeSync.mapSeenSyncMNW` touches another object and is left out. -/
def CMasternodePayments.CleanPaymentList (env : Env) (self : CMasternodePayments) :
    CMasternodePayments :=
  match env.tipHeight with
  | none => self
  | some nHeight =>
    let r := cleanLoop nHeight (cleanLimit env) self.mapMasternodePayeeVotes
      self.mapMasternodeBlocks
    { self with mapMasternodePayeeVotes := r.1, mapMasternodeBlocks := r.2 }

/-! ## Votes from the network -/

/-- What a call does to its collaborators: log lines, peer scoring, requests to
the peer, relays and sync bookkeeping. -/
inductive Effect where
  | Log (line : String)
  | Misbehaving (howmuch : Int)
  | AskForMN (vin : CTxIn)
  | Relay (hash : uint256)
  | AddedMasternodeWinner (hash : uint256)
  | FulfilledRequest (what : String)
  | PushInventory (hash : uint256)
  | PushMessageSsc (nInvCount : Int)
deriving DecidableEq

/-- The peer `pfrom` as far as the handler reads it. -/
structure CNode where
  nVersion : Int
  /-- The result of `HasFulfilledRequest("mnget")`. -/
  hasFulfilledMnget : Bool
deriving DecidableEq

/-- The two commands the handler knows, with their decoded payload, and any other
command. -/
inductive Message where
  | mnget (nCountNeeded : Int)
  | mnw (winner : CMasternodePaymentWinner)
  | other
deriving DecidableEq

/-- The check `CMasternodePaymentWinner::IsValid` (lines 643-673): the flag, the
effects, and whether `strError` was set. -/
def CMasternodePaymentWinner.IsValid (env : Env) (self : CMasternodePaymentWinner) :
    Bool × List Effect × Bool :=
  match env.Find self.vinMasternode with
  | none => (false, [.Log "Unknown Masternode", .AskForMN self.vinMasternode], true)
  | some pmn =>
    if pmn.protocolVersion < env.ActiveProtocol then
      (false, [.Log "Masternode protocol too old"], true)
    else
      let n := env.GetMasternodeRank self.vinMasternode (self.nBlockHeight - 100)
        env.ActiveProtocol
      if n > env.MNPAYMENTS_SIGNATURES_TOTAL then
        if n > env.MNPAYMENTS_SIGNATURES_TOTAL * 2 then
          (false, [.Log "Masternode not in the top"] ++
            (if env.IsSynced then [.Misbehaving 20] else []), true)
        else (false, [], false)
      else (true, [], false)

/-- The check `CMasternodePaymentWinner::SignatureValid` (lines 751-768). -/
def CMasternodePaymentWinner.SignatureValid (env : Env) (self : CMasternodePaymentWinner) :
    Bool :=
  match env.Find self.vinMasternode with
  | some pmn =>
    env.VerifyMessage pmn.pubKeyMasternode self.vchSig
      (self.vinMasternode.prevout, self.nBlockHeight, self.payee)
  | none => false

/-- The count `int nCount = (mnodeman.CountEnabled() * 1.25)` (line 780). -/
def syncCount (env : Env) : Int := Int.tdiv (5 * env.CountEnabled) 4

/-- The reply `CMasternodePayments::Sync` (lines 770-794): the inventory pushes in
map order, then the `ssc` message with their number. The count asked for comes
from the wire, capped above by `nCount` only; the difference
`nHeight - nCountNeeded` of line 787 is an `int`. -/
def CMasternodePayments.Sync (env : Env) (self : CMasternodePayments) (nCountNeeded : Int) :
    List Effect :=
  match env.tipHeight with
  | none => []
  | some nHeight =>
    let nCount := syncCount env
    let nCountNeeded := if nCountNeeded > nCount then nCount else nCountNeeded
    let sent := self.mapMasternodePayeeVotes.filter (fun p =>
      decide (p.2.nBlockHeight ≥ wrapInt (nHeight - nCountNeeded) ∧
        p.2.nBlockHeight ≤ nHeight + 20))
    sent.map (fun p => Effect.PushInventory (env.GetHash p.2)) ++
      [.PushMessageSsc (sent.length : Int)]

/-- The bound `int nFirstBlock = nHeight - (mnodeman.CountEnabled() * 1.25)`
(line 399): the difference is formed in `double` and truncated toward zero. -/
def firstBlock (env : Env) (nHeight : Int) : Int :=
  Int.tdiv (4 * nHeight - 5 * env.CountEnabled) 4

/-- The handler `CMasternodePayments::ProcessMessageMasternodePayments` (lines
356-435) on the global ledger: the ledger afterwards and the effects in order. -/
def ProcessMessageMasternodePayments (env : Env) (pfrom : CNode) (msg : Message)
    (self : CMasternodePayments) : CMasternodePayments × List Effect :=
  if !env.IsBlockchainSynced then (self, [])
  else if env.fLiteMode then (self, [])
  else
    match msg with
    | .mnget nCountNeeded =>
      if env.isMainNetwork && pfrom.hasFulfilledMnget then
        (self, [.Log "mnget - peer already asked me for the list", .Misbehaving 20])
      else
        (self, [.FulfilledRequest "mnget"] ++ self.Sync env nCountNeeded ++
          [.Log "mnget - Sent Masternode winners"])
    | .mnw winner =>
      if pfrom.nVersion < env.ActiveProtocol then (self, [])
      else
        match env.tipHeight with
        | none => (self, [])
        | some nHeight =>
          if mapCount self.mapMasternodePayeeVotes (env.GetHash winner) then
            (self, [.Log "mnw - Already seen", .AddedMasternodeWinner (env.GetHash winner)])
          else
            let nFirstBlock := firstBlock env nHeight
            if winner.nBlockHeight < nFirstBlock ∨ winner.nBlockHeight > nHeight + 20 then
              (self, [.Log "mnw - winner out of range"])
            else
              let valid := winner.IsValid env
              if !valid.1 then
                (self, valid.2.1 ++
                  (if valid.2.2 then [.Log "mnw - invalid message"] else []))
              else
                let can := self.CanVote winner.vinMasternode.prevout winner.nBlockHeight
                if !can.1 then (can.2, valid.2.1 ++ [.Log "mnw - masternode already voted"])
                else if !winner.SignatureValid env then
                  (can.2, valid.2.1 ++ [.Log "mnw - invalid signature"] ++
                    (if env.IsSynced then [.Misbehaving 20] else []) ++
                    [.AskForMN winner.vinMasternode])
                else
                  let added := can.2.AddWinningMasternode env winner
                  if added.1 then
                    (added.2, valid.2.1 ++ [.Log "mnw - winning vote",
                      .Relay (env.GetHash winner),
                      .AddedMasternodeWinner (env.GetHash winner)])
                  else (added.2, valid.2.1 ++ [.Log "mnw - winning vote"])
    | .other => (self, [])

/-! ## Consensus entry points -/

/-- The tail of `IsBlockPayeeValid` (lines 237-246): the masternode payee check
and its enforcement flag. -/
def checkMasternodePayee (env : Env) (mp : CMasternodePayments) (txNew : CTransaction)
    (nBlockHeight : Int) : Bool :=
  if mp.IsTransactionValid env txNew nBlockHeight then true
  else if env.IsSporkActive .SPORK_8_MASTERNODE_PAYMENT_ENFORCEMENT then false
  else true

/-- The transaction `txNew` of `IsBlockPayeeValid` (line 220): `block.vtx[1]`
above `LAST_POW_BLOCK` and `block.vtx[0]` otherwise. The source indexes the
vector without a size check, so there is no transaction, `none`, when the block
does not have that index. -/
def payeeTx (env : Env) (block : CBlock) (nBlockHeight : Int) : Option CTransaction :=
  if nBlockHeight > env.LAST_POW_BLOCK then block.vtx.get? 1 else block.vtx.get? 0

/-- The check `IsBlockPayeeValid` (lines 214-247) against the global ledger `mp`:
the flag returned, and `none` when line 220 indexes `block.vtx` past its end. The
return of lines 215-218 comes before that line. -/
def IsBlockPayeeValid (env : Env) (mp : CMasternodePayments) (block : CBlock)
    (nBlockHeight : Int) : Option Bool :=
  if !env.IsSynced then some true
  else
    match payeeTx env block nBlockHeight with
    | none => none
    | some txNew =>
      if env.IsSporkActive .SPORK_13_ENABLE_SUPERBLOCKS then
        if env.IsBudgetPaymentBlock nBlockHeight then
          if env.budgetIsTransactionValid txNew nBlockHeight then some true
          else if env.IsSporkActive .SPORK_9_MASTERNODE_BUDGET_ENFORCEMENT then some false
          else some true
        else some (checkMasternodePayee env mp txNew nBlockHeight)
      else some (checkMasternodePayee env mp txNew nBlockHeight)

/-- The height `nHeight` of `IsBlockValueValid` (lines 176-183): one more than the
height of the block's previous block, found at the tip or in `mapBlockIndex`, and
`0` when it is not found. -/
def blockHeight (env : Env) (pindexPrev : uint256 × Int) (block : CBlock) : Int :=
  if pindexPrev.1 = block.hashPrevBlock then pindexPrev.2 + 1
  else
    match env.mapBlockIndex block.hashPrevBlock with
    | some h => h + 1
    | none => 0

/-- The check `IsBlockValueValid` (lines 172-212); `%` on `int` is the truncated
remainder `Int.tmod`, `block.vtx[0]` is read with the empty transaction standing
for a block without transactions, the warning line is left out. -/
def IsBlockValueValid (env : Env) (block : CBlock) (nExpectedValue : CAmount) : Bool :=
  match env.chainTip with
  | none => true
  | some pindexPrev =>
    let nHeight := blockHeight env pindexPrev block
    if !env.IsSynced then
      if Int.tmod nHeight env.GetBudgetPaymentCycleBlocks < 100 then true
      else if env.GetValueOut (block.vtx.getD 0 ⟨[]⟩) > nExpectedValue then false
      else true
    else
      if !env.IsSporkActive .SPORK_13_ENABLE_SUPERBLOCKS then
        decide (env.GetValueOut (block.vtx.getD 0 ⟨[]⟩) ≤ nExpectedValue)
      else if env.IsBudgetPaymentBlock nHeight then true
      else if env.GetValueOut (block.vtx.getD 0 ⟨[]⟩) > nExpectedValue then false
      else true

/-! ## Filling the payee of a new block -/

/-- Modelled from the spec: `CMasternodeBlockPayees::GetPayee(payee)` is declared
in `masternode-payments.h`, whose text is not at hand. The spec resolves "this
height's winning payee" from the tally, whose counts are kept in first-seen order
"used only for tie-favoring toward earliest-seen": the payee with the most votes,
the earliest-seen among equals, and none for a tally without payees. -/
def GetPayee (vecPayments : List CMasternodePayee) : Option CScript :=
  (vecPayments.foldl
    (fun (best : Option CMasternodePayee) p =>
      match best with
      | none => some p
      | some b => if p.nVotes > b.nVotes then some p else some b)
    none).map (fun p => p.scriptPubKey)

/-- The lookup `CMasternodePayments::GetBlockPayee` (lines 458-464): the payee when
the call answers true. -/
def CMasternodePayments.GetBlockPayee (self : CMasternodePayments) (nBlockHeight : Int) :
    Option CScript :=
  if mapCount self.mapMasternodeBlocks nBlockHeight then
    GetPayee ((mapFind self.mapMasternodeBlocks nBlockHeight).getD ⟨0, []⟩).vecPayments
  else none

/-- The null output built by `CTxOut()`: value `-1` and an empty script. -/
def CTxOut.null : CTxOut := ⟨-1, []⟩

/-- The call `vout.resize(n)`: the first `n` outputs, null outputs filling up. -/
def resize : List CTxOut → Nat → List CTxOut
  | _, 0 => []
  | [], n + 1 => CTxOut.null :: resize [] n
  | out :: rest, n + 1 => out :: resize rest n

/-- An assignment through `vout[k]`: the output at index `k` becomes `f` of it. An
index the vector does not have, which the source would write through all the
same, leaves the list as it is. -/
def updateOut : List CTxOut → Nat → (CTxOut → CTxOut) → List CTxOut
  | [], _, _ => []
  | out :: rest, 0, f => f out :: rest
  | out :: rest, k + 1, f => out :: updateOut rest k f

/-- One use of `txNew.vout[k]`: the index and the size of the vector at that
moment. -/
structure VoutAccess where
  index : Nat
  size : Nat
deriving DecidableEq

/-- The payee resolved by `CMasternodePayments::FillBlockPayee` (lines 277-290)
for the block after `pindexPrev`: the payee of the tally, else the script of the
registry's current masternode, else none (`hasPayment = false`). -/
def resolvePayee (env : Env) (self : CMasternodePayments) (pindexPrev : uint256 × Int) :
    Option CScript :=
  match self.GetBlockPayee (pindexPrev.2 + 1) with
  | some payee => some payee
  | none =>
    match env.GetCurrentMasterNode with
    | some winningNode =>
      some (env.GetScriptForDestination winningNode.pubKeyCollateralAddress)
    | none => none

/-- The value given to output 0 together with a masternode payment (lines
314-318). -/
def minerValue (env : Env) (pindexPrev : uint256 × Int) (nFees : CAmount) : CAmount :=
  let blockValue := env.GetBlockValue pindexPrev.2
  let masternodePayment := env.GetMasternodePaymentDefault pindexPrev.2 blockValue
  if pindexPrev.2 + 1 > env.LAST_POW_BLOCK then blockValue - masternodePayment
  else blockValue - masternodePayment + nFees

/-- The value given to output 0 when there is no payee (lines 328-332). -/
def fullValue (env : Env) (pindexPrev : uint256 × Int) (nFees : CAmount) : CAmount :=
  let blockValue := env.GetBlockValue pindexPrev.2
  if pindexPrev.2 + 1 > env.LAST_POW_BLOCK then blockValue else blockValue + nFees

/-- The body of `CMasternodePayments::FillBlockPayee` (lines 292-342) before the
closing log lines: the outputs afterwards and the uses of `txNew.vout[k]` in
order. `unsigned int i - 1` wraps to `2^32 - 1` at `i = 0`. -/
def fillOutputs (env : Env) (pindexPrev : uint256 × Int) (payee : Option CScript)
    (vout : List CTxOut) (nFees : CAmount) (fProofOfStake : Bool) :
    List CTxOut × List VoutAccess :=
  let blockValue := env.GetBlockValue pindexPrev.2
  let masternodePayment := env.GetMasternodePaymentDefault pindexPrev.2 blockValue
  match payee with
  | some payee =>
    if fProofOfStake then
      let i := vout.length
      let vout := resize vout (i + 1)
      let vout := updateOut vout i (fun out => { out with scriptPubKey := payee })
      let vout := updateOut vout i (fun out => { out with nValue := masternodePayment })
      let j := if i = 0 then 2 ^ 32 - 1 else i - 1
      let vout := updateOut vout j
        (fun out => { out with nValue := out.nValue - masternodePayment })
      (vout, [⟨i, i + 1⟩, ⟨i, i + 1⟩, ⟨j, i + 1⟩])
    else
      let vout := resize vout 2
      let vout := updateOut vout 1 (fun out => { out with scriptPubKey := payee })
      let vout := updateOut vout 1 (fun out => { out with nValue := masternodePayment })
      let vout := updateOut vout 0
        (fun out => { out with nValue := minerValue env pindexPrev nFees })
      (vout, [⟨1, 2⟩, ⟨1, 2⟩, ⟨0, 2⟩])
  | none =>
    if !fProofOfStake then
      (updateOut vout 0 (fun out => { out with nValue := fullValue env pindexPrev nFees }),
        [⟨0, vout.length⟩])
    else (vout, [])

/-- The builder `CMasternodePayments::FillBlockPayee` (lines 273-350) on the
global ledger: the transaction afterwards and every use of `txNew.vout[k]`, the
reads of `vout[0]`, `vout[1]` and `vout[2]` by the closing log lines included. -/
def CMasternodePayments.FillBlockPayee (env : Env) (self : CMasternodePayments)
    (txNew : CTransaction) (nFees : CAmount) (fProofOfStake : Bool) :
    CTransaction × List VoutAccess :=
  match env.chainTip with
  | none => (txNew, [])
  | some pindexPrev =>
    let r := fillOutputs env pindexPrev (resolvePayee env self pindexPrev) txNew.vout nFees
      fProofOfStake
    (⟨r.1⟩, r.2 ++ [⟨0, r.1.length⟩, ⟨1, r.1.length⟩, ⟨2, r.1.length⟩])

/-- The entry point `FillBlockPayee` (lines 249-263): the transaction afterwards. -/
def FillBlockPayee (env : Env) (mp : CMasternodePayments) (txNew : CTransaction)
    (nFees : CAmount) (fProofOfStake : Bool) : CTransaction :=
  match env.chainTip with
  | none => txNew
  | some pindexPrev =>
    if env.IsSporkActive .SPORK_13_ENABLE_SUPERBLOCKS ∧
        env.IsBudgetPaymentBlock (pindexPrev.2 + 1) then
      env.budgetFillBlockPayee txNew nFees fProofOfStake
    else (mp.FillBlockPayee env txNew nFees fProofOfStake).1

/-! ## Producing the vote of this node -/

/-- The method `CMasternodePaymentWinner::Sign` (lines 437-456): the flag and the
vote with the signature written by `SignMessage`. -/
def CMasternodePaymentWinner.Sign (env : Env) (self : CMasternodePaymentWinner)
    (keyMasternode pubKeyMasternode : Nat) : Bool × CMasternodePaymentWinner :=
  let strMessage := (self.vinMasternode.prevout, self.nBlockHeight, self.payee)
  match env.SignMessage strMessage keyMasternode with
  | none => (false, self)
  | some vchSig =>
    if !env.VerifyMessage pubKeyMasternode vchSig strMessage then
      (false, { self with vchSig := vchSig })
    else (true, { self with vchSig := vchSig })

/-- The vote `newWinner` as `ProcessBlock` has it at line 723: built by the
constructor, and given the height and the payee of the next-due masternode when
the height is no budget payment height and the registry has such a node
(`newWinner.AddPayee(payee)` stores the payee in the vote). -/
def producedWinner (env : Env) (nBlockHeight : Int) : CMasternodePaymentWinner :=
  let newWinner := env.newWinner env.activeMasternodeVin
  if env.IsBudgetPaymentBlock nBlockHeight then newWinner
  else
    match env.GetNextMasternodeInQueueForPayment nBlockHeight with
    | some pmn =>
      { newWinner with
        nBlockHeight := nBlockHeight
        payee := env.GetScriptForDestination pmn.pubKeyCollateralAddress }
    | none => newWinner

/-- The producer `CMasternodePayments::ProcessBlock` (lines 675-744): the flag
returned, the ledger afterwards and the effects, of which only the relay is
kept. -/
def CMasternodePayments.ProcessBlock (env : Env) (self : CMasternodePayments)
    (nBlockHeight : Int) : Bool × CMasternodePayments × List Effect :=
  if !env.fMasterNode then (false, self, [])
  else
    let n := env.GetMasternodeRank env.activeMasternodeVin (nBlockHeight - 100)
      env.ActiveProtocol
    if n = -1 then (false, self, [])
    else if n > env.MNPAYMENTS_SIGNATURES_TOTAL then (false, self, [])
    else if nBlockHeight ≤ self.nLastBlockHeight then (false, self, [])
    else
      let newWinner := producedWinner env nBlockHeight
      match env.SetKey with
      | none => (false, self, [])
      | some (keyMasternode, pubKeyMasternode) =>
        let signed := newWinner.Sign env keyMasternode pubKeyMasternode
        if signed.1 then
          let added := self.AddWinningMasternode env signed.2
          if added.1 then
            (true, { added.2 with nLastBlockHeight := nBlockHeight },
              [.Relay (env.GetHash signed.2)])
          else (false, added.2, [])
        else (false, self, [])

/-! ## The snapshot file -/

/-- The results of `CMasternodePaymentDB::Read`. -/
inductive ReadResult where
  | Ok
  | FileError
  | HashReadError
  | IncorrectHash
  | IncorrectMagicMessage
  | IncorrectMagicNumber
  | IncorrectFormat
deriving DecidableEq

/-- The serialization the snapshot relies on, which lives outside the file: the
stream operators for a `std::string` and for the ledger, and `Hash`, whose
`uint256` is its 32 bytes. A read answers `none` when the stream operator
throws. -/
structure Serializer where
  /-- The bytes written by `ssObj << str`. -/
  writeString : List Nat → List Nat
  /-- The string read by `ssObj >> str` and the rest of the stream. -/
  readString : List Nat → Option (List Nat × List Nat)
  /-- The bytes written by `ssObj << objToSave`. -/
  writeLedger : CMasternodePayments → List Nat
  /-- The object left by `ssObj >> objToLoad`, read into the given object. -/
  readLedger : List Nat → CMasternodePayments → Option CMasternodePayments
  /-- The bytes of `Hash(begin, end)`. -/
  Hash : List Nat → List Nat

/-- The magic message set by the constructor of `CMasternodePaymentDB`, as its
bytes. -/
def strMagicMessage : List Nat := "MasternodePayments".toList.map Char.toNat

/-- Modelled from the spec: `CMasternodePayments::Clear()` is declared in
`masternode-payments.h`, whose text is not at hand. The spec has a payload that
does not deserialize leave the "in-memory target state reset to empty": the votes
and the tallies are emptied. -/
def CMasternodePayments.Clear (self : CMasternodePayments) : CMasternodePayments :=
  { self with mapMasternodePayeeVotes := [], mapMasternodeBlocks := [] }

/-- The stream `ssObj` of `CMasternodePaymentDB::Write` before the checksum (lines
39-42): magic message, network magic, ledger. -/
def snapshotPayload (ser : Serializer) (env : Env) (objToSave : CMasternodePayments) :
    List Nat :=
  ser.writeString strMagicMessage ++ env.MessageStart ++ ser.writeLedger objToSave

/-- The save `CMasternodePaymentDB::Write` (lines 35-63) on a file that holds
`file` (`none` for no file) and that `fopen` can or cannot open for writing: the
flag returned and what the file holds afterwards. -/
def CMasternodePaymentDB.Write (ser : Serializer) (env : Env)
    (objToSave : CMasternodePayments) (canOpen : Bool) (file : Option (List Nat)) :
    Bool × Option (List Nat) :=
  let ssObj := snapshotPayload ser env objToSave
  let hash := ser.Hash ssObj
  let ssObj := ssObj ++ hash
  if !canOpen then (false, file) else (true, some ssObj)

/-- The load `CMasternodePaymentDB::Read` (lines 65-144) from a file that holds
`file` (`none` when it cannot be opened): the result and `objToLoad`
afterwards. -/
def CMasternodePaymentDB.Read (ser : Serializer) (env : Env) (file : Option (List Nat))
    (objToLoad : CMasternodePayments) (fDryRun : Bool) :
    ReadResult × CMasternodePayments :=
  match file with
  | none => (.FileError, objToLoad)
  | some bytes =>
    let fileSize := bytes.length
    -- `fileSize - sizeof(uint256)`, replaced by 0 when negative
    let dataSize := fileSize - 32
    let vchData := bytes.take dataSize
    let rest := bytes.drop dataSize
    if rest.length < 32 then (.HashReadError, objToLoad)
    else
      let hashIn := rest.take 32
      let hashTmp := ser.Hash vchData
      if hashIn ≠ hashTmp then (.IncorrectHash, objToLoad)
      else
        match ser.readString vchData with
        | none => (.IncorrectFormat, objToLoad.Clear)
        | some (strMagicMessageTmp, ssObj) =>
          if strMagicMessage ≠ strMagicMessageTmp then (.IncorrectMagicMessage, objToLoad)
          else if ssObj.length < 4 then (.IncorrectFormat, objToLoad.Clear)
          else
            let pchMsgTmp := ssObj.take 4
            if pchMsgTmp ≠ env.MessageStart then (.IncorrectMagicNumber, objToLoad)
            else
              match ser.readLedger (ssObj.drop 4) objToLoad with
              | none => (.IncorrectFormat, objToLoad.Clear)
              | some loaded =>
                if !fDryRun then (.Ok, loaded.CleanPaymentList env) else (.Ok, loaded)

/-- The dump `DumpMasternodePayments` (lines 146-170) of the global ledger
`masternodePayments`: whether `Write` was called, and what the file holds
afterwards. The dry-run `Read` goes into a freshly built `tempPayments`. -/
def DumpMasternodePayments (ser : Serializer) (env : Env)
    (masternodePayments : CMasternodePayments) (canOpen : Bool) (file : Option (List Nat)) :
    Bool × Option (List Nat) :=
  let tempPayments := CMasternodePayments.empty
  let readResult := (CMasternodePaymentDB.Read ser env file tempPayments true).1
  let proceed : Bool :=
    if readResult = .FileError then true
    else if readResult ≠ .Ok then
      if readResult = .IncorrectFormat then true else false
    else true
  if proceed then (true, (CMasternodePaymentDB.Write ser env masternodePayments canOpen file).2)
  else (false, file)

/-! ## Histories of the ledger -/

/-- The ledger states in which voter `V` has had a vote for height `H` admitted
through the `mnw` handler: the states right after a handler call that stored a
new vote of `V` for `H`, and every state the ledger reaches from one of them by a
further message, a prune, a direct `AddWinningMasternode` or an update of
`nLastBlockHeight` (the two things `ProcessBlock` does to the ledger). -/
inductive VotedThroughHandler (V : COutPoint) (H : Int) : CMasternodePayments → Prop
  | admitted (env : Env) (pfrom : CNode) (v : CMasternodePaymentWinner)
      (s : CMasternodePayments) :
      v.vinMasternode.prevout = V → v.nBlockHeight = H →
      mapCount s.mapMasternodePayeeVotes (env.GetHash v) = false →
      mapCount (ProcessMessageMasternodePayments env pfrom (.mnw v) s).1.mapMasternodePayeeVotes
        (env.GetHash v) = true →
      VotedThroughHandler V H (ProcessMessageMasternodePayments env pfrom (.mnw v) s).1
  | message (env : Env) (pfrom : CNode) (msg : Message) (s : CMasternodePayments) :
      VotedThroughHandler V H s →
      VotedThroughHandler V H (ProcessMessageMasternodePayments env pfrom msg s).1
  | clean (env : Env) (s : CMasternodePayments) :
      VotedThroughHandler V H s → VotedThroughHandler V H (s.CleanPaymentList env)
  | added (env : Env) (w : CMasternodePaymentWinner) (s : CMasternodePayments) :
      VotedThroughHandler V H s → VotedThroughHandler V H (s.AddWinningMasternode env w).2
  | produced (n : Int) (s : CMasternodePayments) :
      VotedThroughHandler V H s → VotedThroughHandler V H { s with nLastBlockHeight := n }

/-- The ledger states reached from the empty ledger by messages to the handler
(whose `mnw` branch admits a vote through `AddWinningMasternode`) and by prunes,
each under the chain and registry view of its own moment. The second caller of
`AddWinningMasternode`, `ProcessBlock` (line 736), is not a step of this
relation. -/
inductive Reachable : CMasternodePayments → Prop
  | empty : Reachable CMasternodePayments.empty
  | message (env : Env) (pfrom : CNode) (msg : Message) (s : CMasternodePayments) :
      Reachable s → Reachable (ProcessMessageMasternodePayments env pfrom msg s).1
  | clean (env : Env) (s : CMasternodePayments) :
      Reachable s → Reachable (s.CleanPaymentList env)

/-- The votes of `mapMasternodePayeeVotes` that are for height `h`. -/
def votesAt (votes : List (uint256 × CMasternodePaymentWinner)) (h : Int) :
    List CMasternodePaymentWinner :=
  (votes.filter (fun p => decide (p.2.nBlockHeight = h))).map Prod.snd

/-- The voters of a list of votes. -/
def voters (l : List CMasternodePaymentWinner) : List COutPoint :=
  l.map (fun w => w.vinMasternode.prevout)

/-- The sum of `nVotes` over the payees of a tally. -/
def tallySum (t : CMasternodeBlockPayees) : Int :=
  (t.vecPayments.map (fun p => p.nVotes)).sum

/-- The vote count a tally gives to a payee script: the count of its entry, none
when the script has no entry. -/
def payeeVotes (vecPayments : List CMasternodePayee) (q : CScript) : Option Int :=
  (vecPayments.find? (fun p => decide (p.scriptPubKey = q))).map (fun p => p.nVotes)

/-- The mapping from payee script to vote count at height `h`: empty when the
height has no tally. -/
def tallyVotes (blocks : List (Int × CMasternodeBlockPayees)) (h : Int) (q : CScript) :
    Option Int :=
  (mapFind blocks h).bind (fun t => payeeVotes t.vecPayments q)

/-- The ledger after the votes of a list went through `AddWinningMasternode` one
after the other. -/
def addWinners (env : Env) (s : CMasternodePayments) (l : List CMasternodePaymentWinner) :
    CMasternodePayments :=
  l.foldl (fun s w => (s.AddWinningMasternode env w).2) s

/-- What `AddWinningMasternode` (lines 499-510) does to
`mapMasternodePayeeVotes` alone. -/
def voteStep (env : Env) (votes : List (uint256 × CMasternodePaymentWinner))
    (w : CMasternodePaymentWinner) : List (uint256 × CMasternodePaymentWinner) :=
  match env.GetBlockHash (w.nBlockHeight - 100) with
  | none => votes
  | some _ => if mapCount votes (env.GetHash w) then votes else mapInsert (env.GetHash w) w votes

/-- The votes of a list that `AddWinningMasternode` accepts on top of `votes` and
that are for height `h` and payee `q`. -/
def acceptedFor (env : Env) (votes : List (uint256 × CMasternodePaymentWinner))
    (l : List CMasternodePaymentWinner) (h : Int) (q : CScript) :
    List CMasternodePaymentWinner :=
  l.filter (fun w =>
    decide ((env.GetBlockHash (w.nBlockHeight - 100)).isSome = true ∧
      mapCount votes (env.GetHash w) = false ∧ w.nBlockHeight = h ∧ w.payee = q))

/-- The invariant of the ledger: a height without a tally has no vote, the tally
of a height sums to the number of its votes and there is at least one, every
stored vote has its mark, and the votes of a height come from distinct voters. -/
structure LedgerInv (s : CMasternodePayments) : Prop where
  noTally : ∀ h, mapFind s.mapMasternodeBlocks h = none →
    votesAt s.mapMasternodePayeeVotes h = []
  tally : ∀ h t, mapFind s.mapMasternodeBlocks h = some t →
    tallySum t = ((votesAt s.mapMasternodePayeeVotes h).length : Int) ∧
      votesAt s.mapMasternodePayeeVotes h ≠ []
  marked : ∀ p ∈ s.mapMasternodePayeeVotes,
    (p.2.vinMasternode.prevout, p.2.nBlockHeight) ∈ s.voteSeenByVoterHeight
  distinct : ∀ h, (voters (votesAt s.mapMasternodePayeeVotes h)).Nodup

/-! ## An environment and votes to evaluate on -/

/-- A registry with every voter known, rank 1, all signatures valid, the hash of a
vote computed from its fields, all flags on, a required payment of 100. -/
def demoEnv : Env :=
  { IsBlockchainSynced := true
    IsSynced := true
    fLiteMode := false
    ActiveProtocol := 90050
    tipHeight := some 1000
    GetBlockHash := fun h => if 0 ≤ h then some h.toNat else none
    CountEnabled := 100
    mnodemanSize := 100
    Find := fun _ => some ⟨90050, [1], 7⟩
    GetMasternodeRank := fun _ _ _ => 1
    VerifyMessage := fun _ _ _ => true
    GetHash := fun w =>
      w.vinMasternode.prevout.hash + 1000 * w.nBlockHeight.toNat + 1000000 * w.payee.sum
    IsSporkActive := fun _ => true
    IsBudgetPaymentBlock := fun _ => false
    budgetIsTransactionValid := fun _ _ => false
    GetBlockValue := fun _ => 1000
    GetMasternodePayment := fun _ _ _ => 100
    MasternodeCountDrift := 20
    LAST_POW_BLOCK := 200
    isMainNetwork := true
    MNPAYMENTS_SIGNATURES_TOTAL := 10
    chainTip := some (77, 1000)
    mapBlockIndex := fun h => if h = 55 then some 499 else none
    GetBudgetPaymentCycleBlocks := 43200
    GetValueOut := fun tx => (tx.vout.map (fun o => o.nValue)).sum
    GetCurrentMasterNode := some ⟨90050, [9], 7⟩
    GetScriptForDestination := fun k => k
    GetMasternodePaymentDefault := fun _ _ => 100
    budgetFillBlockPayee := fun tx _ _ => tx
    fMasterNode := true
    activeMasternodeVin := ⟨⟨42, 0⟩⟩
    newWinner := fun vin => ⟨vin, 0, [], []⟩
    GetNextMasternodeInQueueForPayment := fun _ => some ⟨90050, [8], 7⟩
    SetKey := some (3, 7)
    SignMessage := fun _ _ => some [1, 2, 3]
    MessageStart := [144, 196, 253, 233] }

/-- The vote of voter `i` for payee script `[q]` at height `h`. -/
def demoVote (i : Nat) (h : Int) (q : Nat) : CMasternodePaymentWinner :=
  { vinMasternode := ⟨⟨i, 0⟩⟩, nBlockHeight := h, payee := [q], vchSig := [] }

/-- A peer of the current protocol version. -/
def demoPeer : CNode := { nVersion := 90050, hasFulfilledMnget := false }

/-- The ledger after the votes of voters 1 to 6 for payee `[5]` at height 1001,
each received by the handler. -/
def demoSixVotes : CMasternodePayments :=
  [1, 2, 3, 4, 5, 6].foldl
    (fun s i =>
      (ProcessMessageMasternodePayments demoEnv demoPeer (.mnw (demoVote i 1001 5)) s).1)
    CMasternodePayments.empty

/-- The ledger after three votes for height 1001, of voters 1 and 2 for payee
`[5]` and of voter 3 for payee `[6]`, followed by a prune. -/
def demoLedger : CMasternodePayments :=
  CMasternodePayments.CleanPaymentList demoEnv
    (ProcessMessageMasternodePayments demoEnv demoPeer (.mnw (demoVote 3 1001 6))
      (ProcessMessageMasternodePayments demoEnv demoPeer (.mnw (demoVote 2 1001 5))
        (ProcessMessageMasternodePayments demoEnv demoPeer (.mnw (demoVote 1 1001 5))
          CMasternodePayments.empty).1).1).1

/-- A stream encoding of a signed number as one item, for the serializer to
evaluate on. -/
def demoEncInt (z : Int) : Nat := if 0 ≤ z then 2 * z.toNat else 2 * (-z).toNat + 1

/-- The number encoded by `demoEncInt`. -/
def demoDecInt (n : Nat) : Int := if n % 2 = 0 then ((n / 2 : Nat) : Int) else -((n / 2 : Nat) : Int)

/-- The votes as stream items: key, voter, height, payee and signature, the last
two with their lengths in front. -/
def demoEncVotes : List (uint256 × CMasternodePaymentWinner) → List Nat
  | [] => []
  | (k, w) :: t =>
    [k, w.vinMasternode.prevout.hash, w.vinMasternode.prevout.n, demoEncInt w.nBlockHeight,
      w.payee.length] ++ w.payee ++ [w.vchSig.length] ++ w.vchSig ++ demoEncVotes t

/-- The reader of `n` votes written by `demoEncVotes`, with the rest of the
stream. -/
def demoDecVotes :
    Nat → List Nat → Option (List (uint256 × CMasternodePaymentWinner) × List Nat)
  | 0, bs => some ([], bs)
  | n + 1, k :: a :: b :: h :: pl :: bs =>
    match bs.drop pl with
    | sl :: bs2 =>
      match demoDecVotes n (bs2.drop sl) with
      | some r => some ((k, ⟨⟨⟨a, b⟩⟩, demoDecInt h, bs.take pl, bs2.take sl⟩) :: r.1, r.2)
      | none => none
    | [] => none
  | _ + 1, _ => none

/-- The payees of a tally as stream items. -/
def demoEncPayees : List CMasternodePayee → List Nat
  | [] => []
  | p :: t => [p.scriptPubKey.length] ++ p.scriptPubKey ++ [demoEncInt p.nVotes] ++
      demoEncPayees t

/-- The reader of `n` payees written by `demoEncPayees`. -/
def demoDecPayees : Nat → List Nat → Option (List CMasternodePayee × List Nat)
  | 0, bs => some ([], bs)
  | n + 1, pl :: bs =>
    match bs.drop pl with
    | v :: bs2 =>
      match demoDecPayees n bs2 with
      | some r => some (⟨bs.take pl, demoDecInt v⟩ :: r.1, r.2)
      | none => none
    | [] => none
  | _ + 1, [] => none

/-- The tallies as stream items. -/
def demoEncBlocks : List (Int × CMasternodeBlockPayees) → List Nat
  | [] => []
  | (h, t) :: rest =>
    [demoEncInt h, demoEncInt t.nBlockHeight, t.vecPayments.length] ++
      demoEncPayees t.vecPayments ++ demoEncBlocks rest

/-- The reader of `n` tallies written by `demoEncBlocks`. -/
def demoDecBlocks : Nat → List Nat → Option (List (Int × CMasternodeBlockPayees) × List Nat)
  | 0, bs => some ([], bs)
  | n + 1, h :: th :: pn :: bs =>
    match demoDecPayees pn bs with
    | some ps =>
      match demoDecBlocks n ps.2 with
      | some r => some ((demoDecInt h, ⟨demoDecInt th, ps.1⟩) :: r.1, r.2)
      | none => none
    | none => none
  | _ + 1, _ => none

/-- A serializer to evaluate on: strings and lists with their length in front,
the ledger as its votes and its tallies, a checksum of 32 bytes. -/
def demoSerializer : Serializer :=
  { writeString := fun str => str.length :: str
    readString := fun bs =>
      match bs with
      | n :: t => if n ≤ t.length then some (t.take n, t.drop n) else none
      | [] => none
    writeLedger := fun L =>
      [L.mapMasternodePayeeVotes.length] ++ demoEncVotes L.mapMasternodePayeeVotes ++
        [L.mapMasternodeBlocks.length] ++ demoEncBlocks L.mapMasternodeBlocks
    readLedger := fun bs obj =>
      match bs with
      | n :: t =>
        match demoDecVotes n t with
        | some (votes, m :: t2) =>
          match demoDecBlocks m t2 with
          | some r => some { obj with mapMasternodePayeeVotes := votes, mapMasternodeBlocks := r.1 }
          | none => none
        | _ => none
      | [] => none
    Hash := fun bs => List.replicate 31 0 ++ [bs.sum % 256] }

/-! ## The map operations -/

theorem mapCount_eq_false_iff {κ α : Type} [DecidableEq κ] (m : List (κ × α)) (k : κ) :
    mapCount m k = false ↔ ∀ p ∈ m, p.1 ≠ k := by
  simp [mapCount]

theorem mapCount_eq_true_iff {κ α : Type} [DecidableEq κ] (m : List (κ × α)) (k : κ) :
    mapCount m k = true ↔ ∃ p ∈ m, p.1 = k := by
  simp [mapCount]

theorem mapFind_eq_none_iff {κ α : Type} [DecidableEq κ] (m : List (κ × α)) (k : κ) :
    mapFind m k = none ↔ mapCount m k = false := by
  induction m with
  | nil => simp [mapFind, mapCount]
  | cons p t ih =>
    obtain ⟨k', v⟩ := p
    by_cases hk : k' = k
    · simp [mapFind, mapCount, hk]
    · simp only [mapFind, hk, if_false, ih]
      simp [mapCount, hk]

theorem mapFind_mapInsert_self {κ α : Type} [LinearOrder κ] (k : κ) (v : α)
    (m : List (κ × α)) : mapFind (mapInsert k v m) k = some v := by
  induction m with
  | nil => simp [mapInsert, mapFind]
  | cons p t ih =>
    obtain ⟨k', v'⟩ := p
    by_cases h1 : k < k'
    · simp [mapInsert, h1, mapFind]
    · by_cases h2 : k = k'
      · simp [mapInsert, h1, h2, mapFind]
      · have h3 : ¬ k' = k := fun h => h2 h.symm
        simp [mapInsert, h1, h2, mapFind, h3, ih]

theorem mapFind_mapInsert_ne {κ α : Type} [LinearOrder κ] (k j : κ) (v : α)
    (m : List (κ × α)) (hj : j ≠ k) : mapFind (mapInsert k v m) j = mapFind m j := by
  have hkj : ¬ k = j := fun h => hj h.symm
  induction m with
  | nil => simp [mapInsert, mapFind, hkj]
  | cons p t ih =>
    obtain ⟨k', v'⟩ := p
    by_cases h1 : k < k'
    · simp [mapInsert, h1, mapFind, hkj]
    · by_cases h2 : k = k'
      · subst h2
        simp [mapInsert, mapFind, hkj]
      · by_cases h3 : k' = j
        · subst h3
          simp [mapInsert, h1, h2, mapFind]
        · simp [mapInsert, h1, h2, mapFind, h3, ih]

theorem mapInsert_perm {κ α : Type} [LinearOrder κ] (k : κ) (v : α) (m : List (κ × α))
    (hk : mapCount m k = false) : (mapInsert k v m).Perm ((k, v) :: m) := by
  induction m with
  | nil => simp [mapInsert]
  | cons p t ih =>
    obtain ⟨k', v'⟩ := p
    have hne : ¬ k = k' := by
      intro h
      simp [mapCount, h] at hk
    have ht : mapCount t k = false := by
      simp only [mapCount, List.any_cons, Bool.or_eq_false_iff] at hk
      exact hk.2
    by_cases h1 : k < k'
    · simp [mapInsert, h1]
    · simp only [mapInsert, h1, hne, if_false]
      exact ((ih ht).cons (k', v')).trans (List.Perm.swap _ _ _)

theorem mapFind_mapErase {κ α : Type} [DecidableEq κ] (k j : κ) (m : List (κ × α)) :
    mapFind (mapErase k m) j = if j = k then none else mapFind m j := by
  induction m with
  | nil => simp [mapErase, mapFind]
  | cons p t ih =>
    obtain ⟨k', v'⟩ := p
    by_cases h1 : k' = k
    · subst h1
      have : mapErase k' ((k', v') :: t) = mapErase k' t := by simp [mapErase]
      rw [this, ih]
      by_cases h2 : j = k'
      · simp [h2]
      · have h3 : ¬ k' = j := fun h => h2 h.symm
        simp [h2, mapFind, h3]
    · have : mapErase k ((k', v') :: t) = (k', v') :: mapErase k t := by
        simp [mapErase, h1]
      rw [this]
      simp only [mapFind, ih]
      by_cases h2 : k' = j
      · have h3 : ¬ j = k := fun h => h1 (h2.trans h)
        simp [h2, h3]
      · simp [h2]

/-! ## The acceptance test of a tally -/

theorem maxSignatures_foldl_ge (l : List CMasternodePayee) (acc : Int) :
    acc ≤ l.foldl
      (fun nMaxSignatures payee =>
        if payee.nVotes ≥ nMaxSignatures ∧ payee.nVotes ≥ MNPAYMENTS_SIGNATURES_REQUIRED
        then payee.nVotes else nMaxSignatures) acc := by
  induction l generalizing acc with
  | nil => simp
  | cons p t ih =>
    simp only [List.foldl_cons]
    refine le_trans ?_ (ih _)
    split
    · rename_i h
      exact h.1
    · exact le_refl _

theorem maxSignatures_foldl_none (l : List CMasternodePayee) (acc : Int)
    (h : ∀ p ∈ l, p.nVotes < MNPAYMENTS_SIGNATURES_REQUIRED) :
    l.foldl
      (fun nMaxSignatures payee =>
        if payee.nVotes ≥ nMaxSignatures ∧ payee.nVotes ≥ MNPAYMENTS_SIGNATURES_REQUIRED
        then payee.nVotes else nMaxSignatures) acc = acc := by
  induction l generalizing acc with
  | nil => simp
  | cons p t ih =>
    have hp : ¬ p.nVotes ≥ MNPAYMENTS_SIGNATURES_REQUIRED :=
      not_le.mpr (h p (List.mem_cons_self _ _))
    simp only [List.foldl_cons, hp, and_false, if_false]
    exact ih acc (fun q hq => h q (List.mem_cons_of_mem _ hq))

theorem maxSignatures_foldl_some (l : List CMasternodePayee) (acc : Int)
    (h : ∃ p ∈ l, p.nVotes ≥ MNPAYMENTS_SIGNATURES_REQUIRED) :
    MNPAYMENTS_SIGNATURES_REQUIRED ≤ l.foldl
      (fun nMaxSignatures payee =>
        if payee.nVotes ≥ nMaxSignatures ∧ payee.nVotes ≥ MNPAYMENTS_SIGNATURES_REQUIRED
        then payee.nVotes else nMaxSignatures) acc := by
  induction l generalizing acc with
  | nil => simp at h
  | cons p t ih =>
    simp only [List.foldl_cons]
    by_cases hp : p.nVotes ≥ MNPAYMENTS_SIGNATURES_REQUIRED
    · refine le_trans ?_ (maxSignatures_foldl_ge t _)
      split
      · exact hp
      · rename_i hn
        have : ¬ p.nVotes ≥ acc := fun hge => hn ⟨hge, hp⟩
        exact le_trans hp (le_of_lt (not_le.mp this))
    · obtain ⟨q, hq, hqv⟩ := h
      rcases List.mem_cons.mp hq with rfl | hq'
      · exact absurd hqv hp
      · exact ih _ ⟨q, hq', hqv⟩

/-- The first loop yields less than the threshold exactly when no payee reaches
the threshold. -/
theorem maxSignatures_lt_iff (l : List CMasternodePayee) :
    maxSignatures l < MNPAYMENTS_SIGNATURES_REQUIRED ↔
      ∀ p ∈ l, p.nVotes < MNPAYMENTS_SIGNATURES_REQUIRED := by
  constructor
  · intro hlt p hp
    by_contra hge
    exact absurd hlt (not_lt.mpr (maxSignatures_foldl_some l 0 ⟨p, hp, not_lt.mp hge⟩))
  · intro h
    unfold maxSignatures
    rw [maxSignatures_foldl_none l 0 h]
    decide

theorem foundPayment_foldl (payee : CMasternodePayee) (vout : List CTxOut) (req : CAmount)
    (acc : Bool) :
    vout.foldl
      (fun found out =>
        if payee.scriptPubKey = out.scriptPubKey then
          if out.nValue ≥ req then true else found
        else found) acc = true ↔
    acc = true ∨ ∃ out ∈ vout, payee.scriptPubKey = out.scriptPubKey ∧ out.nValue ≥ req := by
  induction vout generalizing acc with
  | nil => simp
  | cons o t ih =>
    simp only [List.foldl_cons, ih, List.mem_cons, exists_eq_or_imp]
    by_cases h1 : payee.scriptPubKey = o.scriptPubKey
    · by_cases h2 : o.nValue ≥ req
      · simp [h1, h2]
      · simp [h1, h2]
    · simp [h1]

/-- The inner loop finds a payment exactly when some output has the payee's
script and at least the required value. -/
theorem foundPayment_iff (payee : CMasternodePayee) (vout : List CTxOut) (req : CAmount) :
    foundPayment payee vout req = true ↔
      ∃ out ∈ vout, payee.scriptPubKey = out.scriptPubKey ∧ out.nValue ≥ req := by
  unfold foundPayment
  rw [foundPayment_foldl]
  simp

/-- The second loop accepts exactly when some payee reaches the threshold and is
paid. -/
theorem payeesLoop_iff (vout : List CTxOut) (req : CAmount) (l : List CMasternodePayee) :
    payeesLoop vout req l = true ↔
      ∃ p ∈ l, p.nVotes ≥ MNPAYMENTS_SIGNATURES_REQUIRED ∧
        ∃ out ∈ vout, p.scriptPubKey = out.scriptPubKey ∧ out.nValue ≥ req := by
  induction l with
  | nil => simp [payeesLoop]
  | cons p t ih =>
    simp only [payeesLoop, List.mem_cons, exists_eq_or_imp]
    by_cases h1 : p.nVotes ≥ MNPAYMENTS_SIGNATURES_REQUIRED
    · by_cases h2 : foundPayment p vout req = true
      · have h3 := (foundPayment_iff p vout req).mp h2
        simp only [h1, h2, if_true, true_iff]
        exact Or.inl ⟨trivial, h3⟩
      · have h3 : ¬ ∃ out ∈ vout, p.scriptPubKey = out.scriptPubKey ∧ out.nValue ≥ req :=
          fun h => h2 ((foundPayment_iff p vout req).mpr h)
        have h4 : foundPayment p vout req = false := by simpa using h2
        simp only [h1, h4, if_true, ih, Bool.false_eq_true, if_false]
        constructor
        · intro h
          exact Or.inr h
        · rintro (h | h)
          · exact absurd h.2 h3
          · exact h
    · simp only [h1, if_false, ih, false_and, false_or]

/-- The acceptance test of a tally in closed form. -/
theorem blockPayees_IsTransactionValid_iff (env : Env) (t : CMasternodeBlockPayees)
    (txNew : CTransaction) :
    t.IsTransactionValid env txNew = true ↔
      (∀ p ∈ t.vecPayments, p.nVotes < MNPAYMENTS_SIGNATURES_REQUIRED) ∨
      ∃ p ∈ t.vecPayments, p.nVotes ≥ MNPAYMENTS_SIGNATURES_REQUIRED ∧
        ∃ out ∈ txNew.vout, p.scriptPubKey = out.scriptPubKey ∧
          out.nValue ≥ requiredMasternodePayment env t.nBlockHeight := by
  unfold CMasternodeBlockPayees.IsTransactionValid
  simp only []
  by_cases h : maxSignatures t.vecPayments < MNPAYMENTS_SIGNATURES_REQUIRED
  · simp only [h, if_true, true_iff]
    exact Or.inl ((maxSignatures_lt_iff _).mp h)
  · simp only [h, if_false, payeesLoop_iff]
    have hn : ¬ ∀ p ∈ t.vecPayments, p.nVotes < MNPAYMENTS_SIGNATURES_REQUIRED :=
      fun hall => h ((maxSignatures_lt_iff _).mpr hall)
    simp only [hn, false_or]

theorem AddPayee_mem_ge (q : CScript) (n : Int) (hn : 0 ≤ n) (l : List CMasternodePayee)
    (a : CMasternodePayee) (ha : a ∈ l) :
    ∃ b ∈ AddPayee q n l, b.scriptPubKey = a.scriptPubKey ∧ a.nVotes ≤ b.nVotes := by
  induction l with
  | nil => simp at ha
  | cons p t ih =>
    by_cases hp : p.scriptPubKey = q
    · simp only [AddPayee, hp, if_true]
      rcases List.mem_cons.mp ha with rfl | ht
      · refine ⟨_, List.mem_cons_self _ _, hp.symm, ?_⟩
        simp only
        omega
      · exact ⟨a, List.mem_cons_of_mem _ ht, rfl, le_refl _⟩
    · simp only [AddPayee, hp, if_false]
      rcases List.mem_cons.mp ha with rfl | ht
      · exact ⟨a, List.mem_cons_self _ _, rfl, le_refl _⟩
      · obtain ⟨b, hb, h1, h2⟩ := ih ht
        exact ⟨b, List.mem_cons_of_mem _ hb, h1, h2⟩

/-! ## Acceptance of a candidate transaction (C1 - C4) -/

/-- C1. Longest-chain fallback: a tally in which no payee has
`MNPAYMENTS_SIGNATURES_REQUIRED` (6) votes accepts every transaction, whatever its
outputs; and the ledger accepts every transaction at a height that has no tally. -/
theorem C1_longest_chain_fallback (env : Env) (t : CMasternodeBlockPayees)
    (mp : CMasternodePayments) (txNew : CTransaction) (nBlockHeight : Int)
    (hvotes : ∀ p ∈ t.vecPayments, p.nVotes < MNPAYMENTS_SIGNATURES_REQUIRED)
    (htally : mapCount mp.mapMasternodeBlocks nBlockHeight = false) :
    t.IsTransactionValid env txNew = true ∧
      mp.IsTransactionValid env txNew nBlockHeight = true := by
  constructor
  · exact (blockPayees_IsTransactionValid_iff env t txNew).mpr (Or.inl hvotes)
  · unfold CMasternodePayments.IsTransactionValid
    rw [(mapFind_eq_none_iff _ _).mpr htally]

/-- The five-vote tally of the spec's threshold example accepts a transaction
that pays nobody, and so does a ledger without a tally for the height. -/
theorem C1_longest_chain_fallback_witness :
    (⟨1001, [⟨[5], 5⟩, ⟨[6], 2⟩]⟩ : CMasternodeBlockPayees).IsTransactionValid demoEnv ⟨[]⟩
        = true ∧
      CMasternodePayments.empty.IsTransactionValid demoEnv ⟨[]⟩ 1001 = true :=
  C1_longest_chain_fallback demoEnv ⟨1001, [⟨[5], 5⟩, ⟨[6], 2⟩]⟩ CMasternodePayments.empty
    ⟨[]⟩ 1001 (by decide) (by decide)

/-- C2. Acceptance by any threshold payee: when some payee of the tally, not
necessarily the one with the most votes, has at least 6 votes and the transaction
has an output with that payee's script and a value of at least
`requiredMasternodePayment`, the tally accepts the transaction. -/
theorem C2_any_threshold_payee_accepts (env : Env) (t : CMasternodeBlockPayees)
    (txNew : CTransaction) (payee : CMasternodePayee) (out : CTxOut)
    (hpayee : payee ∈ t.vecPayments)
    (hvotes : payee.nVotes ≥ MNPAYMENTS_SIGNATURES_REQUIRED)
    (hout : out ∈ txNew.vout)
    (hscript : out.scriptPubKey = payee.scriptPubKey)
    (hvalue : out.nValue ≥ requiredMasternodePayment env t.nBlockHeight) :
    t.IsTransactionValid env txNew = true :=
  (blockPayees_IsTransactionValid_iff env t txNew).mpr
    (Or.inr ⟨payee, hpayee, hvotes, out, hout, hscript.symm, hvalue⟩)

/-- A runner-up payee with 6 votes, behind a leader with 9, is paid the required
100: accepted. -/
theorem C2_any_threshold_payee_accepts_witness :
    (⟨1001, [⟨[5], 9⟩, ⟨[6], 6⟩]⟩ : CMasternodeBlockPayees).IsTransactionValid demoEnv
      ⟨[⟨900, [1]⟩, ⟨100, [6]⟩]⟩ = true :=
  C2_any_threshold_payee_accepts demoEnv ⟨1001, [⟨[5], 9⟩, ⟨[6], 6⟩]⟩
    ⟨[⟨900, [1]⟩, ⟨100, [6]⟩]⟩ ⟨[6], 6⟩ ⟨100, [6]⟩ (by decide) (by decide) (by decide)
    (by decide) (by decide)

/-- C3. Rejection when the threshold is reached but not paid: when at least one
payee has 6 votes or more and no output of the transaction is both addressed to a
payee with at least 6 votes and of at least `requiredMasternodePayment`, the tally
rejects the transaction. -/
theorem C3_threshold_unpaid_rejects (env : Env) (t : CMasternodeBlockPayees)
    (txNew : CTransaction)
    (hreached : ∃ p ∈ t.vecPayments, p.nVotes ≥ MNPAYMENTS_SIGNATURES_REQUIRED)
    (hunpaid : ∀ out ∈ txNew.vout, ∀ p ∈ t.vecPayments,
      p.nVotes ≥ MNPAYMENTS_SIGNATURES_REQUIRED → out.scriptPubKey = p.scriptPubKey →
        out.nValue < requiredMasternodePayment env t.nBlockHeight) :
    t.IsTransactionValid env txNew = false := by
  rw [← Bool.not_eq_true]
  intro hvalid
  rcases (blockPayees_IsTransactionValid_iff env t txNew).mp hvalid with hnone | hpaid
  · obtain ⟨p, hp, hv⟩ := hreached
    exact absurd (hnone p hp) (not_lt.mpr hv)
  · obtain ⟨p, hp, hv, out, hout, hs, hval⟩ := hpaid
    exact absurd (hunpaid out hout p hp hv hs.symm) (not_lt.mpr hval)

/-- The payee with 6 votes is paid 99 where 100 is required: rejected. -/
theorem C3_threshold_unpaid_rejects_witness :
    (⟨1001, [⟨[5], 6⟩]⟩ : CMasternodeBlockPayees).IsTransactionValid demoEnv
      ⟨[⟨901, [1]⟩, ⟨99, [5]⟩]⟩ = false :=
  C3_threshold_unpaid_rejects demoEnv ⟨1001, [⟨[5], 6⟩]⟩ ⟨[⟨901, [1]⟩, ⟨99, [5]⟩]⟩
    (by decide) (by decide)

/-- C4. A later vote does not flip a threshold-backed acceptance: when the tally
of the height has a payee with at least 6 votes that the transaction pays at least
`requiredMasternodePayment`, the ledger accepts the transaction, and it still does,
for the same required payment, after `AddWinningMasternode` has been called with a
vote for that height, whichever payee the vote names. -/
theorem C4_later_vote_keeps_acceptance (env : Env) (mp : CMasternodePayments)
    (t : CMasternodeBlockPayees) (txNew : CTransaction) (payee : CMasternodePayee)
    (out : CTxOut) (winnerIn : CMasternodePaymentWinner)
    (htally : mapFind mp.mapMasternodeBlocks winnerIn.nBlockHeight = some t)
    (hpayee : payee ∈ t.vecPayments)
    (hvotes : payee.nVotes ≥ MNPAYMENTS_SIGNATURES_REQUIRED)
    (hout : out ∈ txNew.vout)
    (hscript : out.scriptPubKey = payee.scriptPubKey)
    (hvalue : out.nValue ≥ requiredMasternodePayment env t.nBlockHeight) :
    mp.IsTransactionValid env txNew winnerIn.nBlockHeight = true ∧
      (mp.AddWinningMasternode env winnerIn).2.IsTransactionValid env txNew
        winnerIn.nBlockHeight = true := by
  have hbefore : mp.IsTransactionValid env txNew winnerIn.nBlockHeight = true := by
    unfold CMasternodePayments.IsTransactionValid
    rw [htally]
    exact (blockPayees_IsTransactionValid_iff env t txNew).mpr
      (Or.inr ⟨payee, hpayee, hvotes, out, hout, hscript.symm, hvalue⟩)
  refine ⟨hbefore, ?_⟩
  unfold CMasternodePayments.AddWinningMasternode
  cases env.GetBlockHash (winnerIn.nBlockHeight - 100) with
  | none => exact hbefore
  | some _ =>
    by_cases hseen : mapCount mp.mapMasternodePayeeVotes (env.GetHash winnerIn) = true
    · simp only [hseen, if_true]
      exact hbefore
    · have hcount : mapCount mp.mapMasternodeBlocks winnerIn.nBlockHeight = true := by
        cases hc : mapCount mp.mapMasternodeBlocks winnerIn.nBlockHeight with
        | true => rfl
        | false =>
          rw [(mapFind_eq_none_iff _ _).mpr hc] at htally
          exact absurd htally (by simp)
      simp only [hseen, hcount, Bool.not_true, Bool.false_eq_true, if_false, htally,
        Option.getD_some]
      unfold CMasternodePayments.IsTransactionValid
      simp only [mapFind_mapInsert_self]
      obtain ⟨b, hb, hbs, hbv⟩ :=
        AddPayee_mem_ge winnerIn.payee 1 (by decide) t.vecPayments payee hpayee
      exact (blockPayees_IsTransactionValid_iff env _ txNew).mpr
        (Or.inr ⟨b, hb, le_trans hvotes hbv, out, hout, hbs.trans hscript.symm, hvalue⟩)

/-- The spec's end-to-end scenario: six voters have voted payee `[5]` for height
1001, a transaction pays `[5]` the required 100, and a seventh voter votes payee
`[6]`. -/
theorem C4_later_vote_keeps_acceptance_witness :
    demoSixVotes.IsTransactionValid demoEnv ⟨[⟨900, [1]⟩, ⟨100, [5]⟩]⟩
        (demoVote 7 1001 6).nBlockHeight = true ∧
      (demoSixVotes.AddWinningMasternode demoEnv (demoVote 7 1001 6)).2.IsTransactionValid
        demoEnv ⟨[⟨900, [1]⟩, ⟨100, [5]⟩]⟩ (demoVote 7 1001 6).nBlockHeight = true :=
  C4_later_vote_keeps_acceptance demoEnv demoSixVotes ⟨1001, [⟨[5], 6⟩]⟩
    ⟨[⟨900, [1]⟩, ⟨100, [5]⟩]⟩ ⟨[5], 6⟩ ⟨100, [5]⟩ (demoVote 7 1001 6)
    (by decide) (by decide) (by decide) (by decide) (by decide) (by decide)

theorem mapCount_mapInsert_self {κ α : Type} [LinearOrder κ] (k : κ) (v : α)
    (m : List (κ × α)) : mapCount (mapInsert k v m) k = true := by
  cases h : mapCount (mapInsert k v m) k with
  | true => rfl
  | false =>
    have := (mapFind_eq_none_iff _ _).mpr h
    rw [mapFind_mapInsert_self] at this
    exact absurd this (by simp)

/-! ## The admission of a vote -/

/-- A call of `AddWinningMasternode` that answers false leaves the ledger as it
was. -/
theorem AddWinningMasternode_false (env : Env) (s : CMasternodePayments)
    (w : CMasternodePaymentWinner) (h : (s.AddWinningMasternode env w).1 = false) :
    (s.AddWinningMasternode env w).2 = s := by
  unfold CMasternodePayments.AddWinningMasternode at h ⊢
  cases hb : env.GetBlockHash (w.nBlockHeight - 100) with
  | none => rfl
  | some _ =>
    simp only [hb] at h ⊢
    by_cases hseen : mapCount s.mapMasternodePayeeVotes (env.GetHash w) = true
    · simp only [hseen, if_true]
    · simp only [hseen, if_false] at h
      exact absurd h (by simp)

/-- A call of `AddWinningMasternode` that answers true: the hash was new, the vote
is stored under it, the tally of its height got one vote for its payee, and
nothing else changed. -/
theorem AddWinningMasternode_true (env : Env) (s : CMasternodePayments)
    (w : CMasternodePaymentWinner) (h : (s.AddWinningMasternode env w).1 = true) :
    mapCount s.mapMasternodePayeeVotes (env.GetHash w) = false ∧
    (s.AddWinningMasternode env w).2.mapMasternodePayeeVotes =
      mapInsert (env.GetHash w) w s.mapMasternodePayeeVotes ∧
    (∃ t, mapFind (s.AddWinningMasternode env w).2.mapMasternodeBlocks w.nBlockHeight
        = some t ∧
      t.vecPayments = AddPayee w.payee 1
        (match mapFind s.mapMasternodeBlocks w.nBlockHeight with
          | some t0 => t0.vecPayments
          | none => [])) ∧
    (∀ j, j ≠ w.nBlockHeight →
      mapFind (s.AddWinningMasternode env w).2.mapMasternodeBlocks j
        = mapFind s.mapMasternodeBlocks j) ∧
    (s.AddWinningMasternode env w).2.nLastBlockHeight = s.nLastBlockHeight ∧
    (s.AddWinningMasternode env w).2.voteSeenByVoterHeight = s.voteSeenByVoterHeight := by
  unfold CMasternodePayments.AddWinningMasternode at h ⊢
  cases hb : env.GetBlockHash (w.nBlockHeight - 100) with
  | none =>
    simp only [hb] at h
    exact absurd h (by simp)
  | some _ =>
    simp only [hb] at h ⊢
    by_cases hseen : mapCount s.mapMasternodePayeeVotes (env.GetHash w) = true
    · simp only [hseen, if_true] at h
      exact absurd h (by simp)
    · have hseen' : mapCount s.mapMasternodePayeeVotes (env.GetHash w) = false := by
        simpa using hseen
      simp only [hseen', Bool.false_eq_true, if_false, true_and, and_true]
      refine ⟨?_, ?_⟩
      · refine ⟨_, mapFind_mapInsert_self _ _ _, ?_⟩
        cases hc : mapCount s.mapMasternodeBlocks w.nBlockHeight with
        | false =>
          simp only [Bool.not_false, if_true, mapFind_mapInsert_self, Option.getD_some,
            (mapFind_eq_none_iff _ _).mpr hc]
        | true =>
          simp only [Bool.not_true, Bool.false_eq_true, if_false]
          cases hf : mapFind s.mapMasternodeBlocks w.nBlockHeight with
          | none =>
            rw [(mapFind_eq_none_iff _ _).mp hf] at hc
            exact absurd hc (by simp)
          | some t0 => simp only [Option.getD_some]
      · intro j hj
        rw [mapFind_mapInsert_ne _ _ _ _ hj]
        cases hc : mapCount s.mapMasternodeBlocks w.nBlockHeight with
        | false =>
          simp only [Bool.not_false, if_true]
          exact mapFind_mapInsert_ne _ _ _ _ hj
        | true => simp only [Bool.not_true, Bool.false_eq_true, if_false]

/-- The check `IsValid` never relays. -/
theorem IsValid_no_relay (env : Env) (w : CMasternodePaymentWinner) (x : uint256) :
    Effect.Relay x ∉ (w.IsValid env).2.1 := by
  unfold CMasternodePaymentWinner.IsValid
  cases env.Find w.vinMasternode with
  | none => simp
  | some pmn =>
    simp only
    split
    · simp
    · split
      · split
        · cases env.IsSynced <;> simp
        · simp
      · simp

/-- The three outcomes of the handler on an `mnw` message: the ledger is as it
was; or only the mark of the voter was added; or the mark was added and
`AddWinningMasternode` stored the vote. Only the last one relays. -/
theorem mnw_outcome (env : Env) (pfrom : CNode) (w : CMasternodePaymentWinner)
    (s : CMasternodePayments) :
    ((ProcessMessageMasternodePayments env pfrom (.mnw w) s).1 = s ∧
      ∀ x, Effect.Relay x ∉ (ProcessMessageMasternodePayments env pfrom (.mnw w) s).2) ∨
    ((w.vinMasternode.prevout, w.nBlockHeight) ∉ s.voteSeenByVoterHeight ∧
      (ProcessMessageMasternodePayments env pfrom (.mnw w) s).1 =
        { s with voteSeenByVoterHeight :=
            (w.vinMasternode.prevout, w.nBlockHeight) :: s.voteSeenByVoterHeight } ∧
      ∀ x, Effect.Relay x ∉ (ProcessMessageMasternodePayments env pfrom (.mnw w) s).2) ∨
    ((w.vinMasternode.prevout, w.nBlockHeight) ∉ s.voteSeenByVoterHeight ∧
      mapCount s.mapMasternodePayeeVotes (env.GetHash w) = false ∧
      (CMasternodePayments.AddWinningMasternode env
        { s with voteSeenByVoterHeight :=
            (w.vinMasternode.prevout, w.nBlockHeight) :: s.voteSeenByVoterHeight } w).1
        = true ∧
      (ProcessMessageMasternodePayments env pfrom (.mnw w) s).1 =
        (CMasternodePayments.AddWinningMasternode env
          { s with voteSeenByVoterHeight :=
              (w.vinMasternode.prevout, w.nBlockHeight) :: s.voteSeenByVoterHeight } w).2) := by
  unfold ProcessMessageMasternodePayments
  by_cases h1 : env.IsBlockchainSynced = true
  swap
  · left; simp [h1]
  by_cases h2 : env.fLiteMode = true
  · left; simp [h1, h2]
  by_cases h3 : pfrom.nVersion < env.ActiveProtocol
  · left; simp [h1, h2, h3]
  cases h4 : env.tipHeight with
  | none => left; simp [h1, h2, h3]
  | some nHeight =>
    by_cases h5 : mapCount s.mapMasternodePayeeVotes (env.GetHash w) = true
    · left; simp [h1, h2, h3, h5]
    by_cases h6 : w.nBlockHeight < firstBlock env nHeight ∨ w.nBlockHeight > nHeight + 20
    · left; simp [h1, h2, h3, h5, h6]
    have h5' : mapCount s.mapMasternodePayeeVotes (env.GetHash w) = false := by
      simpa using h5
    by_cases h7 : (w.IsValid env).1 = true
    swap
    · left
      have hr := IsValid_no_relay env w
      simp only [h1, h2, h3, h5, h6, h7, Bool.not_true, Bool.false_eq_true, if_false,
        Bool.not_false, if_true, true_and]
      intro x
      cases (w.IsValid env).2.2 <;> simp [hr x]
    by_cases h8 : (w.vinMasternode.prevout, w.nBlockHeight) ∈ s.voteSeenByVoterHeight
    · left
      have hr := IsValid_no_relay env w
      simp only [h1, h2, h3, h5, h6, h7, Bool.not_true, Bool.false_eq_true, if_false,
        CMasternodePayments.CanVote, h8, if_true, Bool.not_false, true_and]
      intro x
      simp [hr x]
    right
    by_cases h9 : w.SignatureValid env = true
    swap
    · left
      have hr := IsValid_no_relay env w
      simp only [h1, h2, h3, h5, h6, h7, Bool.not_true, Bool.false_eq_true, if_false,
        CMasternodePayments.CanVote, h8, h9, Bool.not_false, if_true, true_and,
        not_false_eq_true]
      intro x
      cases env.IsSynced <;> simp [hr x]
    cases h10 : (CMasternodePayments.AddWinningMasternode env
        { s with voteSeenByVoterHeight :=
            (w.vinMasternode.prevout, w.nBlockHeight) :: s.voteSeenByVoterHeight } w).1 with
    | false =>
      left
      have hr := IsValid_no_relay env w
      have hst := AddWinningMasternode_false env _ w h10
      simp only [h1, h2, h3, h5, h6, h7, Bool.not_true, Bool.false_eq_true, if_false,
        CMasternodePayments.CanVote, h8, h9, h10, hst, true_and, not_false_eq_true]
      intro x
      simp [hr x]
    | true =>
      right
      simp only [h1, h2, h3, h5, h6, h7, Bool.not_true, Bool.false_eq_true, if_false,
        CMasternodePayments.CanVote, h8, h9, h10, if_true, h5', and_self, true_and,
        not_false_eq_true]

/-! ## The freshness window (C5) -/

/-- The bound of the window when the tip is at or above `1.25 * CountEnabled`. -/
theorem firstBlock_eq_sub_ceil (env : Env) (nHeight : Int)
    (h : 5 * env.CountEnabled ≤ 4 * nHeight) :
    firstBlock env nHeight = nHeight - ⌈(env.CountEnabled : ℚ) * (5 / 4)⌉ := by
  unfold firstBlock
  rw [Int.tdiv_eq_ediv (by omega) (by decide)]
  have hz : ⌈(env.CountEnabled : ℚ) * (5 / 4)⌉
      = nHeight - (4 * nHeight - 5 * env.CountEnabled) / 4 := by
    rw [Int.ceil_eq_iff]
    have h1 : 4 * (nHeight - (4 * nHeight - 5 * env.CountEnabled) / 4) - 4
        < 5 * env.CountEnabled := by omega
    have h2 : 5 * env.CountEnabled
        ≤ 4 * (nHeight - (4 * nHeight - 5 * env.CountEnabled) / 4) := by omega
    have h1' : ((4 * (nHeight - (4 * nHeight - 5 * env.CountEnabled) / 4) - 4 : Int) : ℚ)
        < ((5 * env.CountEnabled : Int) : ℚ) := by exact_mod_cast h1
    have h2' : ((5 * env.CountEnabled : Int) : ℚ)
        ≤ ((4 * (nHeight - (4 * nHeight - 5 * env.CountEnabled) / 4) : Int) : ℚ) := by
      exact_mod_cast h2
    push_cast at h1' h2' ⊢
    constructor <;> linarith
  rw [hz]
  ring

/-- The bound of the window when the tip is below `1.25 * CountEnabled`: the
truncation toward zero rounds the negative difference up. -/
theorem firstBlock_eq_sub_floor (env : Env) (nHeight : Int)
    (h : 4 * nHeight < 5 * env.CountEnabled) :
    firstBlock env nHeight = nHeight - ⌊(env.CountEnabled : ℚ) * (5 / 4)⌋ := by
  unfold firstBlock
  have hneg : 4 * nHeight - 5 * env.CountEnabled = -(5 * env.CountEnabled - 4 * nHeight) := by
    ring
  rw [hneg, Int.neg_tdiv, Int.tdiv_eq_ediv (by omega) (by decide)]
  have hz : ⌊(env.CountEnabled : ℚ) * (5 / 4)⌋
      = nHeight + (5 * env.CountEnabled - 4 * nHeight) / 4 := by
    rw [Int.floor_eq_iff]
    have h1 : 4 * (nHeight + (5 * env.CountEnabled - 4 * nHeight) / 4)
        ≤ 5 * env.CountEnabled := by omega
    have h2 : 5 * env.CountEnabled
        < 4 * (nHeight + (5 * env.CountEnabled - 4 * nHeight) / 4) + 4 := by omega
    have h1' : ((4 * (nHeight + (5 * env.CountEnabled - 4 * nHeight) / 4) : Int) : ℚ)
        ≤ ((5 * env.CountEnabled : Int) : ℚ) := by exact_mod_cast h1
    have h2' : ((5 * env.CountEnabled : Int) : ℚ)
        < ((4 * (nHeight + (5 * env.CountEnabled - 4 * nHeight) / 4) + 4 : Int) : ℚ) := by
      exact_mod_cast h2
    push_cast at h1' h2' ⊢
    constructor <;> linarith
  rw [hz]
  ring

/-- A vote that `IsValid` lets through produced no effect there. -/
theorem IsValid_true_effects (env : Env) (w : CMasternodePaymentWinner)
    (h : (w.IsValid env).1 = true) : (w.IsValid env).2.1 = [] := by
  unfold CMasternodePaymentWinner.IsValid at h ⊢
  cases hf : env.Find w.vinMasternode with
  | none => simp [hf] at h
  | some pmn =>
    simp only [hf] at h ⊢
    split
    · rename_i h1
      simp [h1] at h
    · split
      · rename_i h1 h2
        simp only [h1, h2, if_false, if_true] at h
        split at h <;> simp at h
      · rfl

/-- The log line of the window gate does not come from `IsValid`. -/
theorem IsValid_no_range_log (env : Env) (w : CMasternodePaymentWinner) :
    Effect.Log "mnw - winner out of range" ∉ (w.IsValid env).2.1 := by
  unfold CMasternodePaymentWinner.IsValid
  cases env.Find w.vinMasternode with
  | none => simp
  | some pmn =>
    simp only
    split
    · simp
    · split
      · split
        · cases env.IsSynced <;> simp
        · simp
      · simp

/-- The handler on a new vote that reaches the window gate: the vote is dropped
there, the ledger untouched and the out-of-range line the only effect, exactly
when its height is outside the window. -/
theorem mnw_dropped_iff (env : Env) (pfrom : CNode) (w : CMasternodePaymentWinner)
    (s : CMasternodePayments) (nHeight : Int)
    (hsync : env.IsBlockchainSynced = true) (hlite : env.fLiteMode = false)
    (hver : ¬ pfrom.nVersion < env.ActiveProtocol) (htip : env.tipHeight = some nHeight)
    (hnew : mapCount s.mapMasternodePayeeVotes (env.GetHash w) = false) :
    ProcessMessageMasternodePayments env pfrom (.mnw w) s
        = (s, [.Log "mnw - winner out of range"]) ↔
      (w.nBlockHeight < firstBlock env nHeight ∨ w.nBlockHeight > nHeight + 20) := by
  unfold ProcessMessageMasternodePayments
  simp only [hsync, hlite, hver, htip, hnew, Bool.not_true, Bool.false_eq_true, if_false]
  by_cases h6 : w.nBlockHeight < firstBlock env nHeight ∨ w.nBlockHeight > nHeight + 20
  · simp only [h6, if_true]
  · simp only [h6, if_false, iff_false]
    intro heq
    have haux : ∀ r : CMasternodePayments × List Effect,
        r = (s, [.Log "mnw - winner out of range"]) →
          Effect.Log "mnw - winner out of range" ∈ r.2 := by
      rintro _ rfl
      exact List.mem_singleton.mpr rfl
    have hmem := haux _ heq
    have hno := IsValid_no_range_log env w
    by_cases h7 : (w.IsValid env).1 = true
    · have he := IsValid_true_effects env w h7
      simp only [h7, he, Bool.not_true, Bool.false_eq_true, if_false] at hmem
      split at hmem
      · simp at hmem
      · split at hmem
        · cases env.IsSynced <;> simp at hmem
        · split at hmem <;> simp at hmem
    · simp only [h7, Bool.not_false, if_true] at hmem
      cases (w.IsValid env).2.2 <;> simp [hno] at hmem

/-- C5 (as stated, refuted). Tip height 100, 101 enabled nodes, a new vote for
height -27: the code computes the bound `100 - 126.25` truncated toward zero, -26,
and drops the vote as out of range, while `100 - ceil(101 * 1.25)` is -27, so
neither `h < H - ceil(c * 1.25)` nor `h > H + 20` holds. -/
theorem C5_freshness_window_counterexample :
    ProcessMessageMasternodePayments { demoEnv with tipHeight := some 100, CountEnabled := 101 }
        demoPeer (.mnw (demoVote 1 (-27) 5)) CMasternodePayments.empty
      = (CMasternodePayments.empty, [.Log "mnw - winner out of range"]) ∧
    ¬ ((-27 : Int) < 100 - ⌈((101 : Int) : ℚ) * (5 / 4)⌉ ∨ (-27 : Int) > 100 + 20) ∧
    firstBlock { demoEnv with tipHeight := some 100, CountEnabled := 101 } 100
      ≠ 100 - ⌈((101 : Int) : ℚ) * (5 / 4)⌉ := by
  have hceil : ⌈((101 : Int) : ℚ) * (5 / 4)⌉ = 127 := by
    rw [Int.ceil_eq_iff]
    norm_num
  rw [hceil]
  refine ⟨by decide, by decide, by decide⟩

/-- C5 (amended). For a tip height `H`, an enabled count `c` and an `mnw` vote
of height `h` whose hash is not in the ledger, the handler drops the vote as out
of range exactly when `h < nFirstBlock` or `h > H + 20`, where `nFirstBlock` is
`H - c * 1.25` truncated toward zero: it is `H - ceil(c * 1.25)` when
`H ≥ c * 1.25` and `H - floor(c * 1.25)` when `H < c * 1.25`. With `c = 100` a
vote at `H - 10000` is dropped. -/
theorem C5_freshness_window (env : Env) (pfrom : CNode) (w : CMasternodePaymentWinner)
    (s : CMasternodePayments) (nHeight : Int)
    (hsync : env.IsBlockchainSynced = true) (hlite : env.fLiteMode = false)
    (hver : ¬ pfrom.nVersion < env.ActiveProtocol) (htip : env.tipHeight = some nHeight)
    (hnew : mapCount s.mapMasternodePayeeVotes (env.GetHash w) = false) :
    (ProcessMessageMasternodePayments env pfrom (.mnw w) s
        = (s, [.Log "mnw - winner out of range"]) ↔
      (w.nBlockHeight < firstBlock env nHeight ∨ w.nBlockHeight > nHeight + 20)) ∧
    ((nHeight : ℚ) ≥ (env.CountEnabled : ℚ) * (5 / 4) →
      firstBlock env nHeight = nHeight - ⌈(env.CountEnabled : ℚ) * (5 / 4)⌉) ∧
    ((nHeight : ℚ) < (env.CountEnabled : ℚ) * (5 / 4) →
      firstBlock env nHeight = nHeight - ⌊(env.CountEnabled : ℚ) * (5 / 4)⌋) ∧
    (env.CountEnabled = 100 → w.nBlockHeight = nHeight - 10000 →
      ProcessMessageMasternodePayments env pfrom (.mnw w) s
        = (s, [.Log "mnw - winner out of range"])) := by
  refine ⟨mnw_dropped_iff env pfrom w s nHeight hsync hlite hver htip hnew, ?_, ?_, ?_⟩
  · intro hge
    apply firstBlock_eq_sub_ceil
    have : ((5 * env.CountEnabled : Int) : ℚ) ≤ ((4 * nHeight : Int) : ℚ) := by
      push_cast
      linarith
    exact_mod_cast this
  · intro hlt
    apply firstBlock_eq_sub_floor
    have : ((4 * nHeight : Int) : ℚ) < ((5 * env.CountEnabled : Int) : ℚ) := by
      push_cast
      linarith
    exact_mod_cast this
  · intro hc hh
    apply (mnw_dropped_iff env pfrom w s nHeight hsync hlite hver htip hnew).mpr
    left
    have hfb : firstBlock env nHeight = nHeight - 125 := by
      unfold firstBlock
      rw [hc]
      have h4 : 4 * nHeight - 5 * 100 = (nHeight - 125) * 4 := by ring
      rw [h4, Int.tdiv_eq_ediv_of_dvd (Dvd.intro_left _ rfl)]
      omega
    rw [hfb, hh]
    omega

/-- The spec's window example on the demo registry (100 enabled nodes, tip
1000): a vote for height -9000 is dropped as out of range. -/
theorem C5_freshness_window_witness :
    ProcessMessageMasternodePayments demoEnv demoPeer (.mnw (demoVote 1 (-9000) 5))
        CMasternodePayments.empty
      = (CMasternodePayments.empty, [.Log "mnw - winner out of range"]) :=
  (C5_freshness_window demoEnv demoPeer (demoVote 1 (-9000) 5) CMasternodePayments.empty 1000
    (by decide) (by decide) (by decide) (by decide) (by decide)).2.2.2
    (by decide) (by decide)

/-! ## Idempotent admission (C6) -/

/-- A message that is not an `mnw` vote leaves the ledger as it was. -/
theorem handler_mnget_state (env : Env) (pfrom : CNode) (n : Int) (s : CMasternodePayments) :
    (ProcessMessageMasternodePayments env pfrom (.mnget n) s).1 = s := by
  unfold ProcessMessageMasternodePayments
  simp only
  split
  · rfl
  · split
    · rfl
    · split <;> rfl

theorem handler_other_state (env : Env) (pfrom : CNode) (s : CMasternodePayments) :
    (ProcessMessageMasternodePayments env pfrom .other s).1 = s := by
  unfold ProcessMessageMasternodePayments
  simp only
  split
  · rfl
  · split <;> rfl

/-- An `mnw` vote whose hash is in the ledger leaves the ledger as it was. -/
theorem handler_seen_state (env : Env) (pfrom : CNode) (w : CMasternodePaymentWinner)
    (s : CMasternodePayments)
    (h : mapCount s.mapMasternodePayeeVotes (env.GetHash w) = true) :
    (ProcessMessageMasternodePayments env pfrom (.mnw w) s).1 = s := by
  unfold ProcessMessageMasternodePayments
  simp only [h, if_true]
  split
  · rfl
  · split
    · rfl
    · split
      · rfl
      · cases env.tipHeight <;> rfl

/-- The two maps after a second processing of a vote are those after the first. -/
theorem handler_twice_maps (env : Env) (pfrom : CNode) (w : CMasternodePaymentWinner)
    (s : CMasternodePayments) :
    (ProcessMessageMasternodePayments env pfrom (.mnw w)
        (ProcessMessageMasternodePayments env pfrom (.mnw w) s).1).1.mapMasternodePayeeVotes
      = (ProcessMessageMasternodePayments env pfrom (.mnw w) s).1.mapMasternodePayeeVotes ∧
    (ProcessMessageMasternodePayments env pfrom (.mnw w)
        (ProcessMessageMasternodePayments env pfrom (.mnw w) s).1).1.mapMasternodeBlocks
      = (ProcessMessageMasternodePayments env pfrom (.mnw w) s).1.mapMasternodeBlocks := by
  rcases mnw_outcome env pfrom w s with ⟨h1, _⟩ | ⟨_, h1, _⟩ | ⟨_, _, hadd, h1⟩
  · rw [h1, h1]
    exact ⟨rfl, rfl⟩
  · rw [h1]
    rcases mnw_outcome env pfrom w
        { s with voteSeenByVoterHeight :=
            (w.vinMasternode.prevout, w.nBlockHeight) :: s.voteSeenByVoterHeight }
      with ⟨h2, _⟩ | ⟨_, h2, _⟩ | ⟨hno, _⟩
    · rw [h2]
      exact ⟨rfl, rfl⟩
    · rw [h2]
      exact ⟨rfl, rfl⟩
    · exact absurd (List.mem_cons_self _ _) hno
  · have hins := (AddWinningMasternode_true env _ w hadd).2.1
    have hpresent : mapCount (ProcessMessageMasternodePayments env pfrom (.mnw w)
        s).1.mapMasternodePayeeVotes (env.GetHash w) = true := by
      rw [h1, hins]
      exact mapCount_mapInsert_self _ _ _
    rw [handler_seen_state env pfrom w _ hpresent]
    exact ⟨rfl, rfl⟩

/-- C6. Idempotent admission: processing the same `mnw` vote a second time, under
the same chain and registry view, leaves `mapMasternodePayeeVotes` and
`mapMasternodeBlocks` as they were after the first processing; and a vote whose
hash is already in the ledger changes nothing, neither through the handler nor
through `AddWinningMasternode`, which answers false. -/
theorem C6_idempotent_admission (env : Env) (pfrom : CNode) (w : CMasternodePaymentWinner)
    (s s' : CMasternodePayments)
    (hpresent : mapCount s'.mapMasternodePayeeVotes (env.GetHash w) = true) :
    ((ProcessMessageMasternodePayments env pfrom (.mnw w)
        (ProcessMessageMasternodePayments env pfrom (.mnw w) s).1).1.mapMasternodePayeeVotes
      = (ProcessMessageMasternodePayments env pfrom (.mnw w) s).1.mapMasternodePayeeVotes ∧
    (ProcessMessageMasternodePayments env pfrom (.mnw w)
        (ProcessMessageMasternodePayments env pfrom (.mnw w) s).1).1.mapMasternodeBlocks
      = (ProcessMessageMasternodePayments env pfrom (.mnw w) s).1.mapMasternodeBlocks) ∧
    (ProcessMessageMasternodePayments env pfrom (.mnw w) s').1 = s' ∧
    s'.AddWinningMasternode env w = (false, s') := by
  refine ⟨handler_twice_maps env pfrom w s, handler_seen_state env pfrom w s' hpresent, ?_⟩
  unfold CMasternodePayments.AddWinningMasternode
  cases env.GetBlockHash (w.nBlockHeight - 100) with
  | none => rfl
  | some _ => simp only [hpresent, if_true]

/-- The vote of voter 1 for payee `[5]` at height 1001, processed twice from the
empty ledger, and once more against the ledger that holds it. -/
theorem C6_idempotent_admission_witness :
    ((ProcessMessageMasternodePayments demoEnv demoPeer (.mnw (demoVote 1 1001 5))
        (ProcessMessageMasternodePayments demoEnv demoPeer (.mnw (demoVote 1 1001 5))
          CMasternodePayments.empty).1).1.mapMasternodePayeeVotes
      = (ProcessMessageMasternodePayments demoEnv demoPeer (.mnw (demoVote 1 1001 5))
          CMasternodePayments.empty).1.mapMasternodePayeeVotes ∧
    (ProcessMessageMasternodePayments demoEnv demoPeer (.mnw (demoVote 1 1001 5))
        (ProcessMessageMasternodePayments demoEnv demoPeer (.mnw (demoVote 1 1001 5))
          CMasternodePayments.empty).1).1.mapMasternodeBlocks
      = (ProcessMessageMasternodePayments demoEnv demoPeer (.mnw (demoVote 1 1001 5))
          CMasternodePayments.empty).1.mapMasternodeBlocks) ∧
    (ProcessMessageMasternodePayments demoEnv demoPeer (.mnw (demoVote 1 1001 5))
        (ProcessMessageMasternodePayments demoEnv demoPeer (.mnw (demoVote 1 1001 5))
          CMasternodePayments.empty).1).1
      = (ProcessMessageMasternodePayments demoEnv demoPeer (.mnw (demoVote 1 1001 5))
          CMasternodePayments.empty).1 ∧
    (ProcessMessageMasternodePayments demoEnv demoPeer (.mnw (demoVote 1 1001 5))
        CMasternodePayments.empty).1.AddWinningMasternode demoEnv (demoVote 1 1001 5)
      = (false, (ProcessMessageMasternodePayments demoEnv demoPeer (.mnw (demoVote 1 1001 5))
          CMasternodePayments.empty).1) :=
  C6_idempotent_admission demoEnv demoPeer (demoVote 1 1001 5) CMasternodePayments.empty
    (ProcessMessageMasternodePayments demoEnv demoPeer (.mnw (demoVote 1 1001 5))
      CMasternodePayments.empty).1 (by decide)

/-! ## Double votes (C7) -/

/-- The marks only grow under a message to the handler. -/
theorem handler_seen_mono (env : Env) (pfrom : CNode) (msg : Message)
    (s : CMasternodePayments) (x : COutPoint × Int) (hx : x ∈ s.voteSeenByVoterHeight) :
    x ∈ (ProcessMessageMasternodePayments env pfrom msg s).1.voteSeenByVoterHeight := by
  cases msg with
  | mnget n => rw [handler_mnget_state]; exact hx
  | other => rw [handler_other_state]; exact hx
  | mnw w =>
    rcases mnw_outcome env pfrom w s with ⟨h1, _⟩ | ⟨_, h1, _⟩ | ⟨_, _, hadd, h1⟩
    · rw [h1]; exact hx
    · rw [h1]; exact List.mem_cons_of_mem _ hx
    · rw [h1, (AddWinningMasternode_true env _ w hadd).2.2.2.2.2]
      exact List.mem_cons_of_mem _ hx

theorem AddWinningMasternode_seen (env : Env) (s : CMasternodePayments)
    (w : CMasternodePaymentWinner) :
    (s.AddWinningMasternode env w).2.voteSeenByVoterHeight = s.voteSeenByVoterHeight := by
  cases h : (s.AddWinningMasternode env w).1 with
  | false => rw [AddWinningMasternode_false env s w h]
  | true => exact (AddWinningMasternode_true env s w h).2.2.2.2.2

theorem CleanPaymentList_seen (env : Env) (s : CMasternodePayments) :
    (s.CleanPaymentList env).voteSeenByVoterHeight = s.voteSeenByVoterHeight := by
  unfold CMasternodePayments.CleanPaymentList
  cases env.tipHeight <;> rfl

/-- Once a vote of `V` for `H` went through the handler, the pair is marked. -/
theorem VotedThroughHandler_marked (V : COutPoint) (H : Int) (s : CMasternodePayments)
    (hs : VotedThroughHandler V H s) : (V, H) ∈ s.voteSeenByVoterHeight := by
  induction hs with
  | admitted env pfrom v s hV hH hnew hin =>
    rcases mnw_outcome env pfrom v s with ⟨h1, _⟩ | ⟨_, h1, _⟩ | ⟨_, _, hadd, h1⟩
    · rw [h1, hnew] at hin
      exact absurd hin (by simp)
    · rw [h1] at hin
      rw [hnew] at hin
      exact absurd hin (by simp)
    · rw [h1, (AddWinningMasternode_true env _ v hadd).2.2.2.2.2, ← hV, ← hH]
      exact List.mem_cons_self _ _
  | message env pfrom msg s _ ih => exact handler_seen_mono env pfrom msg s _ ih
  | clean env s _ ih => rw [CleanPaymentList_seen]; exact ih
  | added env w s _ ih => rw [AddWinningMasternode_seen]; exact ih
  | produced n s _ ih => exact ih

/-- A vote of a marked voter stops at the `CanVote` gate or before it: the handler
never reads the signature. -/
theorem handler_marked_verify (env : Env) (pfrom : CNode) (w : CMasternodePaymentWinner)
    (s : CMasternodePayments)
    (verify : Nat → List Nat → COutPoint × Int × CScript → Bool)
    (hm : (w.vinMasternode.prevout, w.nBlockHeight) ∈ s.voteSeenByVoterHeight) :
    ProcessMessageMasternodePayments { env with VerifyMessage := verify } pfrom (.mnw w) s
      = ProcessMessageMasternodePayments env pfrom (.mnw w) s := by
  have hv : CMasternodePaymentWinner.IsValid { env with VerifyMessage := verify } w
      = CMasternodePaymentWinner.IsValid env w := rfl
  unfold ProcessMessageMasternodePayments
  simp only [hv, CMasternodePayments.CanVote, hm, if_true, Bool.not_false,
    firstBlock]

/-- C7. Double-vote rejection: in every ledger state in which voter `V` has had a
vote for height `H` admitted through the `mnw` handler, a further `mnw` vote of
`V` for `H`, whatever its payee and hash, is not inserted into
`mapMasternodePayeeVotes`, changes no tally and is not relayed; the outcome is
the same whatever the signature check would answer, the `CanVote` gate standing
before it. -/
theorem C7_double_vote_rejected (V : COutPoint) (H : Int) (s : CMasternodePayments)
    (env : Env) (pfrom : CNode) (w : CMasternodePaymentWinner)
    (verify : Nat → List Nat → COutPoint × Int × CScript → Bool)
    (hs : VotedThroughHandler V H s)
    (hV : w.vinMasternode.prevout = V) (hH : w.nBlockHeight = H) :
    (ProcessMessageMasternodePayments env pfrom (.mnw w) s).1.mapMasternodePayeeVotes
      = s.mapMasternodePayeeVotes ∧
    (ProcessMessageMasternodePayments env pfrom (.mnw w) s).1.mapMasternodeBlocks
      = s.mapMasternodeBlocks ∧
    (∀ x, Effect.Relay x ∉ (ProcessMessageMasternodePayments env pfrom (.mnw w) s).2) ∧
    ProcessMessageMasternodePayments { env with VerifyMessage := verify } pfrom (.mnw w) s
      = ProcessMessageMasternodePayments env pfrom (.mnw w) s := by
  have hm : (w.vinMasternode.prevout, w.nBlockHeight) ∈ s.voteSeenByVoterHeight := by
    rw [hV, hH]
    exact VotedThroughHandler_marked V H s hs
  refine ⟨?_, ?_, ?_, handler_marked_verify env pfrom w s verify hm⟩
  · rcases mnw_outcome env pfrom w s with ⟨h1, _⟩ | ⟨hno, _⟩ | ⟨hno, _⟩
    · rw [h1]
    · exact absurd hm hno
    · exact absurd hm hno
  · rcases mnw_outcome env pfrom w s with ⟨h1, _⟩ | ⟨hno, _⟩ | ⟨hno, _⟩
    · rw [h1]
    · exact absurd hm hno
    · exact absurd hm hno
  · rcases mnw_outcome env pfrom w s with ⟨_, h2⟩ | ⟨hno, _⟩ | ⟨hno, _⟩
    · exact h2
    · exact absurd hm hno
    · exact absurd hm hno

/-- Voter 1 votes payee `[5]` for height 1001, which is admitted; its second vote
for 1001, now for payee `[6]`, changes neither map, with the signature check
answering true as well as false. -/
theorem C7_double_vote_rejected_witness :
    (ProcessMessageMasternodePayments demoEnv demoPeer (.mnw (demoVote 1 1001 6))
        (ProcessMessageMasternodePayments demoEnv demoPeer (.mnw (demoVote 1 1001 5))
          CMasternodePayments.empty).1).1.mapMasternodePayeeVotes
      = (ProcessMessageMasternodePayments demoEnv demoPeer (.mnw (demoVote 1 1001 5))
          CMasternodePayments.empty).1.mapMasternodePayeeVotes ∧
    (ProcessMessageMasternodePayments demoEnv demoPeer (.mnw (demoVote 1 1001 6))
        (ProcessMessageMasternodePayments demoEnv demoPeer (.mnw (demoVote 1 1001 5))
          CMasternodePayments.empty).1).1.mapMasternodeBlocks
      = (ProcessMessageMasternodePayments demoEnv demoPeer (.mnw (demoVote 1 1001 5))
          CMasternodePayments.empty).1.mapMasternodeBlocks ∧
    (∀ x, Effect.Relay x ∉
      (ProcessMessageMasternodePayments demoEnv demoPeer (.mnw (demoVote 1 1001 6))
        (ProcessMessageMasternodePayments demoEnv demoPeer (.mnw (demoVote 1 1001 5))
          CMasternodePayments.empty).1).2) ∧
    ProcessMessageMasternodePayments { demoEnv with VerifyMessage := fun _ _ _ => false }
        demoPeer (.mnw (demoVote 1 1001 6))
        (ProcessMessageMasternodePayments demoEnv demoPeer (.mnw (demoVote 1 1001 5))
          CMasternodePayments.empty).1
      = ProcessMessageMasternodePayments demoEnv demoPeer (.mnw (demoVote 1 1001 6))
        (ProcessMessageMasternodePayments demoEnv demoPeer (.mnw (demoVote 1 1001 5))
          CMasternodePayments.empty).1 :=
  C7_double_vote_rejected ⟨1, 0⟩ 1001 _ demoEnv demoPeer (demoVote 1 1001 6)
    (fun _ _ _ => false)
    (VotedThroughHandler.admitted demoEnv demoPeer (demoVote 1 1001 5)
      CMasternodePayments.empty rfl rfl (by decide) (by decide))
    rfl rfl

/-! ## Tally conservation (C8) -/

theorem votesAt_cons (k : uint256) (w : CMasternodePaymentWinner)
    (m : List (uint256 × CMasternodePaymentWinner)) (h : Int) :
    votesAt ((k, w) :: m) h = if w.nBlockHeight = h then w :: votesAt m h else votesAt m h := by
  unfold votesAt
  by_cases hw : w.nBlockHeight = h
  · simp [List.filter_cons, hw]
  · simp [List.filter_cons, hw]

theorem votesAt_perm (m m' : List (uint256 × CMasternodePaymentWinner)) (h : Int)
    (hp : m.Perm m') : (votesAt m h).Perm (votesAt m' h) :=
  (hp.filter _).map _

theorem votesAt_eq_nil_iff (m : List (uint256 × CMasternodePaymentWinner)) (h : Int) :
    votesAt m h = [] ↔ ∀ p ∈ m, p.2.nBlockHeight ≠ h := by
  unfold votesAt
  simp [List.filter_eq_nil_iff]

theorem mem_votesAt (m : List (uint256 × CMasternodePaymentWinner)) (h : Int)
    (w : CMasternodePaymentWinner) (hw : w ∈ votesAt m h) :
    w.nBlockHeight = h ∧ ∃ k, (k, w) ∈ m := by
  unfold votesAt at hw
  simp only [List.mem_map, List.mem_filter, decide_eq_true_eq] at hw
  obtain ⟨p, ⟨hp, hh⟩, rfl⟩ := hw
  exact ⟨hh, p.1, hp⟩

theorem tallySum_AddPayee (q : CScript) (n : Int) (l : List CMasternodePayee) :
    ((AddPayee q n l).map (fun p => p.nVotes)).sum = (l.map (fun p => p.nVotes)).sum + n := by
  induction l with
  | nil => simp [AddPayee]
  | cons p t ih =>
    by_cases hp : p.scriptPubKey = q
    · simp only [AddPayee, hp, if_true, List.map_cons, List.sum_cons]
      ring
    · simp only [AddPayee, hp, if_false, List.map_cons, List.sum_cons, ih]
      ring

theorem cleanLoop_votes (nHeight nLimit : Int)
    (m : List (uint256 × CMasternodePaymentWinner)) (b : List (Int × CMasternodeBlockPayees)) :
    (cleanLoop nHeight nLimit m b).1
      = m.filter (fun p => decide (wrapInt (nHeight - p.2.nBlockHeight) ≤ nLimit)) := by
  induction m generalizing b with
  | nil => rfl
  | cons p t ih =>
    obtain ⟨k, w⟩ := p
    by_cases hs : wrapInt (nHeight - w.nBlockHeight) > nLimit
    · have hk : ¬ wrapInt (nHeight - w.nBlockHeight) ≤ nLimit := not_le.mpr hs
      simp only [cleanLoop, hs, if_true, ih, List.filter_cons, hk, decide_False,
        Bool.false_eq_true, if_false]
    · have hk : wrapInt (nHeight - w.nBlockHeight) ≤ nLimit := not_lt.mp hs
      simp only [cleanLoop, hs, if_false, ih, List.filter_cons, hk, decide_True, if_true]

theorem cleanLoop_blocks (nHeight nLimit : Int)
    (m : List (uint256 × CMasternodePaymentWinner)) (b : List (Int × CMasternodeBlockPayees)) :
    (cleanLoop nHeight nLimit m b).2
      = b.filter (fun q => !(m.any (fun p =>
          decide (p.2.nBlockHeight = q.1 ∧
            wrapInt (nHeight - p.2.nBlockHeight) > nLimit)))) := by
  induction m generalizing b with
  | nil => simp [cleanLoop]
  | cons p t ih =>
    obtain ⟨k, w⟩ := p
    by_cases hs : wrapInt (nHeight - w.nBlockHeight) > nLimit
    · simp only [cleanLoop, hs, if_true, ih, mapErase, List.filter_filter, List.any_cons,
        and_true]
      apply List.filter_congr
      intro q _
      by_cases hq : q.1 = w.nBlockHeight
      · simp [hq]
      · have hq' : ¬ w.nBlockHeight = q.1 := fun h => hq h.symm
        simp [hq, hq']
    · simp only [cleanLoop, hs, if_false, ih, List.any_cons, and_false, decide_False,
        Bool.false_or]

theorem mapFind_filter_key {α : Type} (P : Int → Bool) (b : List (Int × α)) (j : Int) :
    mapFind (b.filter (fun q => P q.1)) j = if P j = true then mapFind b j else none := by
  induction b with
  | nil => simp [mapFind]
  | cons q t ih =>
    obtain ⟨k, v⟩ := q
    by_cases hk : k = j
    · subst hk
      cases hP : P k with
      | true => simp [List.filter_cons, hP, mapFind]
      | false => simp [List.filter_cons, hP, ih]
    · cases hP : P k with
      | true => simp [List.filter_cons, hP, mapFind, hk, ih]
      | false => simp [List.filter_cons, hP, mapFind, hk, ih]

theorem LedgerInv_empty : LedgerInv CMasternodePayments.empty where
  noTally := by intro h _; rfl
  tally := by
    intro h t ht
    simp [CMasternodePayments.empty, mapFind] at ht
  marked := by
    intro p hp
    simp [CMasternodePayments.empty] at hp
  distinct := by
    intro h
    simp [CMasternodePayments.empty, votesAt, voters]

theorem LedgerInv_mark (s : CMasternodePayments) (x : COutPoint × Int) (hs : LedgerInv s) :
    LedgerInv { s with voteSeenByVoterHeight := x :: s.voteSeenByVoterHeight } where
  noTally := hs.noTally
  tally := hs.tally
  marked := fun p hp => List.mem_cons_of_mem _ (hs.marked p hp)
  distinct := hs.distinct

theorem LedgerInv_admission (env : Env) (s : CMasternodePayments) (w : CMasternodePaymentWinner)
    (hs : LedgerInv s)
    (hfresh : ∀ p ∈ s.mapMasternodePayeeVotes,
      p.2.nBlockHeight = w.nBlockHeight → p.2.vinMasternode.prevout ≠ w.vinMasternode.prevout)
    (hmark : (w.vinMasternode.prevout, w.nBlockHeight) ∈ s.voteSeenByVoterHeight)
    (hadd : (s.AddWinningMasternode env w).1 = true) :
    LedgerInv (s.AddWinningMasternode env w).2 := by
  obtain ⟨hnew, hvotes, ⟨t, hfind, hvec⟩, hother, _, hseen⟩ :=
    AddWinningMasternode_true env s w hadd
  have hperm := mapInsert_perm (env.GetHash w) w s.mapMasternodePayeeVotes hnew
  have hat : ∀ j, (votesAt (s.AddWinningMasternode env w).2.mapMasternodePayeeVotes j).Perm
      (if w.nBlockHeight = j then w :: votesAt s.mapMasternodePayeeVotes j
        else votesAt s.mapMasternodePayeeVotes j) := by
    intro j
    rw [hvotes, ← votesAt_cons]
    exact votesAt_perm _ _ j hperm
  have hsum : tallySum t
      = ((votesAt s.mapMasternodePayeeVotes w.nBlockHeight).length : Int) + 1 := by
    unfold tallySum
    rw [hvec, tallySum_AddPayee]
    cases hf : mapFind s.mapMasternodeBlocks w.nBlockHeight with
    | none =>
      simp only [hs.noTally _ hf]
      simp
    | some t0 =>
      have := (hs.tally _ t0 hf).1
      unfold tallySum at this
      simp only [this]
  constructor
  · intro j hj
    have hne : j ≠ w.nBlockHeight := by
      rintro rfl
      rw [hfind] at hj
      exact absurd hj (by simp)
    rw [hother j hne] at hj
    have h0 := hat j
    rw [if_neg (fun h => hne h.symm), hs.noTally j hj] at h0
    exact List.Perm.eq_nil h0
  · intro j t' hj
    by_cases hje : j = w.nBlockHeight
    · subst hje
      rw [hfind] at hj
      have htt : t = t' := Option.some.inj hj
      subst htt
      have h0 := hat w.nBlockHeight
      rw [if_pos rfl] at h0
      refine ⟨?_, ?_⟩
      · rw [hsum, h0.length_eq]
        simp
      · intro hnil
        rw [hnil] at h0
        exact absurd h0.symm.eq_nil (by simp)
    · rw [hother j hje] at hj
      have h0 := hat j
      rw [if_neg (fun h => hje h.symm)] at h0
      refine ⟨?_, ?_⟩
      · rw [(hs.tally j t' hj).1, h0.length_eq]
      · intro hnil
        rw [hnil] at h0
        exact (hs.tally j t' hj).2 h0.symm.eq_nil
  · intro p hp
    rw [hseen]
    rw [hvotes] at hp
    rcases List.mem_cons.mp (hperm.mem_iff.mp hp) with rfl | hp'
    · exact hmark
    · exact hs.marked p hp'
  · intro j
    have h0 : (voters (votesAt (s.AddWinningMasternode env w).2.mapMasternodePayeeVotes j)).Perm
        (voters (if w.nBlockHeight = j then w :: votesAt s.mapMasternodePayeeVotes j
          else votesAt s.mapMasternodePayeeVotes j)) := (hat j).map _
    rw [h0.nodup_iff]
    by_cases hje : w.nBlockHeight = j
    · rw [if_pos hje]
      unfold voters
      rw [List.map_cons, List.nodup_cons]
      refine ⟨?_, hs.distinct j⟩
      intro hmem
      obtain ⟨w', hw', hv⟩ := List.mem_map.mp hmem
      obtain ⟨hh, k, hk⟩ := mem_votesAt _ _ _ hw'
      exact hfresh (k, w') hk (hh.trans hje.symm) hv
    · rw [if_neg hje]
      exact hs.distinct j

theorem LedgerInv_mnw (env : Env) (pfrom : CNode) (w : CMasternodePaymentWinner)
    (s : CMasternodePayments) (hs : LedgerInv s) :
    LedgerInv (ProcessMessageMasternodePayments env pfrom (.mnw w) s).1 := by
  rcases mnw_outcome env pfrom w s with ⟨h1, _⟩ | ⟨_, h1, _⟩ | ⟨hno, _, hadd, h1⟩
  · rw [h1]; exact hs
  · rw [h1]; exact LedgerInv_mark s _ hs
  · rw [h1]
    refine LedgerInv_admission env _ w (LedgerInv_mark s _ hs) ?_ (List.mem_cons_self _ _) hadd
    intro p hp hh hv
    apply hno
    rw [← hh, ← hv]
    exact hs.marked p hp

theorem votesAt_filter_keep (nHeight nLimit : Int)
    (m : List (uint256 × CMasternodePaymentWinner)) (h : Int) :
    votesAt (m.filter (fun p => decide (wrapInt (nHeight - p.2.nBlockHeight) ≤ nLimit))) h
      = if wrapInt (nHeight - h) ≤ nLimit then votesAt m h else [] := by
  induction m with
  | nil => simp [votesAt]
  | cons p t ih =>
    obtain ⟨k, w⟩ := p
    by_cases hk : wrapInt (nHeight - w.nBlockHeight) ≤ nLimit
    · simp only [List.filter_cons, hk, decide_True, if_true, votesAt_cons, ih]
      by_cases hw : w.nBlockHeight = h
      · subst hw
        simp [hk]
      · simp only [hw, if_false]
    · simp only [List.filter_cons, hk, decide_False, Bool.false_eq_true, if_false, ih,
        votesAt_cons]
      by_cases hw : w.nBlockHeight = h
      · subst hw
        simp [hk]
      · simp only [hw, if_false]

theorem LedgerInv_clean (env : Env) (s : CMasternodePayments) (hs : LedgerInv s) :
    LedgerInv (s.CleanPaymentList env) := by
  unfold CMasternodePayments.CleanPaymentList
  cases env.tipHeight with
  | none => exact hs
  | some nHeight =>
    simp only [cleanLoop_votes, cleanLoop_blocks]
    have hfind : ∀ j, mapFind (s.mapMasternodeBlocks.filter (fun q =>
        !(s.mapMasternodePayeeVotes.any (fun p =>
          decide (p.2.nBlockHeight = q.1 ∧ wrapInt (nHeight - p.2.nBlockHeight) > cleanLimit env))))) j
        = if wrapInt (nHeight - j) ≤ cleanLimit env then mapFind s.mapMasternodeBlocks j else none := by
      intro j
      rw [mapFind_filter_key (fun i => !(s.mapMasternodePayeeVotes.any (fun p =>
          decide (p.2.nBlockHeight = i ∧ wrapInt (nHeight - p.2.nBlockHeight) > cleanLimit env))))]
      by_cases hk : wrapInt (nHeight - j) ≤ cleanLimit env
      · have : (s.mapMasternodePayeeVotes.any (fun p =>
            decide (p.2.nBlockHeight = j ∧ wrapInt (nHeight - p.2.nBlockHeight) > cleanLimit env)))
            = false := by
          rw [List.any_eq_false]
          intro p _
          simp only [decide_eq_true_eq, not_and, not_lt]
          intro hp
          rw [hp]
          exact hk
        simp only [this, Bool.not_false, if_true, hk]
      · simp only [hk, if_false]
        split
        · rename_i hany
          simp only [Bool.not_eq_true', List.any_eq_false, decide_eq_true_eq, not_and] at hany
          have hnil : votesAt s.mapMasternodePayeeVotes j = [] := by
            rw [votesAt_eq_nil_iff]
            intro p hp hh
            apply hany p hp hh
            rw [hh]
            exact not_le.mp hk
          cases hf : mapFind s.mapMasternodeBlocks j with
          | none => rfl
          | some t => exact absurd hnil (hs.tally j t hf).2
        · rfl
    constructor
    · intro j hj
      simp only [votesAt_filter_keep] at hj ⊢
      rw [hfind] at hj
      by_cases hk : wrapInt (nHeight - j) ≤ cleanLimit env
      · rw [if_pos hk] at hj ⊢
        exact hs.noTally j hj
      · rw [if_neg hk]
    · intro j t hj
      simp only [votesAt_filter_keep] at hj ⊢
      rw [hfind] at hj
      by_cases hk : wrapInt (nHeight - j) ≤ cleanLimit env
      · rw [if_pos hk] at hj ⊢
        exact hs.tally j t hj
      · rw [if_neg hk] at hj
        exact absurd hj (by simp)
    · intro p hp
      exact hs.marked p (List.mem_of_mem_filter hp)
    · intro j
      simp only [votesAt_filter_keep]
      by_cases hk : wrapInt (nHeight - j) ≤ cleanLimit env
      · rw [if_pos hk]
        exact hs.distinct j
      · rw [if_neg hk]
        simp [voters]

/-- The invariant holds in every reachable ledger. -/
theorem LedgerInv_reachable (s : CMasternodePayments) (hr : Reachable s) : LedgerInv s := by
  induction hr with
  | empty => exact LedgerInv_empty
  | message env pfrom msg s _ ih =>
    cases msg with
    | mnget n => rw [handler_mnget_state]; exact ih
    | other => rw [handler_other_state]; exact ih
    | mnw w => exact LedgerInv_mnw env pfrom w s ih
  | clean env s _ ih => exact LedgerInv_clean env s ih

/-- C8. Tally conservation as a ledger invariant: in every ledger reached from
the empty one by messages to the handler and by prunes, for every height `h` a
tally exists iff some stored vote is for `h`, the `nVotes` of that tally sum to
the number of stored votes for `h`, and that number is the number of distinct
voters among them. -/
theorem C8_tally_conservation (s : CMasternodePayments) (h : Int) (hr : Reachable s) :
    (mapCount s.mapMasternodeBlocks h = true ↔
      ∃ p ∈ s.mapMasternodePayeeVotes, p.2.nBlockHeight = h) ∧
    (∀ t, mapFind s.mapMasternodeBlocks h = some t →
      tallySum t = ((votesAt s.mapMasternodePayeeVotes h).length : Int)) ∧
    (votesAt s.mapMasternodePayeeVotes h).length
      = (voters (votesAt s.mapMasternodePayeeVotes h)).dedup.length := by
  have hinv := LedgerInv_reachable s hr
  refine ⟨?_, fun t ht => (hinv.tally h t ht).1, ?_⟩
  · constructor
    · intro hc
      cases hf : mapFind s.mapMasternodeBlocks h with
      | none =>
        rw [(mapFind_eq_none_iff _ _).mp hf] at hc
        exact absurd hc (by simp)
      | some t =>
        have hne := (hinv.tally h t hf).2
        by_contra hno
        apply hne
        rw [votesAt_eq_nil_iff]
        intro p hp hh
        exact hno ⟨p, hp, hh⟩
    · rintro ⟨p, hp, hh⟩
      cases hc : mapCount s.mapMasternodeBlocks h with
      | true => rfl
      | false =>
        have hnil := hinv.noTally h ((mapFind_eq_none_iff _ _).mpr hc)
        rw [votesAt_eq_nil_iff] at hnil
        exact absurd hh (hnil p hp)
  · rw [(hinv.distinct h).dedup]
    simp [voters]

/-- Three voters vote for height 1001, two of them for payee `[5]` and one for
payee `[6]`, and the ledger is pruned. -/
theorem C8_tally_conservation_witness :
    (mapCount demoLedger.mapMasternodeBlocks 1001 = true ↔
      ∃ p ∈ demoLedger.mapMasternodePayeeVotes, p.2.nBlockHeight = 1001) ∧
    (∀ t, mapFind demoLedger.mapMasternodeBlocks 1001 = some t →
      tallySum t = ((votesAt demoLedger.mapMasternodePayeeVotes 1001).length : Int)) ∧
    (votesAt demoLedger.mapMasternodePayeeVotes 1001).length
      = (voters (votesAt demoLedger.mapMasternodePayeeVotes 1001)).dedup.length :=
  C8_tally_conservation demoLedger 1001
    (Reachable.clean demoEnv _
      (Reachable.message demoEnv demoPeer (.mnw (demoVote 3 1001 6)) _
        (Reachable.message demoEnv demoPeer (.mnw (demoVote 2 1001 5)) _
          (Reachable.message demoEnv demoPeer (.mnw (demoVote 1 1001 5)) _
            Reachable.empty))))

/-! ## Pruning (C9) -/

/-- Where the difference of line 632 leaves the `int` range the test is on the
wrapped value: with the tip at 3000 a stored vote for height `-2^31` has the
difference `3000 - 2^31 < 0`, and the vote and its tally are kept. -/
theorem CleanPaymentList_at_int_min :
    (CMasternodePayments.CleanPaymentList { demoEnv with tipHeight := some 3000 }
        ⟨[(7, demoVote 1 (-2147483648) 5)], [(-2147483648, ⟨-2147483648, [⟨[5], 1⟩]⟩)],
          0, []⟩)
      = ⟨[(7, demoVote 1 (-2147483648) 5)], [(-2147483648, ⟨-2147483648, [⟨[5], 1⟩]⟩)],
          0, []⟩ := by
  decide

/-- A block that lacks the transaction of line 220 gives the check no
transaction to judge once the node is synchronized: a block of the coinbase
alone above `LAST_POW_BLOCK` has no `vtx[1]`. -/
theorem IsBlockPayeeValid_past_the_end :
    IsBlockPayeeValid demoEnv ⟨[], [(1001, ⟨1001, [⟨[5], 6⟩]⟩)], 0, []⟩
        ⟨[⟨[⟨1000, [1]⟩]⟩], 0⟩ 1001 = none := by
  decide

/-- C11. `IsBlockValueValid` while not synchronized: with a chain tip and
`nHeight` one more than the height of the block's previous block (`0` when that
block is unknown), the answer is true iff `nHeight % GetBudgetPaymentCycleBlocks()`
is below 100 or the value out of the coinbase is at most `nExpectedValue`. So a
block whose previous block is unknown passes with any value, a block on a cadence
height passes with any value, and on every other height a value above
`nExpectedValue` is refused. The `%` of the source is the truncated remainder,
the usual `mod` for the heights of a chain. -/
theorem C11_value_valid_not_synced (env : Env) (block : CBlock) (nExpectedValue : CAmount)
    (pindexPrev : uint256 × Int)
    (htip : env.chainTip = some pindexPrev) (hsync : env.IsSynced = false) :
    (IsBlockValueValid env block nExpectedValue = true ↔
      Int.tmod (blockHeight env pindexPrev block) env.GetBudgetPaymentCycleBlocks < 100 ∨
        env.GetValueOut (block.vtx.getD 0 ⟨[]⟩) ≤ nExpectedValue) ∧
    (pindexPrev.1 = block.hashPrevBlock →
      blockHeight env pindexPrev block = pindexPrev.2 + 1) ∧
    (∀ h, pindexPrev.1 ≠ block.hashPrevBlock → env.mapBlockIndex block.hashPrevBlock = some h →
      blockHeight env pindexPrev block = h + 1) ∧
    (pindexPrev.1 ≠ block.hashPrevBlock → env.mapBlockIndex block.hashPrevBlock = none →
      blockHeight env pindexPrev block = 0 ∧
        IsBlockValueValid env block nExpectedValue = true) ∧
    (Int.tmod (blockHeight env pindexPrev block) env.GetBudgetPaymentCycleBlocks < 100 →
      IsBlockValueValid env block nExpectedValue = true) ∧
    (¬ Int.tmod (blockHeight env pindexPrev block) env.GetBudgetPaymentCycleBlocks < 100 →
      env.GetValueOut (block.vtx.getD 0 ⟨[]⟩) > nExpectedValue →
      IsBlockValueValid env block nExpectedValue = false) ∧
    (0 ≤ blockHeight env pindexPrev block → 0 ≤ env.GetBudgetPaymentCycleBlocks →
      Int.tmod (blockHeight env pindexPrev block) env.GetBudgetPaymentCycleBlocks
        = blockHeight env pindexPrev block % env.GetBudgetPaymentCycleBlocks) := by
  have hiff : IsBlockValueValid env block nExpectedValue = true ↔
      Int.tmod (blockHeight env pindexPrev block) env.GetBudgetPaymentCycleBlocks < 100 ∨
        env.GetValueOut (block.vtx.getD 0 ⟨[]⟩) ≤ nExpectedValue := by
    unfold IsBlockValueValid
    simp only [htip, hsync, Bool.not_false, if_true]
    by_cases h1 :
        Int.tmod (blockHeight env pindexPrev block) env.GetBudgetPaymentCycleBlocks < 100
    · simp [h1]
    · by_cases h2 : env.GetValueOut (block.vtx.getD 0 ⟨[]⟩) > nExpectedValue
      · simp [h1, h2]
      · simp [h1, h2, not_lt.mp h2]
  refine ⟨hiff, ?_, ?_, ?_, ?_, ?_, ?_⟩
  · intro h
    simp [blockHeight, h]
  · intro h hne hfound
    simp [blockHeight, hne, hfound]
  · intro hne hnone
    have h0 : blockHeight env pindexPrev block = 0 := by
      simp [blockHeight, hne, hnone]
    refine ⟨h0, hiff.mpr (Or.inl ?_)⟩
    rw [h0]
    simp
  · intro h
    exact hiff.mpr (Or.inl h)
  · intro h1 h2
    rw [← Bool.not_eq_true]
    intro hv
    rcases hiff.mp hv with h | h
    · exact h1 h
    · exact absurd h (not_le.mpr h2)
  · intro h1 h2
    exact Int.tmod_eq_emod h1 h2

/-- A block not on a cadence height (height 1001 of a cycle of 43200) whose
coinbase pays 1500 where 1000 is expected is refused, and accepted when its
previous block is unknown. -/
theorem C11_value_valid_not_synced_witness :
    IsBlockValueValid { demoEnv with IsSynced := false } ⟨[⟨[⟨1500, [1]⟩]⟩], 77⟩ 1000 = false ∧
    IsBlockValueValid { demoEnv with IsSynced := false } ⟨[⟨[⟨1500, [1]⟩]⟩], 66⟩ 1000 = true :=
  ⟨(C11_value_valid_not_synced { demoEnv with IsSynced := false } ⟨[⟨[⟨1500, [1]⟩]⟩], 77⟩
      1000 (77, 1000) rfl rfl).2.2.2.2.2.1 (by decide) (by decide),
    ((C11_value_valid_not_synced { demoEnv with IsSynced := false } ⟨[⟨[⟨1500, [1]⟩]⟩], 66⟩
      1000 (77, 1000) rfl rfl).2.2.2.1 (by decide) (by decide)).2⟩

/-- C12. `IsBlockValueValid` once synchronized, with a chain tip: when SPORK_13 is
inactive the answer is exactly whether the value out of the coinbase is at most
`nExpectedValue`, on budget payment heights too; when it is active the answer is
true iff `budget.IsBudgetPaymentBlock(nHeight)` holds or the value is at most
`nExpectedValue`. -/
theorem C12_value_valid_synced (env : Env) (block : CBlock) (nExpectedValue : CAmount)
    (pindexPrev : uint256 × Int)
    (htip : env.chainTip = some pindexPrev) (hsync : env.IsSynced = true) :
    (env.IsSporkActive .SPORK_13_ENABLE_SUPERBLOCKS = false →
      IsBlockValueValid env block nExpectedValue
        = decide (env.GetValueOut (block.vtx.getD 0 ⟨[]⟩) ≤ nExpectedValue)) ∧
    (env.IsSporkActive .SPORK_13_ENABLE_SUPERBLOCKS = true →
      (IsBlockValueValid env block nExpectedValue = true ↔
        env.IsBudgetPaymentBlock (blockHeight env pindexPrev block) = true ∨
          env.GetValueOut (block.vtx.getD 0 ⟨[]⟩) ≤ nExpectedValue)) := by
  constructor
  · intro hs
    unfold IsBlockValueValid
    simp [htip, hsync, hs]
  · intro hs
    unfold IsBlockValueValid
    simp only [htip, hsync, hs, Bool.not_true, Bool.false_eq_true, if_false]
    by_cases h1 : env.IsBudgetPaymentBlock (blockHeight env pindexPrev block) = true
    · simp [h1]
    · by_cases h2 : env.GetValueOut (block.vtx.getD 0 ⟨[]⟩) > nExpectedValue
      · simp [h1, h2]
      · simp [h1, h2, not_lt.mp h2]

/-- With SPORK_13 off a block on a budget payment height that pays 1500 where
1000 is expected is refused; with SPORK_13 on it is accepted. -/
theorem C12_value_valid_synced_witness :
    IsBlockValueValid
        { demoEnv with IsSporkActive := fun _ => false, IsBudgetPaymentBlock := fun _ => true }
        ⟨[⟨[⟨1500, [1]⟩]⟩], 77⟩ 1000 = decide ((1500 : Int) ≤ 1000) ∧
    IsBlockValueValid { demoEnv with IsBudgetPaymentBlock := fun _ => true }
        ⟨[⟨[⟨1500, [1]⟩]⟩], 77⟩ 1000 = true :=
  ⟨(C12_value_valid_synced
      { demoEnv with IsSporkActive := fun _ => false, IsBudgetPaymentBlock := fun _ => true }
      ⟨[⟨[⟨1500, [1]⟩]⟩], 77⟩ 1000 (77, 1000) rfl rfl).1 rfl,
    ((C12_value_valid_synced { demoEnv with IsBudgetPaymentBlock := fun _ => true }
      ⟨[⟨[⟨1500, [1]⟩]⟩], 77⟩ 1000 (77, 1000) rfl rfl).2 rfl).mpr (Or.inl rfl)⟩

/-! ## The outputs written by `FillBlockPayee` (C13 - C15) -/

theorem resize_append (init l : List CTxOut) (k : Nat) :
    resize (init ++ l) (init.length + k) = init ++ resize l k := by
  induction init with
  | nil => simp
  | cons o t ih =>
    have : (o :: t).length + k = (t.length + k) + 1 := by simp; omega
    rw [this]
    show o :: resize (t ++ l) (t.length + k) = o :: (t ++ resize l k)
    rw [ih]

theorem updateOut_append (init l : List CTxOut) (k : Nat) (f : CTxOut → CTxOut) :
    updateOut (init ++ l) (init.length + k) f = init ++ updateOut l k f := by
  induction init with
  | nil => simp
  | cons o t ih =>
    have : (o :: t).length + k = (t.length + k) + 1 := by simp; omega
    rw [this]
    show o :: updateOut (t ++ l) (t.length + k) f = o :: (t ++ updateOut l k f)
    rw [ih]

theorem updateOut_length (l : List CTxOut) (k : Nat) (f : CTxOut → CTxOut) :
    (updateOut l k f).length = l.length := by
  induction l generalizing k with
  | nil => rfl
  | cons o t ih =>
    cases k with
    | zero => rfl
    | succ k => simp [updateOut, ih]

/-- The two outputs of the proof-of-work layout. -/
theorem fillOutputs_pow (env : Env) (pindexPrev : uint256 × Int) (payee : CScript)
    (vout : List CTxOut) (nFees : CAmount) :
    (fillOutputs env pindexPrev (some payee) vout nFees false).1
      = [⟨minerValue env pindexPrev nFees, (vout.getD 0 CTxOut.null).scriptPubKey⟩,
          ⟨env.GetMasternodePaymentDefault pindexPrev.2 (env.GetBlockValue pindexPrev.2),
            payee⟩] := by
  unfold fillOutputs
  match vout with
  | [] => simp [resize, updateOut]
  | [a] => simp [resize, updateOut]
  | a :: b :: t => simp [resize, updateOut]

/-- C13. Proof-of-work payout layout: with a chain tip and a payee `P` resolved
from the tally or from the registry, `CMasternodePayments::FillBlockPayee` with
`fProofOfStake = false` leaves exactly two outputs: output 1 has script `P` and
value `masternodePayment`, output 0 has value `blockValue - masternodePayment +
nFees` when the new height is at most `LAST_POW_BLOCK` and `blockValue -
masternodePayment` otherwise, so the two values sum to `blockValue`, plus `nFees`
up to `LAST_POW_BLOCK`. -/
theorem C13_pow_payout_layout (env : Env) (mp : CMasternodePayments) (txNew : CTransaction)
    (nFees : CAmount) (pindexPrev : uint256 × Int) (P : CScript)
    (htip : env.chainTip = some pindexPrev)
    (hpayee : resolvePayee env mp pindexPrev = some P) :
    (mp.FillBlockPayee env txNew nFees false).1.vout
      = [⟨if pindexPrev.2 + 1 > env.LAST_POW_BLOCK then
            env.GetBlockValue pindexPrev.2
              - env.GetMasternodePaymentDefault pindexPrev.2 (env.GetBlockValue pindexPrev.2)
          else
            env.GetBlockValue pindexPrev.2
              - env.GetMasternodePaymentDefault pindexPrev.2 (env.GetBlockValue pindexPrev.2)
              + nFees,
          (txNew.vout.getD 0 CTxOut.null).scriptPubKey⟩,
        ⟨env.GetMasternodePaymentDefault pindexPrev.2 (env.GetBlockValue pindexPrev.2), P⟩] ∧
    (mp.FillBlockPayee env txNew nFees false).1.vout.length = 2 ∧
    (((mp.FillBlockPayee env txNew nFees false).1.vout.map (fun o => o.nValue)).sum
      = if pindexPrev.2 + 1 > env.LAST_POW_BLOCK then env.GetBlockValue pindexPrev.2
        else env.GetBlockValue pindexPrev.2 + nFees) := by
  have hv : (mp.FillBlockPayee env txNew nFees false).1.vout
      = [⟨minerValue env pindexPrev nFees, (txNew.vout.getD 0 CTxOut.null).scriptPubKey⟩,
          ⟨env.GetMasternodePaymentDefault pindexPrev.2 (env.GetBlockValue pindexPrev.2),
            P⟩] := by
    unfold CMasternodePayments.FillBlockPayee
    simp only [htip, hpayee, fillOutputs_pow]
  rw [hv]
  refine ⟨?_, rfl, ?_⟩
  · simp only [minerValue]
  · simp only [minerValue, List.map_cons, List.map_nil, List.sum_cons, List.sum_nil]
    split <;> ring

/-- Tip at 1000 (past `LAST_POW_BLOCK` = 200), six votes for payee `[5]` at 1001,
block value 1000 and payment 100: a coinbase with one output gets the layout
900, 100. -/
theorem C13_pow_payout_layout_witness :
    (demoSixVotes.FillBlockPayee demoEnv ⟨[⟨0, [1]⟩]⟩ 7 false).1.vout
      = [⟨900, [1]⟩, ⟨100, [5]⟩] := by
  have h := (C13_pow_payout_layout demoEnv demoSixVotes ⟨[⟨0, [1]⟩]⟩ 7 (77, 1000) [5] rfl
    (by decide)).1
  exact h.trans (by decide)

/-- The outputs of the proof-of-stake path on a transaction with a last
output. -/
theorem fillOutputs_pos (env : Env) (pindexPrev : uint256 × Int) (payee : CScript)
    (init : List CTxOut) (last : CTxOut) (nFees : CAmount) :
    (fillOutputs env pindexPrev (some payee) (init ++ [last]) nFees true).1
      = init ++
        [⟨last.nValue
            - env.GetMasternodePaymentDefault pindexPrev.2 (env.GetBlockValue pindexPrev.2),
            last.scriptPubKey⟩,
          ⟨env.GetMasternodePaymentDefault pindexPrev.2 (env.GetBlockValue pindexPrev.2),
            payee⟩] := by
  unfold fillOutputs
  have hlen : (init ++ [last]).length = init.length + 1 := by simp
  have hne : ¬ init.length + 1 = 0 := by omega
  simp only [if_true, hlen, hne, if_false, Nat.add_sub_cancel]
  have h1 : resize (init ++ [last]) (init.length + 1 + 1) = init ++ [last, CTxOut.null] := by
    have := resize_append init [last] 2
    simpa [resize, Nat.add_assoc] using this
  rw [h1]
  have h2 : ∀ f : CTxOut → CTxOut, ∀ a b : CTxOut,
      updateOut (init ++ [a, b]) (init.length + 1) f = init ++ [a, f b] := by
    intro f a b
    rw [updateOut_append]
    rfl
  have h3 : ∀ f : CTxOut → CTxOut, ∀ a b : CTxOut,
      updateOut (init ++ [a, b]) init.length f = init ++ [f a, b] := by
    intro f a b
    have := updateOut_append init [a, b] 0 f
    simpa [updateOut] using this
  rw [h2, h2, h3]

/-- C14. Proof-of-stake payout: with a chain tip and a resolved payee `P`, on a
transaction with `n ≥ 1` outputs `CMasternodePayments::FillBlockPayee` with
`fProofOfStake = true` leaves `n + 1` outputs: the new last one has script `P` and
value `masternodePayment`, output `n - 1` keeps its script and has its value
lowered by `masternodePayment`, the outputs before it are unchanged, and the
total of the output values is unchanged (no fees are added). -/
theorem C14_pos_payout (env : Env) (mp : CMasternodePayments) (txNew : CTransaction)
    (nFees : CAmount) (pindexPrev : uint256 × Int) (P : CScript)
    (htip : env.chainTip = some pindexPrev)
    (hpayee : resolvePayee env mp pindexPrev = some P)
    (hne : txNew.vout ≠ []) :
    (mp.FillBlockPayee env txNew nFees true).1.vout
      = txNew.vout.dropLast ++
        [⟨(txNew.vout.getLast hne).nValue
            - env.GetMasternodePaymentDefault pindexPrev.2 (env.GetBlockValue pindexPrev.2),
            (txNew.vout.getLast hne).scriptPubKey⟩,
          ⟨env.GetMasternodePaymentDefault pindexPrev.2 (env.GetBlockValue pindexPrev.2),
            P⟩] ∧
    (mp.FillBlockPayee env txNew nFees true).1.vout.length = txNew.vout.length + 1 ∧
    ((mp.FillBlockPayee env txNew nFees true).1.vout.map (fun o => o.nValue)).sum
      = (txNew.vout.map (fun o => o.nValue)).sum := by
  have hsplit : txNew.vout = txNew.vout.dropLast ++ [txNew.vout.getLast hne] :=
    (List.dropLast_append_getLast hne).symm
  have hv : (mp.FillBlockPayee env txNew nFees true).1.vout
      = txNew.vout.dropLast ++
        [⟨(txNew.vout.getLast hne).nValue
            - env.GetMasternodePaymentDefault pindexPrev.2 (env.GetBlockValue pindexPrev.2),
            (txNew.vout.getLast hne).scriptPubKey⟩,
          ⟨env.GetMasternodePaymentDefault pindexPrev.2 (env.GetBlockValue pindexPrev.2),
            P⟩] := by
    unfold CMasternodePayments.FillBlockPayee
    simp only [htip, hpayee]
    have key := fillOutputs_pos env pindexPrev P txNew.vout.dropLast (txNew.vout.getLast hne)
      nFees
    rw [List.dropLast_append_getLast hne] at key
    exact key
  refine ⟨hv, ?_, ?_⟩
  · rw [hv]
    have hl := congrArg List.length hsplit
    simp only [List.length_append, List.length_cons, List.length_nil] at hl ⊢
    omega
  · rw [hv]
    have hs := congrArg (fun l => (l.map (fun o : CTxOut => o.nValue)).sum) hsplit
    simp only [List.map_append, List.sum_append, List.map_cons, List.map_nil, List.sum_cons,
      List.sum_nil] at hs ⊢
    rw [hs]
    ring

/-- A coinstake with an empty first output and a stake output of 5000 gets the
payment of 100 appended and taken from the stake output. -/
theorem C14_pos_payout_witness :
    (demoSixVotes.FillBlockPayee demoEnv ⟨[⟨0, []⟩, ⟨5000, [2]⟩]⟩ 7 true).1.vout
      = [⟨0, []⟩, ⟨4900, [2]⟩, ⟨100, [5]⟩] := by
  have h := (C14_pos_payout demoEnv demoSixVotes ⟨[⟨0, []⟩, ⟨5000, [2]⟩]⟩ 7 (77, 1000) [5] rfl
    (by decide) (by decide)).1
  exact h.trans (by decide)

/-- C15 (as stated, refuted). No payee in the tally and no current masternode in
the registry, `fProofOfStake = true`, a coinstake with outputs of 0 and 5000, new
height 1001 past `LAST_POW_BLOCK`: the transaction is left as it was, so output 0
still has value 0 and not the block value 1000. -/
theorem C15_no_payee_counterexample :
    resolvePayee { demoEnv with GetCurrentMasterNode := none } CMasternodePayments.empty
        (77, 1000) = none ∧
    (CMasternodePayments.empty.FillBlockPayee { demoEnv with GetCurrentMasterNode := none }
        ⟨[⟨0, []⟩, ⟨5000, [2]⟩]⟩ 7 true).1 = ⟨[⟨0, []⟩, ⟨5000, [2]⟩]⟩ ∧
    ((CMasternodePayments.empty.FillBlockPayee { demoEnv with GetCurrentMasterNode := none }
        ⟨[⟨0, []⟩, ⟨5000, [2]⟩]⟩ 7 true).1.vout.getD 0 CTxOut.null).nValue
      ≠ demoEnv.GetBlockValue 1000 := by
  decide

/-- C15 (amended). With a chain tip, no payee in the tally for the next height and
no current masternode in the registry, `CMasternodePayments::FillBlockPayee` adds
no masternode output: the number of outputs is unchanged. With `fProofOfStake =
false` and a transaction that has an output 0, the value of output 0 is set to
`blockValue + nFees` when the new height is at most `LAST_POW_BLOCK` and to
`blockValue` otherwise, and nothing else changes. With `fProofOfStake = true` the
transaction is left as it was. -/
theorem C15_no_payee (env : Env) (mp : CMasternodePayments) (txNew : CTransaction)
    (nFees : CAmount) (fProofOfStake : Bool) (pindexPrev : uint256 × Int)
    (htip : env.chainTip = some pindexPrev)
    (hpayee : resolvePayee env mp pindexPrev = none) :
    (mp.FillBlockPayee env txNew nFees fProofOfStake).1.vout.length = txNew.vout.length ∧
    (fProofOfStake = false → ∀ out rest, txNew.vout = out :: rest →
      (mp.FillBlockPayee env txNew nFees fProofOfStake).1.vout
        = ⟨if pindexPrev.2 + 1 > env.LAST_POW_BLOCK then env.GetBlockValue pindexPrev.2
            else env.GetBlockValue pindexPrev.2 + nFees, out.scriptPubKey⟩ :: rest) ∧
    (fProofOfStake = true → (mp.FillBlockPayee env txNew nFees fProofOfStake).1 = txNew) := by
  unfold CMasternodePayments.FillBlockPayee
  simp only [htip, hpayee, fillOutputs]
  cases fProofOfStake with
  | false =>
    refine ⟨by simp [updateOut_length], ?_, by simp⟩
    intro _ out rest hv
    simp [hv, updateOut, fullValue]
  | true => simp

/-- Without a payee a coinbase with one output gets the whole block value, 1000
at height 1001 past `LAST_POW_BLOCK`, and a coinstake is left as it was. -/
theorem C15_no_payee_witness :
    (CMasternodePayments.empty.FillBlockPayee { demoEnv with GetCurrentMasterNode := none }
        ⟨[⟨0, [1]⟩]⟩ 7 false).1.vout = [⟨1000, [1]⟩] ∧
    (CMasternodePayments.empty.FillBlockPayee { demoEnv with GetCurrentMasterNode := none }
        ⟨[⟨0, []⟩, ⟨5000, [2]⟩]⟩ 7 true).1 = ⟨[⟨0, []⟩, ⟨5000, [2]⟩]⟩ :=
  ⟨((C15_no_payee { demoEnv with GetCurrentMasterNode := none } CMasternodePayments.empty
      ⟨[⟨0, [1]⟩]⟩ 7 false (77, 1000) rfl (by decide)).2.1 rfl ⟨0, [1]⟩ [] rfl).trans
      (by decide),
    (C15_no_payee { demoEnv with GetCurrentMasterNode := none } CMasternodePayments.empty
      ⟨[⟨0, []⟩, ⟨5000, [2]⟩]⟩ 7 true (77, 1000) rfl (by decide)).2.2 rfl⟩

/-! ## The producer (C16, C17) -/

/-- A call of `ProcessBlock` that answers false leaves the ledger as it was. -/
theorem ProcessBlock_false (env : Env) (s : CMasternodePayments) (nBlockHeight : Int)
    (h : (s.ProcessBlock env nBlockHeight).1 = false) :
    (s.ProcessBlock env nBlockHeight).2.1 = s := by
  unfold CMasternodePayments.ProcessBlock at h ⊢
  by_cases h1 : env.fMasterNode = true
  swap
  · simp [h1]
  by_cases h2 : env.GetMasternodeRank env.activeMasternodeVin (nBlockHeight - 100)
      env.ActiveProtocol = -1
  · simp [h1, h2]
  by_cases h3 : env.GetMasternodeRank env.activeMasternodeVin (nBlockHeight - 100)
      env.ActiveProtocol > env.MNPAYMENTS_SIGNATURES_TOTAL
  · simp [h1, h2, h3]
  by_cases h4 : nBlockHeight ≤ s.nLastBlockHeight
  · simp [h1, h2, h3, h4]
  cases hk : env.SetKey with
  | none => simp [h1, h2, h3, h4, hk]
  | some k =>
    obtain ⟨key, pub⟩ := k
    by_cases h5 : ((producedWinner env nBlockHeight).Sign env key pub).1 = true
    swap
    · simp [h1, h2, h3, h4, hk, h5]
    by_cases h6 : (s.AddWinningMasternode env
        ((producedWinner env nBlockHeight).Sign env key pub).2).1 = true
    · simp [h1, h2, h3, h4, hk, h5, h6] at h
    · simp only [h1, h2, h3, h4, hk, h5, h6, Bool.not_true, Bool.false_eq_true, if_false,
        if_true]
      exact AddWinningMasternode_false env s _ (by simpa using h6)

/-- A call of `ProcessBlock` that answers true was for a height above
`nLastBlockHeight` and leaves `nLastBlockHeight` at that height. -/
theorem ProcessBlock_true (env : Env) (s : CMasternodePayments) (nBlockHeight : Int)
    (h : (s.ProcessBlock env nBlockHeight).1 = true) :
    nBlockHeight > s.nLastBlockHeight ∧
      (s.ProcessBlock env nBlockHeight).2.1.nLastBlockHeight = nBlockHeight := by
  unfold CMasternodePayments.ProcessBlock at h ⊢
  by_cases h1 : env.fMasterNode = true
  swap
  · simp [h1] at h
  by_cases h2 : env.GetMasternodeRank env.activeMasternodeVin (nBlockHeight - 100)
      env.ActiveProtocol = -1
  · simp [h1, h2] at h
  by_cases h3 : env.GetMasternodeRank env.activeMasternodeVin (nBlockHeight - 100)
      env.ActiveProtocol > env.MNPAYMENTS_SIGNATURES_TOTAL
  · simp [h1, h2, h3] at h
  by_cases h4 : nBlockHeight ≤ s.nLastBlockHeight
  · simp [h1, h2, h3, h4] at h
  refine ⟨not_le.mp h4, ?_⟩
  cases hk : env.SetKey with
  | none => simp [h1, h2, h3, h4, hk] at h
  | some k =>
    obtain ⟨key, pub⟩ := k
    by_cases h5 : ((producedWinner env nBlockHeight).Sign env key pub).1 = true
    swap
    · simp [h1, h2, h3, h4, hk, h5] at h
    by_cases h6 : (s.AddWinningMasternode env
        ((producedWinner env nBlockHeight).Sign env key pub).2).1 = true
    · simp [h1, h2, h3, h4, hk, h5, h6]
    · simp [h1, h2, h3, h4, hk, h5, h6] at h

/-- C16. Producer failure semantics and monotonic last-produced height: when
`ProcessBlock` answers false the ledger, with `nLastBlockHeight`,
`mapMasternodePayeeVotes` and `mapMasternodeBlocks`, is as it was; when it answers
true the height was above the old `nLastBlockHeight` and the new
`nLastBlockHeight` is that height. So `nLastBlockHeight` never decreases, and
after a success for a height no call for that height succeeds in any ledger whose
`nLastBlockHeight` has not gone back. -/
theorem C16_producer_failure_and_monotonic (env : Env) (s : CMasternodePayments)
    (nBlockHeight : Int) :
    ((s.ProcessBlock env nBlockHeight).1 = false →
      (s.ProcessBlock env nBlockHeight).2.1 = s) ∧
    ((s.ProcessBlock env nBlockHeight).1 = true →
      nBlockHeight > s.nLastBlockHeight ∧
        (s.ProcessBlock env nBlockHeight).2.1.nLastBlockHeight = nBlockHeight) ∧
    s.nLastBlockHeight ≤ (s.ProcessBlock env nBlockHeight).2.1.nLastBlockHeight ∧
    ((s.ProcessBlock env nBlockHeight).1 = true →
      ∀ (env2 : Env) (s2 : CMasternodePayments),
        (s.ProcessBlock env nBlockHeight).2.1.nLastBlockHeight ≤ s2.nLastBlockHeight →
        (s2.ProcessBlock env2 nBlockHeight).1 = false) := by
  refine ⟨ProcessBlock_false env s nBlockHeight, ProcessBlock_true env s nBlockHeight, ?_, ?_⟩
  · cases h : (s.ProcessBlock env nBlockHeight).1 with
    | false => rw [ProcessBlock_false env s nBlockHeight h]
    | true =>
      obtain ⟨h1, h2⟩ := ProcessBlock_true env s nBlockHeight h
      rw [h2]
      exact le_of_lt h1
  · intro h env2 s2 hle
    rw [(ProcessBlock_true env s nBlockHeight h).2] at hle
    rw [← Bool.not_eq_true]
    intro h2
    exact absurd (ProcessBlock_true env2 s2 nBlockHeight h2).1 (not_lt.mpr hle)

/-- The node produces its vote for height 1001 on the empty ledger, after which
`nLastBlockHeight` is 1001 and a second call for 1001 fails and changes
nothing. -/
theorem C16_producer_failure_and_monotonic_witness :
    (CMasternodePayments.empty.ProcessBlock demoEnv 1001).1 = true ∧
    (CMasternodePayments.empty.ProcessBlock demoEnv 1001).2.1.nLastBlockHeight = 1001 ∧
    ((CMasternodePayments.empty.ProcessBlock demoEnv 1001).2.1.ProcessBlock demoEnv 1001).1
      = false ∧
    ((CMasternodePayments.empty.ProcessBlock demoEnv 1001).2.1.ProcessBlock demoEnv 1001).2.1
      = (CMasternodePayments.empty.ProcessBlock demoEnv 1001).2.1 :=
  ⟨by decide,
    ((C16_producer_failure_and_monotonic demoEnv CMasternodePayments.empty 1001).2.1
      (by decide)).2,
    (C16_producer_failure_and_monotonic demoEnv CMasternodePayments.empty 1001).2.2.2
      (by decide) demoEnv _ (le_refl _),
    (C16_producer_failure_and_monotonic demoEnv
      (CMasternodePayments.empty.ProcessBlock demoEnv 1001).2.1 1001).1 (by decide)⟩

/-- C17 (the code at the failing input). On a budget payment height, and likewise
when the registry has no next-due masternode, `ProcessBlock` does not stop: it
signs the vote as the constructor built it (height 0, no payee) and hands it to
`AddWinningMasternode`. Where `GetBlockHash` answers for height `-100` the vote is
stored under height 0, relayed, and the call returns true; the call returns false
only where `GetBlockHash` refuses that height. -/
theorem C17_producer_votes_without_payee :
    (CMasternodePayments.empty.ProcessBlock
        { demoEnv with IsBudgetPaymentBlock := fun _ => true, GetBlockHash := fun _ => some 1 }
        1001)
      = (true,
          ⟨[(42, ⟨⟨⟨42, 0⟩⟩, 0, [], [1, 2, 3]⟩)], [(0, ⟨0, [⟨[], 1⟩]⟩)], 1001, []⟩,
          [.Relay 42]) ∧
    (CMasternodePayments.empty.ProcessBlock
        { demoEnv with
          GetNextMasternodeInQueueForPayment := fun _ => none, GetBlockHash := fun _ => some 1 }
        1001)
      = (true,
          ⟨[(42, ⟨⟨⟨42, 0⟩⟩, 0, [], [1, 2, 3]⟩)], [(0, ⟨0, [⟨[], 1⟩]⟩)], 1001, []⟩,
          [.Relay 42]) ∧
    (CMasternodePayments.empty.ProcessBlock
        { demoEnv with IsBudgetPaymentBlock := fun _ => true } 1001)
      = (false, CMasternodePayments.empty, []) := by
  decide

/-! ## Voter eligibility (C18) -/

/-- C18. Voter eligibility and rank gate: `CMasternodePaymentWinner::IsValid`
answers true iff the voter's input is found in the registry, the node found has
`protocolVersion >= ActiveProtocol()`, and the rank of the voter at `nBlockHeight
- 100` does not exceed `MNPAYMENTS_SIGNATURES_TOTAL`; the peer is penalised
(`Misbehaving`) only when the node is found, its protocol is recent enough and
the rank is above `MNPAYMENTS_SIGNATURES_TOTAL * 2`. -/
theorem C18_voter_eligibility (env : Env) (w : CMasternodePaymentWinner) :
    ((w.IsValid env).1 = true ↔
      ∃ pmn, env.Find w.vinMasternode = some pmn ∧
        pmn.protocolVersion ≥ env.ActiveProtocol ∧
        env.GetMasternodeRank w.vinMasternode (w.nBlockHeight - 100) env.ActiveProtocol
          ≤ env.MNPAYMENTS_SIGNATURES_TOTAL) ∧
    (∀ howmuch, Effect.Misbehaving howmuch ∈ (w.IsValid env).2.1 →
      (∃ pmn, env.Find w.vinMasternode = some pmn ∧
        pmn.protocolVersion ≥ env.ActiveProtocol) ∧
      env.GetMasternodeRank w.vinMasternode (w.nBlockHeight - 100) env.ActiveProtocol
        > env.MNPAYMENTS_SIGNATURES_TOTAL * 2) := by
  unfold CMasternodePaymentWinner.IsValid
  cases hf : env.Find w.vinMasternode with
  | none => simp
  | some pmn =>
    by_cases h1 : pmn.protocolVersion < env.ActiveProtocol
    · have h1' : ¬ env.ActiveProtocol ≤ pmn.protocolVersion := not_le.mpr h1
      simp [h1, h1']
    · have h1' : env.ActiveProtocol ≤ pmn.protocolVersion := not_lt.mp h1
      by_cases h2 : env.GetMasternodeRank w.vinMasternode (w.nBlockHeight - 100)
          env.ActiveProtocol > env.MNPAYMENTS_SIGNATURES_TOTAL
      · have h2' : ¬ env.GetMasternodeRank w.vinMasternode (w.nBlockHeight - 100)
            env.ActiveProtocol ≤ env.MNPAYMENTS_SIGNATURES_TOTAL := not_le.mpr h2
        by_cases h3 : env.GetMasternodeRank w.vinMasternode (w.nBlockHeight - 100)
            env.ActiveProtocol > env.MNPAYMENTS_SIGNATURES_TOTAL * 2
        · cases hs : env.IsSynced <;> simp [h1, h1', h2, h2', h3]
        · simp [h1, h1', h2, h2', h3]
      · have h2' : env.GetMasternodeRank w.vinMasternode (w.nBlockHeight - 100)
            env.ActiveProtocol ≤ env.MNPAYMENTS_SIGNATURES_TOTAL := not_lt.mp h2
        simp [h1, h1', h2, h2']

/-- A voter of rank 10 is valid where the total is 10; a voter of rank 15 is
refused without a penalty; a voter of rank 21 is refused and the peer
penalised. -/
theorem C18_voter_eligibility_witness :
    ((demoVote 1 1001 5).IsValid { demoEnv with GetMasternodeRank := fun _ _ _ => 10 }).1
      = true ∧
    (demoVote 1 1001 5).IsValid { demoEnv with GetMasternodeRank := fun _ _ _ => 15 }
      = (false, [], false) ∧
    (demoVote 1 1001 5).IsValid { demoEnv with GetMasternodeRank := fun _ _ _ => 21 }
      = (false, [.Log "Masternode not in the top", .Misbehaving 20], true) :=
  ⟨(C18_voter_eligibility { demoEnv with GetMasternodeRank := fun _ _ _ => 10 }
      (demoVote 1 1001 5)).1.mpr ⟨⟨90050, [1], 7⟩, rfl, by decide, by decide⟩,
    by decide, by decide⟩

/-! ## The reply to a sync request (C19) -/

/-- Where the difference of line 787 leaves the `int` range the lower bound is
the wrapped value: with the tip at 1000 a request for `-2^31` heights has the
bound `1000 - 2^31`, and every vote up to height 1020 is announced. -/
theorem Sync_at_int_min :
    CMasternodePayments.Sync demoEnv
        ⟨[(1, demoVote 1 800 5), (2, demoVote 2 990 5), (3, demoVote 3 1001 5),
          (4, demoVote 4 1021 5)], [], 0, []⟩ (-2147483648)
      = [.PushInventory (demoEnv.GetHash (demoVote 1 800 5)),
          .PushInventory (demoEnv.GetHash (demoVote 2 990 5)),
          .PushInventory (demoEnv.GetHash (demoVote 3 1001 5)), .PushMessageSsc 3] := by
  decide

theorem CleanPaymentList_congr (env : Env) (a b : CMasternodePayments)
    (hv : a.mapMasternodePayeeVotes = b.mapMasternodePayeeVotes)
    (hb : a.mapMasternodeBlocks = b.mapMasternodeBlocks) :
    (a.CleanPaymentList env).mapMasternodePayeeVotes
        = (b.CleanPaymentList env).mapMasternodePayeeVotes ∧
      (a.CleanPaymentList env).mapMasternodeBlocks
        = (b.CleanPaymentList env).mapMasternodeBlocks := by
  unfold CMasternodePayments.CleanPaymentList
  cases env.tipHeight with
  | none => exact ⟨hv, hb⟩
  | some nHeight => simp only [hv, hb, and_self]

/-- The load of a file that holds a payload followed by its 32-byte checksum, up
to the point where the ledger is read from the stream. -/
theorem Read_of_written (ser : Serializer) (env : Env) (payload ledgerBytes : List Nat)
    (objToLoad loaded : CMasternodePayments) (fDryRun : Bool)
    (hstr : ser.readString payload = some (strMagicMessage, env.MessageStart ++ ledgerBytes))
    (hhash : (ser.Hash payload).length = 32)
    (hmagic : env.MessageStart.length = 4)
    (hledger : ser.readLedger ledgerBytes objToLoad = some loaded) :
    CMasternodePaymentDB.Read ser env (some (payload ++ ser.Hash payload)) objToLoad fDryRun
      = if !fDryRun then (.Ok, loaded.CleanPaymentList env) else (.Ok, loaded) := by
  unfold CMasternodePaymentDB.Read
  have hsize : (payload ++ ser.Hash payload).length - 32 = payload.length := by
    rw [List.length_append, hhash]
    omega
  have htake : (payload ++ ser.Hash payload).take payload.length = payload := by
    simp
  have hdrop : (payload ++ ser.Hash payload).drop payload.length = ser.Hash payload := by
    simp
  have hfull : (ser.Hash payload).take 32 = ser.Hash payload := by
    rw [← hhash]
    exact List.take_length _
  have h4 : ¬ (env.MessageStart ++ ledgerBytes).length < 4 := by
    rw [List.length_append, hmagic]
    omega
  have htake4 : (env.MessageStart ++ ledgerBytes).take 4 = env.MessageStart := by
    rw [← hmagic]
    simp
  have hdrop4 : (env.MessageStart ++ ledgerBytes).drop 4 = ledgerBytes := by
    rw [← hmagic]
    simp
  simp only [hsize, htake, hdrop, hhash, lt_irrefl, if_false, hfull, ne_eq, not_true_eq_false,
    hstr, h4, htake4, hdrop4, hledger]

/-- C20. Round-trip persistence: the bytes produced by
`CMasternodePaymentDB::Write` for a ledger `L` (magic message, the four bytes of
the network magic, the serialized ledger, then the hash of all that) are
accepted by `CMasternodePaymentDB::Read` on the same network. In dry-run mode the
result is `Ok` and the object loaded is what the ledger's own deserialization
gives, which has the votes and the tallies of `L` when that pair round-trips;
without dry-run the result is `Ok` and the votes and tallies loaded are those of
`L` after `CleanPaymentList`. The string operators are assumed to round-trip on
the magic message and the hash to be 32 bytes long. -/
theorem C20_snapshot_round_trip (ser : Serializer) (env : Env)
    (L objToLoad loaded : CMasternodePayments) (file : Option (List Nat))
    (hstr : ser.readString (snapshotPayload ser env L)
      = some (strMagicMessage, env.MessageStart ++ ser.writeLedger L))
    (hhash : (ser.Hash (snapshotPayload ser env L)).length = 32)
    (hmagic : env.MessageStart.length = 4)
    (hledger : ser.readLedger (ser.writeLedger L) objToLoad = some loaded)
    (hvotes : loaded.mapMasternodePayeeVotes = L.mapMasternodePayeeVotes)
    (hblocks : loaded.mapMasternodeBlocks = L.mapMasternodeBlocks) :
    (CMasternodePaymentDB.Write ser env L true file).1 = true ∧
    CMasternodePaymentDB.Read ser env (CMasternodePaymentDB.Write ser env L true file).2
        objToLoad true = (.Ok, loaded) ∧
    (CMasternodePaymentDB.Read ser env (CMasternodePaymentDB.Write ser env L true file).2
        objToLoad true).2.mapMasternodePayeeVotes = L.mapMasternodePayeeVotes ∧
    (CMasternodePaymentDB.Read ser env (CMasternodePaymentDB.Write ser env L true file).2
        objToLoad true).2.mapMasternodeBlocks = L.mapMasternodeBlocks ∧
    (CMasternodePaymentDB.Read ser env (CMasternodePaymentDB.Write ser env L true file).2
        objToLoad false).1 = .Ok ∧
    (CMasternodePaymentDB.Read ser env (CMasternodePaymentDB.Write ser env L true file).2
        objToLoad false).2.mapMasternodePayeeVotes
      = (L.CleanPaymentList env).mapMasternodePayeeVotes ∧
    (CMasternodePaymentDB.Read ser env (CMasternodePaymentDB.Write ser env L true file).2
        objToLoad false).2.mapMasternodeBlocks
      = (L.CleanPaymentList env).mapMasternodeBlocks := by
  have hw : (CMasternodePaymentDB.Write ser env L true file).2
      = some (snapshotPayload ser env L ++ ser.Hash (snapshotPayload ser env L)) := by
    simp [CMasternodePaymentDB.Write]
  have hdry := Read_of_written ser env (snapshotPayload ser env L) (ser.writeLedger L)
    objToLoad loaded true hstr hhash hmagic hledger
  have hwet := Read_of_written ser env (snapshotPayload ser env L) (ser.writeLedger L)
    objToLoad loaded false hstr hhash hmagic hledger
  simp only [Bool.not_true, Bool.false_eq_true, if_false] at hdry
  simp only [Bool.not_false, if_true] at hwet
  rw [hw, hdry, hwet]
  have hc := CleanPaymentList_congr env loaded L hvotes hblocks
  exact ⟨by simp [CMasternodePaymentDB.Write], rfl, hvotes, hblocks, rfl, hc.1, hc.2⟩

/-- The ledger with three votes for height 1001 is written and read back into an
empty ledger. -/
theorem C20_snapshot_round_trip_witness :
    CMasternodePaymentDB.Read demoSerializer demoEnv
        (CMasternodePaymentDB.Write demoSerializer demoEnv demoLedger true none).2
        CMasternodePayments.empty true
      = (.Ok, { CMasternodePayments.empty with
          mapMasternodePayeeVotes := demoLedger.mapMasternodePayeeVotes
          mapMasternodeBlocks := demoLedger.mapMasternodeBlocks }) :=
  (C20_snapshot_round_trip demoSerializer demoEnv demoLedger CMasternodePayments.empty
    { CMasternodePayments.empty with
      mapMasternodePayeeVotes := demoLedger.mapMasternodePayeeVotes
      mapMasternodeBlocks := demoLedger.mapMasternodeBlocks } none
    (by decide) (by decide) (by decide) (by decide) rfl rfl).2.1

/-! ## A damaged snapshot and the overwrite policy (C21, C22) -/

/-- The load of a file that holds some data followed by 32 bytes that are not the
hash of the data: `IncorrectHash`, whatever the data holds, and `objToLoad` as it
was. -/
theorem Read_bad_checksum (ser : Serializer) (env : Env) (data sum : List Nat)
    (objToLoad : CMasternodePayments) (fDryRun : Bool)
    (hlen : sum.length = 32) (hne : sum ≠ ser.Hash data) :
    CMasternodePaymentDB.Read ser env (some (data ++ sum)) objToLoad fDryRun
      = (.IncorrectHash, objToLoad) := by
  unfold CMasternodePaymentDB.Read
  have hsize : (data ++ sum).length - 32 = data.length := by
    rw [List.length_append, hlen]
    omega
  have htake : (data ++ sum).take data.length = data := by simp
  have hdrop : (data ++ sum).drop data.length = sum := by simp
  have hfull : sum.take 32 = sum := by
    rw [← hlen]
    exact List.take_length _
  simp only [hsize, htake, hdrop, hlen, lt_irrefl, if_false, hfull, ne_eq, hne,
    not_false_eq_true, if_true]

/-- C21. Checksum sensitivity: take the file written by
`CMasternodePaymentDB::Write` and change any single byte of it, in the payload or
in the trailing 32-byte checksum. `CMasternodePaymentDB::Read` then returns
`IncorrectHash`, not `Ok`, and leaves the target ledger object as it was; it does
so whatever the string and ledger readers and the network magic of the reading
side are, the checksum being compared before any of them is used. For a byte of
the payload this rests on `Hash` telling the changed payload from the written
one; the hash is taken to be 32 bytes long. -/
theorem C21_checksum_sensitivity (ser ser2 : Serializer) (env env2 : Env)
    (L objToLoad : CMasternodePayments) (file : Option (List Nat)) (i b : Nat)
    (fDryRun : Bool)
    (hhash : (ser.Hash (snapshotPayload ser env L)).length = 32)
    (hsame : ser2.Hash = ser.Hash)
    (hflip : (snapshotPayload ser env L ++ ser.Hash (snapshotPayload ser env L)).set i b
      ≠ snapshotPayload ser env L ++ ser.Hash (snapshotPayload ser env L))
    (hcollision : i < (snapshotPayload ser env L).length →
      ser.Hash ((snapshotPayload ser env L).set i b) ≠ ser.Hash (snapshotPayload ser env L)) :
    (CMasternodePaymentDB.Write ser env L true file).2
      = some (snapshotPayload ser env L ++ ser.Hash (snapshotPayload ser env L)) ∧
    CMasternodePaymentDB.Read ser2 env2
        (some ((snapshotPayload ser env L ++ ser.Hash (snapshotPayload ser env L)).set i b))
        objToLoad fDryRun
      = (.IncorrectHash, objToLoad) := by
  refine ⟨by simp [CMasternodePaymentDB.Write], ?_⟩
  by_cases hi : i < (snapshotPayload ser env L).length
  · rw [List.set_append_left i b hi]
    apply Read_bad_checksum
    · exact hhash
    · rw [hsame]
      exact fun h => hcollision hi h.symm
  · have hi' : (snapshotPayload ser env L).length ≤ i := not_lt.mp hi
    rw [List.set_append_right i b hi']
    rw [List.set_append_right i b hi'] at hflip
    apply Read_bad_checksum
    · rw [List.length_set]
      exact hhash
    · rw [hsame]
      intro h
      apply hflip
      rw [h]

/-- The snapshot of the ledger with three votes: its first payload byte (18, the
length of the magic message) changed to 99, and its last checksum byte changed
to 999, are both refused with `IncorrectHash`. -/
theorem C21_checksum_sensitivity_witness :
    CMasternodePaymentDB.Read demoSerializer demoEnv
        (some ((snapshotPayload demoSerializer demoEnv demoLedger ++
          demoSerializer.Hash (snapshotPayload demoSerializer demoEnv demoLedger)).set 0 99))
        CMasternodePayments.empty true
      = (.IncorrectHash, CMasternodePayments.empty) ∧
    CMasternodePaymentDB.Read demoSerializer demoEnv
        (some ((snapshotPayload demoSerializer demoEnv demoLedger ++
          demoSerializer.Hash (snapshotPayload demoSerializer demoEnv demoLedger)).set
            ((snapshotPayload demoSerializer demoEnv demoLedger).length + 31) 999))
        CMasternodePayments.empty true
      = (.IncorrectHash, CMasternodePayments.empty) :=
  ⟨(C21_checksum_sensitivity demoSerializer demoSerializer demoEnv demoEnv demoLedger
      CMasternodePayments.empty none 0 99 true (by decide) rfl (by decide)
      (fun _ => by decide)).2,
    (C21_checksum_sensitivity demoSerializer demoSerializer demoEnv demoEnv demoLedger
      CMasternodePayments.empty none
      ((snapshotPayload demoSerializer demoEnv demoLedger).length + 31) 999 true (by decide)
      rfl (by decide) (fun h => absurd h (by decide))).2⟩

/-- C22. Snapshot overwrite policy: `DumpMasternodePayments` calls `Write` iff
the dry-run `Read` before it returned `Ok`, `FileError` or `IncorrectFormat`, and
the file is then what `Write` leaves; when `Read` returned `IncorrectHash`,
`IncorrectMagicMessage`, `IncorrectMagicNumber` or `HashReadError` it returns
without calling `Write` and the file is as it was. -/
theorem C22_snapshot_overwrite_policy (ser : Serializer) (env : Env)
    (masternodePayments : CMasternodePayments) (canOpen : Bool) (file : Option (List Nat)) :
    ((DumpMasternodePayments ser env masternodePayments canOpen file).1 = true ↔
      (CMasternodePaymentDB.Read ser env file CMasternodePayments.empty true).1 = .Ok ∨
      (CMasternodePaymentDB.Read ser env file CMasternodePayments.empty true).1 = .FileError ∨
      (CMasternodePaymentDB.Read ser env file CMasternodePayments.empty true).1
        = .IncorrectFormat) ∧
    ((DumpMasternodePayments ser env masternodePayments canOpen file).1 = true →
      (DumpMasternodePayments ser env masternodePayments canOpen file).2
        = (CMasternodePaymentDB.Write ser env masternodePayments canOpen file).2) ∧
    ((CMasternodePaymentDB.Read ser env file CMasternodePayments.empty true).1 = .IncorrectHash ∨
      (CMasternodePaymentDB.Read ser env file CMasternodePayments.empty true).1
        = .IncorrectMagicMessage ∨
      (CMasternodePaymentDB.Read ser env file CMasternodePayments.empty true).1
        = .IncorrectMagicNumber ∨
      (CMasternodePaymentDB.Read ser env file CMasternodePayments.empty true).1
        = .HashReadError →
      DumpMasternodePayments ser env masternodePayments canOpen file = (false, file)) := by
  unfold DumpMasternodePayments
  cases h : (CMasternodePaymentDB.Read ser env file CMasternodePayments.empty true).1 <;>
    simp [h]

/-- A file damaged in its checksum is left as it is; a missing file is created
with the snapshot of the ledger. -/
theorem C22_snapshot_overwrite_policy_witness :
    DumpMasternodePayments demoSerializer demoEnv demoLedger true
        (some ((snapshotPayload demoSerializer demoEnv demoLedger ++
          demoSerializer.Hash (snapshotPayload demoSerializer demoEnv demoLedger)).set
            ((snapshotPayload demoSerializer demoEnv demoLedger).length + 31) 999))
      = (false, some ((snapshotPayload demoSerializer demoEnv demoLedger ++
          demoSerializer.Hash (snapshotPayload demoSerializer demoEnv demoLedger)).set
            ((snapshotPayload demoSerializer demoEnv demoLedger).length + 31) 999)) ∧
    (DumpMasternodePayments demoSerializer demoEnv demoLedger true none).1 = true :=
  ⟨(C22_snapshot_overwrite_policy demoSerializer demoEnv demoLedger true _).2.2
      (Or.inl (by decide)),
    (C22_snapshot_overwrite_policy demoSerializer demoEnv demoLedger true none).1.mpr
      (Or.inr (Or.inl (by decide)))⟩

/-! ## The order of the gates (C23) and the producer's own gates (C24) -/

/-- C23 (as stated, refuted). The ledger holds the vote of voter 1 for height
1001; the tip has moved to 2000, so with 100 enabled nodes the window starts at
1875 and height 1001 is outside it. The vote arrives again: the handler takes the
duplicate short-circuit and calls `AddedMasternodeWinner`, the window gate is not
reached. -/
theorem C23_gate_order_counterexample :
    ((demoVote 1 1001 5).nBlockHeight < firstBlock { demoEnv with tipHeight := some 2000 } 2000 ∨
      (demoVote 1 1001 5).nBlockHeight > 2000 + 20) ∧
    mapCount demoLedger.mapMasternodePayeeVotes (demoEnv.GetHash (demoVote 1 1001 5)) = true ∧
    ProcessMessageMasternodePayments { demoEnv with tipHeight := some 2000 } demoPeer
        (.mnw (demoVote 1 1001 5)) demoLedger
      = (demoLedger, [.Log "mnw - Already seen",
          .AddedMasternodeWinner (demoEnv.GetHash (demoVote 1 1001 5))]) := by
  decide

/-- C23 (amended). The handler checks the duplicate-by-hash gate first and the
freshness window second: a vote whose hash is already in
`mapMasternodePayeeVotes` takes the duplicate short-circuit and triggers
`masternodeSync.AddedMasternodeWinner` whatever its height, outside the window
too; the window gate rejects a vote outside the window only when its hash is not
present, and then without the callback. -/
theorem C23_gate_order (env : Env) (pfrom : CNode) (w : CMasternodePaymentWinner)
    (s : CMasternodePayments) (nHeight : Int)
    (hsync : env.IsBlockchainSynced = true) (hlite : env.fLiteMode = false)
    (hver : ¬ pfrom.nVersion < env.ActiveProtocol) (htip : env.tipHeight = some nHeight) :
    (mapCount s.mapMasternodePayeeVotes (env.GetHash w) = true →
      ProcessMessageMasternodePayments env pfrom (.mnw w) s
        = (s, [.Log "mnw - Already seen", .AddedMasternodeWinner (env.GetHash w)])) ∧
    (mapCount s.mapMasternodePayeeVotes (env.GetHash w) = false →
      (w.nBlockHeight < firstBlock env nHeight ∨ w.nBlockHeight > nHeight + 20) →
      ProcessMessageMasternodePayments env pfrom (.mnw w) s
        = (s, [.Log "mnw - winner out of range"])) := by
  constructor
  · intro hseen
    unfold ProcessMessageMasternodePayments
    simp only [hsync, hlite, hver, htip, hseen, Bool.not_true, Bool.false_eq_true, if_false,
      if_true]
  · intro hnew hout
    exact (mnw_dropped_iff env pfrom w s nHeight hsync hlite hver htip hnew).mpr hout

/-- The stored vote for height 1001 arrives again with the tip at 2000 and takes
the short-circuit; a new vote for height 1001 is dropped by the window gate. -/
theorem C23_gate_order_witness :
    ProcessMessageMasternodePayments { demoEnv with tipHeight := some 2000 } demoPeer
        (.mnw (demoVote 1 1001 5)) demoLedger
      = (demoLedger, [.Log "mnw - Already seen",
          .AddedMasternodeWinner (demoEnv.GetHash (demoVote 1 1001 5))]) ∧
    ProcessMessageMasternodePayments { demoEnv with tipHeight := some 2000 } demoPeer
        (.mnw (demoVote 9 1001 5)) demoLedger
      = (demoLedger, [.Log "mnw - winner out of range"]) :=
  ⟨(C23_gate_order { demoEnv with tipHeight := some 2000 } demoPeer (demoVote 1 1001 5)
      demoLedger 2000 rfl rfl (by decide) rfl).1 (by decide),
    (C23_gate_order { demoEnv with tipHeight := some 2000 } demoPeer (demoVote 9 1001 5)
      demoLedger 2000 rfl rfl (by decide) rfl).2 (by decide) (by decide)⟩

/-- C24 (as stated, refuted). With the tip at 1000 `ProcessBlock(1050)` inserts
the vote of this node for height 1050, which the `mnw` pipeline drops in the same
state as out of range (the window ends at 1020). And where this node is already
marked as having voted for 1001, `ProcessBlock(1001)` inserts its vote all the
same, which the pipeline refuses in that state; the marks are not touched. -/
theorem C24_producer_gates_counterexample :
    (CMasternodePayments.empty.ProcessBlock demoEnv 1050).1 = true ∧
    (CMasternodePayments.empty.ProcessBlock demoEnv 1050).2.1.mapMasternodePayeeVotes
      = [(demoEnv.GetHash ⟨⟨⟨42, 0⟩⟩, 1050, [8], [1, 2, 3]⟩,
          ⟨⟨⟨42, 0⟩⟩, 1050, [8], [1, 2, 3]⟩)] ∧
    ProcessMessageMasternodePayments demoEnv demoPeer
        (.mnw ⟨⟨⟨42, 0⟩⟩, 1050, [8], [1, 2, 3]⟩) CMasternodePayments.empty
      = (CMasternodePayments.empty, [.Log "mnw - winner out of range"]) ∧
    ((⟨[], [], 0, [(⟨42, 0⟩, 1001)]⟩ : CMasternodePayments).ProcessBlock demoEnv 1001).2.1
      = ⟨[(demoEnv.GetHash ⟨⟨⟨42, 0⟩⟩, 1001, [8], [1, 2, 3]⟩,
            ⟨⟨⟨42, 0⟩⟩, 1001, [8], [1, 2, 3]⟩)],
          [(1001, ⟨1001, [⟨[8], 1⟩]⟩)], 1001, [(⟨42, 0⟩, 1001)]⟩ ∧
    ProcessMessageMasternodePayments demoEnv demoPeer
        (.mnw ⟨⟨⟨42, 0⟩⟩, 1001, [8], [1, 2, 3]⟩) ⟨[], [], 0, [(⟨42, 0⟩, 1001)]⟩
      = (⟨[], [], 0, [(⟨42, 0⟩, 1001)]⟩, [.Log "mnw - masternode already voted"]) ∧
    (CMasternodePayments.empty.ProcessBlock demoEnv 1001).2.1.voteSeenByVoterHeight = [] := by
  decide

/-- C24 (amended). Every vote that `ProcessBlock` inserts is inserted by
`AddWinningMasternode`, the step that also inserts the votes of the network: the
block hash at its height - 100 was available and its hash was not in the ledger.
The gates of `ProcessBlock` itself are the rank of this node (known, and at most
`MNPAYMENTS_SIGNATURES_TOTAL`) and `nBlockHeight > nLastBlockHeight`; it applies
neither the freshness window nor the double-vote gate, and the marks of that gate
are after the call what they were before. -/
theorem C24_producer_gates (env : Env) (s : CMasternodePayments) (nBlockHeight : Int)
    (hreturn : (s.ProcessBlock env nBlockHeight).1 = true) :
    ∃ key pub, env.SetKey = some (key, pub) ∧
      ((producedWinner env nBlockHeight).Sign env key pub).1 = true ∧
      (s.AddWinningMasternode env ((producedWinner env nBlockHeight).Sign env key pub).2).1
        = true ∧
      (env.GetBlockHash
        (((producedWinner env nBlockHeight).Sign env key pub).2.nBlockHeight - 100)).isSome
        = true ∧
      mapCount s.mapMasternodePayeeVotes
        (env.GetHash ((producedWinner env nBlockHeight).Sign env key pub).2) = false ∧
      (s.ProcessBlock env nBlockHeight).2.1
        = { (s.AddWinningMasternode env
              ((producedWinner env nBlockHeight).Sign env key pub).2).2 with
            nLastBlockHeight := nBlockHeight } ∧
      (s.ProcessBlock env nBlockHeight).2.1.voteSeenByVoterHeight = s.voteSeenByVoterHeight ∧
      env.GetMasternodeRank env.activeMasternodeVin (nBlockHeight - 100) env.ActiveProtocol
        ≠ -1 ∧
      env.GetMasternodeRank env.activeMasternodeVin (nBlockHeight - 100) env.ActiveProtocol
        ≤ env.MNPAYMENTS_SIGNATURES_TOTAL ∧
      nBlockHeight > s.nLastBlockHeight := by
  unfold CMasternodePayments.ProcessBlock at hreturn ⊢
  by_cases h1 : env.fMasterNode = true
  swap
  · simp [h1] at hreturn
  by_cases h2 : env.GetMasternodeRank env.activeMasternodeVin (nBlockHeight - 100)
      env.ActiveProtocol = -1
  · simp [h1, h2] at hreturn
  by_cases h3 : env.GetMasternodeRank env.activeMasternodeVin (nBlockHeight - 100)
      env.ActiveProtocol > env.MNPAYMENTS_SIGNATURES_TOTAL
  · simp [h1, h2, h3] at hreturn
  by_cases h4 : nBlockHeight ≤ s.nLastBlockHeight
  · simp [h1, h2, h3, h4] at hreturn
  cases hk : env.SetKey with
  | none => simp [h1, h2, h3, h4, hk] at hreturn
  | some k =>
    obtain ⟨key, pub⟩ := k
    by_cases h5 : ((producedWinner env nBlockHeight).Sign env key pub).1 = true
    swap
    · simp [h1, h2, h3, h4, hk, h5] at hreturn
    by_cases h6 : (s.AddWinningMasternode env
        ((producedWinner env nBlockHeight).Sign env key pub).2).1 = true
    swap
    · simp [h1, h2, h3, h4, hk, h5, h6] at hreturn
    have hadd := AddWinningMasternode_true env s _ h6
    have hblock : (env.GetBlockHash
        (((producedWinner env nBlockHeight).Sign env key pub).2.nBlockHeight - 100)).isSome
        = true := by
      cases hb : env.GetBlockHash
          (((producedWinner env nBlockHeight).Sign env key pub).2.nBlockHeight - 100) with
      | some _ => rfl
      | none =>
        simp [CMasternodePayments.AddWinningMasternode, hb] at h6
    refine ⟨key, pub, rfl, h5, h6, hblock, hadd.1, ?_, ?_, h2, not_lt.mp h3, not_le.mp h4⟩
    · simp [h1, h2, h3, h4, h5, h6]
    · simp only [h1, h2, h3, h4, h5, h6, Bool.not_true, Bool.false_eq_true, if_false, if_true]
      exact hadd.2.2.2.2.2

/-- The vote this node produces for height 1001 on the empty ledger went through
`AddWinningMasternode`, and no mark was set. -/
theorem C24_producer_gates_witness :
    ∃ key pub, demoEnv.SetKey = some (key, pub) ∧
      ((producedWinner demoEnv 1001).Sign demoEnv key pub).1 = true ∧
      (CMasternodePayments.empty.AddWinningMasternode demoEnv
        ((producedWinner demoEnv 1001).Sign demoEnv key pub).2).1 = true ∧
      (demoEnv.GetBlockHash
        (((producedWinner demoEnv 1001).Sign demoEnv key pub).2.nBlockHeight - 100)).isSome
        = true ∧
      mapCount CMasternodePayments.empty.mapMasternodePayeeVotes
        (demoEnv.GetHash ((producedWinner demoEnv 1001).Sign demoEnv key pub).2) = false ∧
      (CMasternodePayments.empty.ProcessBlock demoEnv 1001).2.1
        = { (CMasternodePayments.empty.AddWinningMasternode demoEnv
              ((producedWinner demoEnv 1001).Sign demoEnv key pub).2).2 with
            nLastBlockHeight := 1001 } ∧
      (CMasternodePayments.empty.ProcessBlock demoEnv 1001).2.1.voteSeenByVoterHeight
        = CMasternodePayments.empty.voteSeenByVoterHeight ∧
      demoEnv.GetMasternodeRank demoEnv.activeMasternodeVin (1001 - 100) demoEnv.ActiveProtocol
        ≠ -1 ∧
      demoEnv.GetMasternodeRank demoEnv.activeMasternodeVin (1001 - 100) demoEnv.ActiveProtocol
        ≤ demoEnv.MNPAYMENTS_SIGNATURES_TOTAL ∧
      (1001 : Int) > CMasternodePayments.empty.nLastBlockHeight :=
  C24_producer_gates demoEnv CMasternodePayments.empty 1001 (by decide)

/-! ## Order-insensitive acceptance (C25) -/

/-- C25. Order-insensitive acceptance: `CMasternodeBlockPayees::IsTransactionValid`
gives the same answer for two tallies of the same height whose payee lists are
permutations of each other, and for two transactions whose outputs are
permutations of each other. -/
theorem C25_order_insensitive_acceptance (env : Env) (t t2 : CMasternodeBlockPayees)
    (txNew txNew2 : CTransaction)
    (hheight : t.nBlockHeight = t2.nBlockHeight)
    (hpayees : t.vecPayments.Perm t2.vecPayments)
    (houts : txNew.vout.Perm txNew2.vout) :
    t.IsTransactionValid env txNew = t2.IsTransactionValid env txNew2 := by
  rw [Bool.eq_iff_iff, blockPayees_IsTransactionValid_iff, blockPayees_IsTransactionValid_iff,
    hheight]
  simp only [hpayees.mem_iff, houts.mem_iff]

/-- Two payees and two outputs, in either order: accepted both ways. -/
theorem C25_order_insensitive_acceptance_witness :
    (⟨1001, [⟨[5], 9⟩, ⟨[6], 6⟩]⟩ : CMasternodeBlockPayees).IsTransactionValid demoEnv
        ⟨[⟨900, [1]⟩, ⟨100, [6]⟩]⟩
      = (⟨1001, [⟨[6], 6⟩, ⟨[5], 9⟩]⟩ : CMasternodeBlockPayees).IsTransactionValid demoEnv
        ⟨[⟨100, [6]⟩, ⟨900, [1]⟩]⟩ :=
  C25_order_insensitive_acceptance demoEnv ⟨1001, [⟨[5], 9⟩, ⟨[6], 6⟩]⟩
    ⟨1001, [⟨[6], 6⟩, ⟨[5], 9⟩]⟩ ⟨[⟨900, [1]⟩, ⟨100, [6]⟩]⟩ ⟨[⟨100, [6]⟩, ⟨900, [1]⟩]⟩ rfl
    (List.Perm.swap _ _ _) (List.Perm.swap _ _ _)

/-! ## The uses of `txNew.vout[k]` (C27) -/

/-- C27 (the code at the failing input). A coinbase with one output, a resolved
payee, `fProofOfStake = false`: after `vout.resize(2)` the closing log lines read
`vout[0]`, `vout[1]` and `vout[2]`, the last one past the end of a vector of size
2. The same read is out of bounds on the proof-of-stake path with one output,
and without a payee also the read of `vout[1]`. -/
theorem C27_log_reads_past_the_end :
    (demoSixVotes.FillBlockPayee demoEnv ⟨[⟨0, [1]⟩]⟩ 7 false).2
      = [⟨1, 2⟩, ⟨1, 2⟩, ⟨0, 2⟩, ⟨0, 2⟩, ⟨1, 2⟩, ⟨2, 2⟩] ∧
    (demoSixVotes.FillBlockPayee demoEnv ⟨[⟨5000, [2]⟩]⟩ 7 true).2
      = [⟨1, 2⟩, ⟨1, 2⟩, ⟨0, 2⟩, ⟨0, 2⟩, ⟨1, 2⟩, ⟨2, 2⟩] ∧
    (CMasternodePayments.empty.FillBlockPayee { demoEnv with GetCurrentMasterNode := none }
        ⟨[⟨0, [1]⟩]⟩ 7 false).2 = [⟨0, 1⟩, ⟨0, 1⟩, ⟨1, 1⟩, ⟨2, 1⟩] ∧
    ¬ (∀ a ∈ (demoSixVotes.FillBlockPayee demoEnv ⟨[⟨0, [1]⟩]⟩ 7 false).2, a.index < a.size) := by
  decide

/-! ## Order-independent tallies (C26) -/

theorem mapInsert_comm {κ α : Type} [LinearOrder κ] (k1 k2 : κ) (v1 v2 : α)
    (m : List (κ × α)) (hne : k1 ≠ k2) :
    mapInsert k1 v1 (mapInsert k2 v2 m) = mapInsert k2 v2 (mapInsert k1 v1 m) := by
  have hne' : k2 ≠ k1 := fun h => hne h.symm
  induction m with
  | nil =>
    rcases lt_or_gt_of_ne hne with h | h
    · have h' : ¬ k2 < k1 := not_lt.mpr (le_of_lt h)
      simp [mapInsert, h, h', hne']
    · have h' : ¬ k1 < k2 := not_lt.mpr (le_of_lt h)
      simp [mapInsert, h, h', hne]
  | cons p t ih =>
    obtain ⟨k, v⟩ := p
    rcases lt_trichotomy k1 k with a | a | a <;> rcases lt_trichotomy k2 k with b | b | b
    · rcases lt_or_gt_of_ne hne with h | h
      · have h' : ¬ k2 < k1 := not_lt.mpr (le_of_lt h)
        simp [mapInsert, a, b, h, h', hne']
      · have h' : ¬ k1 < k2 := not_lt.mpr (le_of_lt h)
        simp [mapInsert, a, b, h, h', hne]
    · subst b
      have h' : ¬ k2 < k1 := not_lt.mpr (le_of_lt a)
      simp [mapInsert, a, h', hne']
    · have b1 : ¬ k2 < k := not_lt.mpr (le_of_lt b)
      have b2 : ¬ k2 = k := ne_of_gt b
      have h' : ¬ k2 < k1 := not_lt.mpr (le_of_lt (lt_trans a b))
      simp [mapInsert, a, b1, b2, h', hne']
    · subst a
      have h' : ¬ k1 < k2 := not_lt.mpr (le_of_lt b)
      simp [mapInsert, b, h', hne]
    · exact absurd (a.trans b.symm) hne
    · subst a
      have b1 : ¬ k2 < k1 := not_lt.mpr (le_of_lt b)
      simp [mapInsert, b1, hne']
    · have a1 : ¬ k1 < k := not_lt.mpr (le_of_lt a)
      have a2 : ¬ k1 = k := ne_of_gt a
      have h' : ¬ k1 < k2 := not_lt.mpr (le_of_lt (lt_trans b a))
      simp [mapInsert, b, a1, a2, h', hne]
    · subst b
      have a1 : ¬ k1 < k2 := not_lt.mpr (le_of_lt a)
      simp [mapInsert, a1, hne]
    · have a1 : ¬ k1 < k := not_lt.mpr (le_of_lt a)
      have a2 : ¬ k1 = k := ne_of_gt a
      have b1 : ¬ k2 < k := not_lt.mpr (le_of_lt b)
      have b2 : ¬ k2 = k := ne_of_gt b
      simp [mapInsert, a1, a2, b1, b2, ih]

theorem mapCount_mapInsert_ne {κ α : Type} [LinearOrder κ] (k j : κ) (v : α)
    (m : List (κ × α)) (hj : j ≠ k) : mapCount (mapInsert k v m) j = mapCount m j := by
  have h1 := mapFind_eq_none_iff (mapInsert k v m) j
  have h2 := mapFind_eq_none_iff m j
  rw [mapFind_mapInsert_ne k j v m hj] at h1
  cases ha : mapCount (mapInsert k v m) j <;> cases hb : mapCount m j <;> simp_all

theorem AddWinningMasternode_votes (env : Env) (s : CMasternodePayments)
    (w : CMasternodePaymentWinner) :
    (s.AddWinningMasternode env w).2.mapMasternodePayeeVotes
      = voteStep env s.mapMasternodePayeeVotes w := by
  unfold CMasternodePayments.AddWinningMasternode voteStep
  cases env.GetBlockHash (w.nBlockHeight - 100) with
  | none => rfl
  | some _ =>
    by_cases h : mapCount s.mapMasternodePayeeVotes (env.GetHash w) = true
    · simp [h]
    · simp [h]

theorem addWinners_votes (env : Env) (s : CMasternodePayments)
    (l : List CMasternodePaymentWinner) :
    (addWinners env s l).mapMasternodePayeeVotes
      = l.foldl (voteStep env) s.mapMasternodePayeeVotes := by
  induction l generalizing s with
  | nil => rfl
  | cons w t ih =>
    simp only [addWinners, List.foldl_cons] at ih ⊢
    rw [ih, AddWinningMasternode_votes]

theorem voteStep_comm (env : Env) (z : List (uint256 × CMasternodePaymentWinner))
    (x y : CMasternodePaymentWinner) (hne : env.GetHash x ≠ env.GetHash y) :
    voteStep env (voteStep env z x) y = voteStep env (voteStep env z y) x := by
  have hne' : env.GetHash y ≠ env.GetHash x := fun h => hne h.symm
  unfold voteStep
  cases env.GetBlockHash (x.nBlockHeight - 100) with
  | none => simp
  | some _ =>
    cases env.GetBlockHash (y.nBlockHeight - 100) with
    | none => simp
    | some _ =>
      cases hx : mapCount z (env.GetHash x) <;> cases hy : mapCount z (env.GetHash y) <;>
        simp [hx, hy, mapCount_mapInsert_ne _ _ _ _ hne, mapCount_mapInsert_ne _ _ _ _ hne',
          mapInsert_comm _ _ _ _ _ hne']

theorem payeeVotes_AddPayee (q : CScript) (n : Int) (l : List CMasternodePayee)
    (q2 : CScript) :
    payeeVotes (AddPayee q n l) q2
      = if q2 = q then some ((payeeVotes l q).getD 0 + n) else payeeVotes l q2 := by
  induction l with
  | nil =>
    by_cases h : q2 = q
    · subst h
      simp [AddPayee, payeeVotes]
    · have h' : ¬ q = q2 := fun e => h e.symm
      simp [AddPayee, payeeVotes, h, h']
  | cons p t ih =>
    by_cases hp : p.scriptPubKey = q
    · by_cases h : q2 = q
      · subst h
        simp [AddPayee, payeeVotes, hp]
      · have h' : ¬ p.scriptPubKey = q2 := fun e => h (e.symm.trans hp)
        have h'' : ¬ q = q2 := fun e => h e.symm
        simp [AddPayee, payeeVotes, hp, h, h', h'', List.find?_cons]
    · simp only [AddPayee, hp, if_false]
      by_cases h2 : p.scriptPubKey = q2
      · have h : ¬ q2 = q := fun e => hp (h2.trans e)
        simp [payeeVotes, List.find?_cons, h2, h]
      · unfold payeeVotes at ih ⊢
        simp only [List.find?_cons, h2, hp, decide_False]
        exact ih


theorem AddWinningMasternode_accepts_iff (env : Env) (s : CMasternodePayments)
    (w : CMasternodePaymentWinner) :
    (s.AddWinningMasternode env w).1 = true ↔
      (env.GetBlockHash (w.nBlockHeight - 100)).isSome = true ∧
        mapCount s.mapMasternodePayeeVotes (env.GetHash w) = false := by
  unfold CMasternodePayments.AddWinningMasternode
  cases env.GetBlockHash (w.nBlockHeight - 100) with
  | none => simp
  | some _ =>
    cases h : mapCount s.mapMasternodePayeeVotes (env.GetHash w) <;> simp [h]

theorem tallyVotes_AddWinningMasternode (env : Env) (s : CMasternodePayments)
    (w : CMasternodePaymentWinner) (h : Int) (q : CScript)
    (hadd : (s.AddWinningMasternode env w).1 = true) :
    tallyVotes (s.AddWinningMasternode env w).2.mapMasternodeBlocks h q
      = if h = w.nBlockHeight ∧ q = w.payee then
          some ((tallyVotes s.mapMasternodeBlocks h q).getD 0 + 1)
        else tallyVotes s.mapMasternodeBlocks h q := by
  obtain ⟨_, _, ⟨t, hfind, hvec⟩, hother, _, _⟩ := AddWinningMasternode_true env s w hadd
  by_cases hh : h = w.nBlockHeight
  · subst hh
    unfold tallyVotes
    rw [hfind]
    simp only [Option.bind, hvec, payeeVotes_AddPayee, true_and]
    cases hf : mapFind s.mapMasternodeBlocks w.nBlockHeight with
    | none =>
      by_cases hq : q = w.payee
      · simp [hq, payeeVotes]
      · simp [hq, payeeVotes]
    | some t0 =>
      by_cases hq : q = w.payee
      · simp [hq]
      · simp [hq]
  · unfold tallyVotes
    rw [hother h hh]
    simp [hh]

theorem acceptedFor_cons (env : Env) (votes : List (uint256 × CMasternodePaymentWinner))
    (w : CMasternodePaymentWinner) (t : List CMasternodePaymentWinner) (h : Int)
    (q : CScript) :
    acceptedFor env votes (w :: t) h q
      = if (env.GetBlockHash (w.nBlockHeight - 100)).isSome = true ∧
            mapCount votes (env.GetHash w) = false ∧ w.nBlockHeight = h ∧ w.payee = q
        then w :: acceptedFor env votes t h q else acceptedFor env votes t h q := by
  unfold acceptedFor
  rw [List.filter_cons]
  by_cases hp : (env.GetBlockHash (w.nBlockHeight - 100)).isSome = true ∧
      mapCount votes (env.GetHash w) = false ∧ w.nBlockHeight = h ∧ w.payee = q
  · rw [if_pos hp]
    have hd := decide_eq_true hp
    simp only [hd, if_true]
  · rw [if_neg hp]
    have hd := decide_eq_false hp
    simp only [hd, Bool.false_eq_true, if_false]

theorem acceptedFor_voteStep (env : Env) (votes : List (uint256 × CMasternodePaymentWinner))
    (w : CMasternodePaymentWinner) (t : List CMasternodePaymentWinner) (h : Int)
    (q : CScript) (hfresh : env.GetHash w ∉ t.map env.GetHash) :
    acceptedFor env (voteStep env votes w) t h q = acceptedFor env votes t h q := by
  unfold acceptedFor
  apply List.filter_congr
  intro x hx
  have hne : env.GetHash x ≠ env.GetHash w := by
    intro e
    exact hfresh (e ▸ List.mem_map_of_mem _ hx)
  have hcount : mapCount (voteStep env votes w) (env.GetHash x)
      = mapCount votes (env.GetHash x) := by
    unfold voteStep
    cases env.GetBlockHash (w.nBlockHeight - 100) with
    | none => rfl
    | some _ =>
      by_cases hc : mapCount votes (env.GetHash w) = true
      · simp [hc]
      · simp only [hc, Bool.false_eq_true, if_false]
        exact mapCount_mapInsert_ne _ _ _ _ hne
  rw [hcount]

/-- The mapping from payee script to vote count after a list of votes with
distinct hashes went through `AddWinningMasternode`: the count before plus the
number of accepted votes for the height and the script. -/
theorem tallyVotes_addWinners (env : Env) (s : CMasternodePayments)
    (l : List CMasternodePaymentWinner) (h : Int) (q : CScript)
    (hd : (l.map env.GetHash).Nodup) :
    tallyVotes (addWinners env s l).mapMasternodeBlocks h q
      = if (acceptedFor env s.mapMasternodePayeeVotes l h q).length = 0 then
          tallyVotes s.mapMasternodeBlocks h q
        else
          some ((tallyVotes s.mapMasternodeBlocks h q).getD 0
            + ((acceptedFor env s.mapMasternodePayeeVotes l h q).length : Int)) := by
  induction l generalizing s with
  | nil => simp [addWinners, acceptedFor]
  | cons w t ih =>
    rw [List.map_cons, List.nodup_cons] at hd
    have hstep : addWinners env s (w :: t) = addWinners env (s.AddWinningMasternode env w).2 t :=
      rfl
    rw [hstep, ih _ hd.2, AddWinningMasternode_votes, acceptedFor_voteStep env _ w t h q hd.1,
      acceptedFor_cons]
    cases hadd : (s.AddWinningMasternode env w).1 with
    | false =>
      have hno : ¬ ((env.GetBlockHash (w.nBlockHeight - 100)).isSome = true ∧
          mapCount s.mapMasternodePayeeVotes (env.GetHash w) = false ∧
          w.nBlockHeight = h ∧ w.payee = q) := by
        intro hp
        have := (AddWinningMasternode_accepts_iff env s w).mpr ⟨hp.1, hp.2.1⟩
        rw [hadd] at this
        exact absurd this (by simp)
      rw [AddWinningMasternode_false env s w hadd, if_neg hno]
    | true =>
      obtain ⟨hb, hc⟩ := (AddWinningMasternode_accepts_iff env s w).mp hadd
      rw [tallyVotes_AddWinningMasternode env s w h q hadd]
      by_cases hm : h = w.nBlockHeight ∧ q = w.payee
      · have hp : (env.GetBlockHash (w.nBlockHeight - 100)).isSome = true ∧
            mapCount s.mapMasternodePayeeVotes (env.GetHash w) = false ∧
            w.nBlockHeight = h ∧ w.payee = q := ⟨hb, hc, hm.1.symm, hm.2.symm⟩
        rw [if_pos hm, if_pos hp]
        simp only [List.length_cons, Nat.add_one_ne_zero, if_false, Option.getD_some]
        by_cases hz : (acceptedFor env s.mapMasternodePayeeVotes t h q).length = 0
        · simp [hz]
        · simp only [hz, if_false]
          congr 1
          push_cast
          ring
      · have hp : ¬ ((env.GetBlockHash (w.nBlockHeight - 100)).isSome = true ∧
            mapCount s.mapMasternodePayeeVotes (env.GetHash w) = false ∧
            w.nBlockHeight = h ∧ w.payee = q) := by
          intro hp
          exact hm ⟨hp.2.2.1.symm, hp.2.2.2.symm⟩
        rw [if_neg hm, if_neg hp]

/-- C26. Order-independent tallies: votes with pairwise distinct hashes that go
through `AddWinningMasternode` in two different orders leave the same
`mapMasternodePayeeVotes` and, for every height, the same mapping from payee
script to vote count; only the order of the payees inside a tally may differ. -/
theorem C26_order_independent_tallies (env : Env) (s : CMasternodePayments)
    (l1 l2 : List CMasternodePaymentWinner)
    (hperm : l1.Perm l2) (hdistinct : (l1.map env.GetHash).Nodup) :
    (addWinners env s l1).mapMasternodePayeeVotes
      = (addWinners env s l2).mapMasternodePayeeVotes ∧
    ∀ h q, tallyVotes (addWinners env s l1).mapMasternodeBlocks h q
      = tallyVotes (addWinners env s l2).mapMasternodeBlocks h q := by
  constructor
  · rw [addWinners_votes, addWinners_votes]
    apply List.Perm.foldl_eq' hperm
    intro x hx y hy z
    by_cases hxy : env.GetHash x = env.GetHash y
    · have : x = y := List.inj_on_of_nodup_map hdistinct hx hy hxy
      rw [this]
    · exact voteStep_comm env z x y hxy
  · intro h q
    have hd2 : (l2.map env.GetHash).Nodup := (hperm.map _).nodup_iff.mp hdistinct
    rw [tallyVotes_addWinners env s l1 h q hdistinct, tallyVotes_addWinners env s l2 h q hd2]
    have hlen : (acceptedFor env s.mapMasternodePayeeVotes l1 h q).length
        = (acceptedFor env s.mapMasternodePayeeVotes l2 h q).length :=
      (hperm.filter _).length_eq
    rw [hlen]

/-- Voter 1 for payee `[5]`, voter 2 for payee `[6]` and voter 3 for payee `[5]`,
all for height 1001, in two orders: the same votes and the same counts, while the
payees of the tally stand in a different order. -/
theorem C26_order_independent_tallies_witness :
    ((addWinners demoEnv CMasternodePayments.empty
        [demoVote 1 1001 5, demoVote 2 1001 6, demoVote 3 1001 5]).mapMasternodePayeeVotes
      = (addWinners demoEnv CMasternodePayments.empty
        [demoVote 2 1001 6, demoVote 1 1001 5, demoVote 3 1001 5]).mapMasternodePayeeVotes ∧
      ∀ h q, tallyVotes (addWinners demoEnv CMasternodePayments.empty
          [demoVote 1 1001 5, demoVote 2 1001 6, demoVote 3 1001 5]).mapMasternodeBlocks h q
        = tallyVotes (addWinners demoEnv CMasternodePayments.empty
          [demoVote 2 1001 6, demoVote 1 1001 5, demoVote 3 1001 5]).mapMasternodeBlocks h q) ∧
    (addWinners demoEnv CMasternodePayments.empty
        [demoVote 1 1001 5, demoVote 2 1001 6, demoVote 3 1001 5]).mapMasternodeBlocks
      = [(1001, ⟨1001, [⟨[5], 2⟩, ⟨[6], 1⟩]⟩)] ∧
    (addWinners demoEnv CMasternodePayments.empty
        [demoVote 2 1001 6, demoVote 1 1001 5, demoVote 3 1001 5]).mapMasternodeBlocks
      = [(1001, ⟨1001, [⟨[6], 1⟩, ⟨[5], 2⟩]⟩)] :=
  ⟨C26_order_independent_tallies demoEnv CMasternodePayments.empty
      [demoVote 1 1001 5, demoVote 2 1001 6, demoVote 3 1001 5]
      [demoVote 2 1001 6, demoVote 1 1001 5, demoVote 3 1001 5]
      (List.Perm.swap _ _ _) (by decide),
    by decide, by decide⟩

end MasternodePayments
